import Mathlib

/-!
# PROXY protocol decoder and connection reactor

A shallow embedding of `src/proxyproto.cc`, `src/inet_address.cc`, the
connection handling and start-up of `src/server.cc`, `src/conf.cc` and the
exit status of `src/main.cc`, followed by the properties proved about them.

Conventions of the embedding.

* Memory reached through `const char* data` is a function from offsets to
  cells; a read takes the cell modulo 256.  Offsets at or above `size` are
  memory that follows the buffer, so a read past the buffer is visible as a
  dependence of the result on those cells.
* A C string passed to a library function is the list of its bytes before
  the terminating NUL.
* `static_cast<int>` of a `size_t` is reduction to the signed 32-bit range.
* The C library functions used by the decoder (`memchr`, `strtok_r`,
  `strtoll`, `inet_pton`, `inet_ntop`, ...) are modelled after their
  documented behaviour; scans that run to a NUL byte carry a bound so that
  they are total.
* System calls (`recv`, `accept`, `epoll_wait`, the calls of `Start`) and
  the results of `getopt_long` enter the functions as outcomes supplied by
  the caller.
-/

namespace ProxyProto

/-! ## Memory and byte strings -/

/-- Memory seen from the pointer `data`: the cell at every offset. -/
abbrev Mem := Nat → Nat

/-- Reads the byte at offset `i`. -/
def rd (data : Mem) (i : Nat) : Nat := data i % 256

/-- Stores the byte `v` at offset `i`. -/
def wr (data : Mem) (i v : Nat) : Mem := fun j => if j = i then v else data j

/-- The bytes at offsets `s`, ..., `e - 1`. -/
def bytes (data : Mem) (s e : Nat) : List Nat :=
  (List.range (e - s)).map (fun k => rd data (s + k))

/-- Memory that holds the bytes of `l` from offset 0 on and `rest` after them. -/
def memOf (l : List Nat) (rest : Mem) : Mem :=
  fun i => if i < l.length then l.getD i 0 else rest (i - l.length)

/-- Memory that is zero everywhere. -/
def zeroMem : Mem := fun _ => 0

/-- The ASCII codes of a string literal. -/
def ascii (s : String) : List Nat := s.toList.map (fun c => c.toNat)

/-! ## Constants of `proxyproto.cc` -/

/-- The 12-byte signature `v2sig`. -/
def v2sig : List Nat :=
  [0x0D, 0x0A, 0x0D, 0x0A, 0x00, 0x0D, 0x0A, 0x51, 0x55, 0x49, 0x54, 0x0A]

/-- The literal "PROXY". -/
def sigV1 : List Nat := [80, 82, 79, 88, 89]

/-- The literal "TCP4". -/
def strTCP4 : List Nat := [84, 67, 80, 52]

/-- The literal "TCP6". -/
def strTCP6 : List Nat := [84, 67, 80, 54]

def kNeedMoreData : Int := 0
def kWrongProtocol : Int := -1
def kWrongDataSize : Int := -2
def kUnknownCommand : Int := -3
def kUnknownFamily : Int := -4
def kInvalidAddr : Int := -6
def kInvalidPort : Int := -7

def AF_INET : Nat := 2
def AF_INET6 : Nat := 10
def UINT16_MAX : Int := 65535
def LLONG_MAX : Int := 9223372036854775807
def LLONG_MIN : Int := -9223372036854775808

/-- Value of `static_cast<int>(n)` for a `size_t` n: reduction modulo 2^32
into the range of a 32-bit signed integer. -/
def toInt32 (n : Nat) : Int :=
  (((n + 2147483648) % 4294967296 : Nat) : Int) - 2147483648

/-- Value of `ntohs` of the 16-bit field whose bytes in memory are `b0 b1`. -/
def ntohs (b0 b1 : Nat) : Nat := (256 * b0 + b1) % 65536

/-- Bytes in memory of `htons(port)`. -/
def htons (port : Nat) : List Nat := [port / 256 % 256, port % 256]

/-! ## `InetAddress` -/

/-- Observable content of an `InetAddress`: the family tag shared by both
members of the union, the port field as stored (network byte order) and the
address bytes as stored (4 for `sockaddr_in`, 16 for `sockaddr_in6`). -/
structure InetAddress where
  family : Nat
  port : List Nat
  addr : List Nat
deriving DecidableEq

/-- Result of `InetAddress()`: port 0, IPv4, any address. -/
def InetAddress.default : InetAddress :=
  { family := AF_INET, port := htons 0, addr := [0, 0, 0, 0] }

/-- Effect of `set_addr4` with a `sockaddr_in` of the given port and address. -/
def set_addr4 (port addr : List Nat) : InetAddress :=
  { family := AF_INET, port := port, addr := addr }

/-- Effect of `set_addr6` with a `sockaddr_in6` of the given port and address. -/
def set_addr6 (port addr : List Nat) : InetAddress :=
  { family := AF_INET6, port := port, addr := addr }

/-! ## C library: characters and numbers -/

def isdigit (c : Nat) : Bool := decide (48 ≤ c ∧ c ≤ 57)

def isspace (c : Nat) : Bool := decide (c = 32 ∨ (9 ≤ c ∧ c ≤ 13))

/-- Value of a string of decimal digits. -/
def decimalValue (ds : List Nat) : Nat :=
  ds.foldl (fun v c => 10 * v + (c - 48)) 0

/-- Sign character in front of a number: whether it negates and how many
bytes it takes. -/
def signOf (s : List Nat) : Bool × Nat :=
  match s with
  | 45 :: _ => (true, 1)
  | 43 :: _ => (false, 1)
  | _ => (false, 0)

/-- Outcome of `strtoll(numstr, &ep, 10)`: the value, the offset of `ep` from
`numstr`, and whether `errno` was set to `ERANGE`. -/
def strtoll (numstr : List Nat) : Int × Nat × Bool :=
  let ws := (numstr.takeWhile isspace).length
  let sg := signOf (numstr.drop ws)
  let ds := (numstr.drop (ws + sg.2)).takeWhile isdigit
  if ds = [] then (0, 0, false)
  else
    let v : Int := decimalValue ds
    let ep := ws + sg.2 + ds.length
    if sg.1 then
      if -v < LLONG_MIN then (LLONG_MIN, ep, true) else (-v, ep, false)
    else
      if LLONG_MAX < v then (LLONG_MAX, ep, true) else (v, ep, false)

/-- Outcome of `strtonum(numstr, minval, maxval, &errstr)`: the returned value
and the error kind (0 none, 1 INVALID, 2 TOOSMALL, 3 TOOLARGE); `errstr` is
non-null exactly when the kind is not 0. -/
def strtonum (numstr : List Nat) (minval maxval : Int) : Int × Nat :=
  let error : Nat :=
    if minval > maxval then 1
    else
      let r := strtoll numstr
      if r.2.1 = 0 ∨ r.2.1 ≠ numstr.length then 1
      else if (r.1 = LLONG_MIN ∧ r.2.2 = true) ∨ r.1 < minval then 2
      else if (r.1 = LLONG_MAX ∧ r.2.2 = true) ∨ r.1 > maxval then 3
      else 0
  if error ≠ 0 then (0, error) else ((strtoll numstr).1, 0)

/-- Decimal digits of `n`, most significant first (`%u`). -/
def utoaAux : Nat → Nat → List Nat → List Nat
  | 0, _, acc => acc
  | fuel + 1, n, acc =>
    if n / 10 = 0 then (48 + n % 10) :: acc
    else utoaAux fuel (n / 10) ((48 + n % 10) :: acc)

def utoa (n : Nat) : List Nat := utoaAux (n + 1) n []

/-- Lower-case hexadecimal digit. -/
def hexChar (d : Nat) : Nat := if d < 10 then 48 + d else 87 + d

/-- Hexadecimal digits of `n`, most significant first (`%x`). -/
def xtoaAux : Nat → Nat → List Nat → List Nat
  | 0, _, acc => acc
  | fuel + 1, n, acc =>
    if n / 16 = 0 then hexChar (n % 16) :: acc
    else xtoaAux fuel (n / 16) (hexChar (n % 16) :: acc)

def xtoa (n : Nat) : List Nat := xtoaAux (n + 1) n []

/-! ## C library: memory and string scanning -/

/-- Search for the byte `c` among `n` bytes starting at offset `i`. -/
def memchrFrom (data : Mem) (c : Nat) : Nat → Nat → Option Nat
  | _, 0 => none
  | i, n + 1 => if rd data i = c then some i else memchrFrom data c (i + 1) n

/-- Offset of the first byte equal to `c` among the first `n` bytes
(`memchr(data, c, n)`), or `none` for a null result. -/
def memchr (data : Mem) (c n : Nat) : Option Nat := memchrFrom data c 0 n

/-- Whether `memcmp(data, s, n) == 0`. -/
def memcmpEq (data : Mem) (s : List Nat) (n : Nat) : Bool :=
  decide (∀ i, i < n → rd data i = s.getD i 0)

/-- Length of the initial run at offset `s` of bytes that belong to `accept`
(`strspn`); the scan is bounded by the fuel. -/
def strspn (data : Mem) (accept : List Nat) : Nat → Nat → Nat
  | _, 0 => 0
  | s, fuel + 1 =>
    if rd data s ≠ 0 ∧ rd data s ∈ accept then strspn data accept (s + 1) fuel + 1
    else 0

/-- Length of the initial run at offset `s` of bytes that are neither NUL nor
in `reject` (`strcspn`); the scan is bounded by the fuel. -/
def strcspn (data : Mem) (reject : List Nat) : Nat → Nat → Nat
  | _, 0 => 0
  | s, fuel + 1 =>
    if rd data s ≠ 0 ∧ rd data s ∉ reject then strcspn data reject (s + 1) fuel + 1
    else 0

/-- Outcome of one `strtok_r` call: the token as the offsets of its first
byte and of its terminator (`none` for a null result), the memory after the
call and the new `saveptr`. -/
structure Tok where
  token : Option (Nat × Nat)
  data : Mem
  save_ptr : Nat

/-- The call `strtok_r(str, delim, &saveptr)` with the scan starting at
offset `s` (the string on the first call, `saveptr` afterwards). -/
def strtok_r (data : Mem) (s : Nat) (delim : List Nat) (fuel : Nat) : Tok :=
  if rd data s = 0 then ⟨none, data, s⟩
  else
    let s1 := s + strspn data delim s fuel
    if rd data s1 = 0 then ⟨none, data, s1⟩
    else
      let e := s1 + strcspn data delim s1 fuel
      if rd data e = 0 then ⟨some (s1, e), data, e⟩
      else ⟨some (s1, e), wr data e 0, e + 1⟩

/-! ## C library: address text -/

/-- Scanner state of `inet_pton4`: the octets completed so far, the octet
being read, and the `saw_digit` and `octets` variables. -/
structure Pton4 where
  done : List Nat
  cur : Nat
  saw_digit : Bool
  octets : Nat

/-- One character of the `inet_pton4` loop; `none` is the return of 0. -/
def inet_pton4_step (st : Pton4) (ch : Nat) : Option Pton4 :=
  if 48 ≤ ch ∧ ch ≤ 57 then
    let new := st.cur * 10 + (ch - 48)
    if st.saw_digit = true ∧ st.cur = 0 then none
    else if new > 255 then none
    else if st.saw_digit = false then
      if st.octets + 1 > 4 then none
      else some ⟨st.done, new, true, st.octets + 1⟩
    else some ⟨st.done, new, st.saw_digit, st.octets⟩
  else if ch = 46 ∧ st.saw_digit = true then
    if st.octets = 4 then none
    else some ⟨st.done ++ [st.cur], 0, false, st.octets⟩
  else none

def inet_pton4_loop : List Nat → Pton4 → Option Pton4
  | [], st => some st
  | ch :: rest, st =>
    match inet_pton4_step st ch with
    | none => none
    | some st1 => inet_pton4_loop rest st1

/-- Dotted-quad text to 4 address bytes (`inet_pton(AF_INET, ...)`). -/
def inet_pton4 (src : List Nat) : Option (List Nat) :=
  match inet_pton4_loop src ⟨[], 0, false, 0⟩ with
  | none => none
  | some st => if st.octets < 4 then none else some (st.done ++ [st.cur])

def hex_digit_value (ch : Nat) : Option Nat :=
  if 48 ≤ ch ∧ ch ≤ 57 then some (ch - 48)
  else if 97 ≤ ch ∧ ch ≤ 102 then some (ch - 97 + 10)
  else if 65 ≤ ch ∧ ch ≤ 70 then some (ch - 65 + 10)
  else none

/-- Scanner state of `inet_pton6`: the bytes written to `tmp` so far, the
offset of `colonp` in it, `xdigits_seen` and `val`. -/
structure Pton6 where
  tmp : List Nat
  colonp : Option Nat
  xdigits_seen : Nat
  val : Nat

/-- The main loop of `inet_pton6` on the rest of the text; `curtok` is the
text from the start of the current group. -/
def inet_pton6_loop : List Nat → List Nat → Pton6 → Option Pton6
  | [], _, st => some st
  | ch :: rest, curtok, st =>
    match hex_digit_value ch with
    | some digit =>
      if st.xdigits_seen = 4 then none
      else if st.val * 16 + digit > 0xffff then none
      else inet_pton6_loop rest curtok
        ⟨st.tmp, st.colonp, st.xdigits_seen + 1, st.val * 16 + digit⟩
    | none =>
      if ch = 58 then
        if st.xdigits_seen = 0 then
          if st.colonp.isSome then none
          else inet_pton6_loop rest rest ⟨st.tmp, some st.tmp.length, 0, st.val⟩
        else if rest = [] then none
        else if st.tmp.length + 2 > 16 then none
        else inet_pton6_loop rest rest
          ⟨st.tmp ++ [st.val / 256 % 256, st.val % 256], st.colonp, 0, 0⟩
      else if ch = 46 ∧ st.tmp.length + 4 ≤ 16 then
        match inet_pton4 curtok with
        | some quad => some ⟨st.tmp ++ quad, st.colonp, 0, st.val⟩
        | none => none
      else none

/-- What `inet_pton6` does after its main loop: store the last group and
expand the `::`. -/
def inet_pton6_finish (st : Pton6) : Option (List Nat) :=
  if st.xdigits_seen > 0 ∧ st.tmp.length + 2 > 16 then none
  else
    let tmp :=
      if st.xdigits_seen > 0 then st.tmp ++ [st.val / 256 % 256, st.val % 256]
      else st.tmp
    match st.colonp with
    | some c =>
      if tmp.length = 16 then none
      else some (tmp.take c ++ List.replicate (16 - tmp.length) 0 ++ tmp.drop c)
    | none => if tmp.length ≠ 16 then none else some tmp

/-- IPv6 text to 16 address bytes (`inet_pton(AF_INET6, ...)`). -/
def inet_pton6 (src : List Nat) : Option (List Nat) :=
  match src with
  | [] => none
  | 58 :: rest =>
    (match rest with
     | 58 :: _ =>
       (match inet_pton6_loop rest rest ⟨[], none, 0, 0⟩ with
        | none => none
        | some st => inet_pton6_finish st)
     | _ => none)
  | _ =>
    match inet_pton6_loop src src ⟨[], none, 0, 0⟩ with
    | none => none
    | some st => inet_pton6_finish st

/-- The call `inet_pton(af, src, buf)`: the bytes stored in `buf` when it
returns 1, `none` when it returns anything else. -/
def inet_pton (af : Nat) (src : List Nat) : Option (List Nat) :=
  if af = AF_INET then inet_pton4 src
  else if af = AF_INET6 then inet_pton6 src
  else none

/-- Text of 4 address bytes (`inet_ntop(AF_INET, ...)`, format `%u.%u.%u.%u`). -/
def inet_ntop4 (a : List Nat) : List Nat :=
  utoa (a.getD 0 0) ++ [46] ++ utoa (a.getD 1 0) ++ [46] ++ utoa (a.getD 2 0) ++ [46]
    ++ utoa (a.getD 3 0)

/-- Scan of `inet_ntop6` for the longest run of zero words: `best` and `cur`
as (base, len) with `none` for base -1. -/
def ntop6_scan : List Nat → Nat → Option (Nat × Nat) → Option (Nat × Nat) →
    Option (Nat × Nat)
  | [], _, best, cur =>
    (match cur with
     | some c =>
       (match best with
        | none => some c
        | some b => if c.2 > b.2 then some c else some b)
     | none => best)
  | w :: ws, i, best, cur =>
    if w = 0 then
      (match cur with
       | none => ntop6_scan ws (i + 1) best (some (i, 1))
       | some c => ntop6_scan ws (i + 1) best (some (c.1, c.2 + 1)))
    else
      (match cur with
       | some c =>
         (match best with
          | none => ntop6_scan ws (i + 1) (some c) none
          | some b =>
            if c.2 > b.2 then ntop6_scan ws (i + 1) (some c) none
            else ntop6_scan ws (i + 1) (some b) none)
       | none => ntop6_scan ws (i + 1) best none)

/-- The formatting loop of `inet_ntop6` from word `i` on, with fuel for the
remaining words. -/
def ntop6_format (src words : List Nat) (best : Option (Nat × Nat)) : Nat → Nat → List Nat
  | _, 0 => []
  | i, fuel + 1 =>
    match best with
    | some b =>
      if b.1 ≤ i ∧ i < b.1 + b.2 then
        (if i = b.1 then [58] else []) ++ ntop6_format src words best (i + 1) fuel
      else
        (if i ≠ 0 then [58] else []) ++
          (if i = 6 ∧ b.1 = 0 ∧ (b.2 = 6 ∨ (b.2 = 5 ∧ words.getD 5 0 = 0xffff)) then
            inet_ntop4 (src.drop 12)
          else xtoa (words.getD i 0) ++ ntop6_format src words best (i + 1) fuel)
    | none =>
      (if i ≠ 0 then [58] else []) ++ xtoa (words.getD i 0)
        ++ ntop6_format src words best (i + 1) fuel

/-- Text of 16 address bytes (`inet_ntop(AF_INET6, ...)`). -/
def inet_ntop6 (src : List Nat) : List Nat :=
  let words := (List.range 8).map (fun i => 256 * src.getD (2 * i) 0 + src.getD (2 * i + 1) 0)
  let best0 := ntop6_scan words 0 none none
  let best := match best0 with
    | some b => if b.2 < 2 then none else some b
    | none => none
  let body := ntop6_format src words best 0 8
  match best with
  | some b => if b.1 + b.2 = 8 then body ++ [58] else body
  | none => body

/-! ## `inet_address.cc` -/

/-- Text written by `detail::ToAddr`, `none` for the return of -1. -/
def detail_ToAddr (a : InetAddress) : Option (List Nat) :=
  if a.family = AF_INET then some (inet_ntop4 a.addr)
  else if a.family = AF_INET6 then some (inet_ntop6 a.addr)
  else none

/-- Text written by `detail::ToAddrPort`, `none` for the return of -1. -/
def detail_ToAddrPort (a : InetAddress) : Option (List Nat) :=
  match detail_ToAddr a with
  | none => none
  | some buf => some (buf ++ [58] ++ utoa (ntohs (a.port.getD 0 0) (a.port.getD 1 0)))

/-- Method `InetAddress::ToAddrPort`. -/
def InetAddress.ToAddrPort (a : InetAddress) : List Nat :=
  match detail_ToAddrPort a with
  | some buf => buf
  | none => []

/-- Method `InetAddress::ToPort`. -/
def InetAddress.ToPort (a : InetAddress) : Nat :=
  ntohs (a.port.getD 0 0) (a.port.getD 1 0)

/-! ## `proxyproto.cc` -/

/-- What a decoder call leaves behind: the returned `int`, the two output
addresses and the memory behind `data`. -/
structure Result where
  ret : Int
  src : InetAddress
  dst : InetAddress
  data : Mem

/-- Function `DecodeV2`. -/
def DecodeV2 (data : Mem) (size : Nat) (src dst : InetAddress) : Result :=
  let n := 16 + ntohs (rd data 14) (rd data 15)
  if size < n then ⟨kWrongDataSize, src, dst, data⟩
  else if rd data 12 &&& 0xF = 0x01 then
    if rd data 13 = 0x11 then
      ⟨toInt32 n, set_addr4 (bytes data 24 26) (bytes data 16 20),
        set_addr4 (bytes data 26 28) (bytes data 20 24), data⟩
    else if rd data 13 = 0x21 then
      ⟨toInt32 n, set_addr6 (bytes data 48 50) (bytes data 16 32),
        set_addr6 (bytes data 50 52) (bytes data 32 48), data⟩
    else ⟨kUnknownFamily, src, dst, data⟩
  else ⟨kUnknownCommand, src, dst, data⟩

/-- Port token of `DecodeV1` (cases 5 and 6): `none` for the return of
`kInvalidPort`, otherwise the value of `port`. -/
def parsePort (token : List Nat) : Option Nat :=
  if isdigit (token.headD 0) = false then none
  else
    let r := strtonum token 0 UINT16_MAX
    if r.2 ≠ 0 then none else some (r.1 % 65536).toNat

/-- The token loop of `DecodeV1` (`for (int i = 1;; i++, str = nullptr)`),
entered with the memory `d0` in which the CR at offset `e` has been replaced
by NUL.  The loop is unrolled: every case either returns or moves on to the
next token, and case 6 always returns.  The scans of `strtok_r` are bounded
by `size`; they stop at the NUL at offset `e`, below `size`, so the bound is
never reached (`DecodeV1_loop_fuel`). -/
def DecodeV1_loop (d0 : Mem) (size e : Nat) (src dst : InetAddress) : Result :=
  let t1 := strtok_r d0 0 [32] size
  match t1.token with
  | none => ⟨kWrongProtocol, src, dst, t1.data⟩
  | some _ =>
  let t2 := strtok_r t1.data t1.save_ptr [32] size
  match t2.token with
  | none => ⟨kWrongProtocol, src, dst, t2.data⟩
  | some p2 =>
  let tag := bytes t2.data p2.1 p2.2
  if tag ≠ strTCP4 ∧ tag ≠ strTCP6 then ⟨kUnknownFamily, src, dst, t2.data⟩
  else
  let af := if tag = strTCP4 then AF_INET else AF_INET6
  let t3 := strtok_r t2.data t2.save_ptr [32] size
  match t3.token with
  | none => ⟨kWrongProtocol, src, dst, t3.data⟩
  | some p3 =>
  match inet_pton af (bytes t3.data p3.1 p3.2) with
  | none => ⟨kInvalidAddr, src, dst, t3.data⟩
  | some src_ip =>
  let t4 := strtok_r t3.data t3.save_ptr [32] size
  match t4.token with
  | none => ⟨kWrongProtocol, src, dst, t4.data⟩
  | some p4 =>
  match inet_pton af (bytes t4.data p4.1 p4.2) with
  | none => ⟨kInvalidAddr, src, dst, t4.data⟩
  | some dst_ip =>
  let t5 := strtok_r t4.data t4.save_ptr [32] size
  match t5.token with
  | none => ⟨kWrongProtocol, src, dst, t5.data⟩
  | some p5 =>
  match parsePort (bytes t5.data p5.1 p5.2) with
  | none => ⟨kInvalidPort, src, dst, t5.data⟩
  | some src_port =>
  let t6 := strtok_r t5.data t5.save_ptr [32] size
  match t6.token with
  | none => ⟨kWrongProtocol, src, dst, t6.data⟩
  | some p6 =>
  match parsePort (bytes t6.data p6.1 p6.2) with
  | none => ⟨kInvalidPort, src, dst, t6.data⟩
  | some dst_port =>
    if af = AF_INET then
      ⟨toInt32 (e + 2), set_addr4 (htons src_port) src_ip,
        set_addr4 (htons dst_port) dst_ip, t6.data⟩
    else
      ⟨toInt32 (e + 2), set_addr6 (htons src_port) src_ip,
        set_addr6 (htons dst_port) dst_ip, t6.data⟩

/-- Function `DecodeV1`: the search for the line end, then the token loop. -/
def DecodeV1 (data : Mem) (size : Nat) (src dst : InetAddress) : Result :=
  match memchr data 13 (size - 1) with
  | none => ⟨kWrongProtocol, src, dst, data⟩
  | some e =>
    if rd data (e + 1) ≠ 10 then ⟨kWrongProtocol, src, dst, data⟩
    else DecodeV1_loop (wr data e 0) size e src dst

/-- Function `DecodeProxyProto`. -/
def DecodeProxyProto (data : Mem) (size : Nat) (src dst : InetAddress) : Result :=
  if size ≥ 16 ∧ memcmpEq data v2sig 12 = true ∧ rd data 12 &&& 0xF0 = 0x20 then
    DecodeV2 data size src dst
  else if size ≥ 8 ∧ memcmpEq data sigV1 5 = true then
    DecodeV1 data size src dst
  else if size ≥ 16 then ⟨kWrongProtocol, src, dst, data⟩
  else if memcmpEq data v2sig (min 12 size) = true then ⟨kNeedMoreData, src, dst, data⟩
  else if size ≥ 8 then ⟨kWrongProtocol, src, dst, data⟩
  else if memcmpEq data sigV1 (min 5 size) = true then ⟨kNeedMoreData, src, dst, data⟩
  else ⟨kWrongProtocol, src, dst, data⟩

/-! ## `server.cc`: connections and event handling -/

def POLLIN : Nat := 0x001
def POLLPRI : Nat := 0x002
def POLLOUT : Nat := 0x004
def POLLERR : Nat := 0x008
def POLLHUP : Nat := 0x010
def POLLNVAL : Nat := 0x020
def POLLRDHUP : Nat := 0x2000

def kDisconnected : Nat := 0
def kConnected : Nat := 1
def kNoneEvent : Nat := 0
def kReadEvent : Nat := POLLIN ||| POLLPRI
def kWriteEvent : Nat := POLLOUT
def kMaxConnNum : Nat := 1024
def kInitialEventsNum : Nat := 4
def kMaxEventsNum : Nat := 20

/-- The record `Server::Conn`; the name is kept as the three numbers it is
printed from (sequence number, descriptor, accept time). -/
structure Conn where
  name : Nat × Int × Nat
  state : Nat
  sockfd : Int
  watch_events : Nat
  conn_time : Nat
  ibuf : List Nat
  obuf : List Nat

/-- Outcome of the `recv` call of `OnConnEvt`: the returned count, the bytes
placed in the local chunk, and the memory that follows the contents of the
input string (its terminator and spare capacity) at the time of the decode. -/
structure RecvOutcome where
  n : Int
  buf : List Nat
  slack : Mem

/-- Function `Server::DisableWriting`, on the connection record. -/
def DisableWriting (conn : Conn) : Conn :=
  { conn with watch_events := conn.watch_events &&& (4294967295 - kWriteEvent) }

/-- The readable branch of `Server::OnConnEvt`. -/
def OnReadable (conn : Conn) (r : RecvOutcome) : Conn :=
  if r.n > 0 then
    let ibuf := conn.ibuf ++ r.buf.take r.n.toNat
    let res := DecodeProxyProto (memOf ibuf r.slack) ibuf.length
      InetAddress.default InetAddress.default
    let conn1 := { conn with ibuf := bytes res.data 0 ibuf.length }
    if res.ret > 0 then { conn1 with state := kDisconnected }
    else conn1
  else if r.n = 0 then { conn with state := kDisconnected }
  else conn

/-- Function `Server::OnConnEvt`. -/
def OnConnEvt (conn : Conn) (events : Nat) (r : RecvOutcome) : Conn :=
  let c1 :=
    if events &&& POLLHUP ≠ 0 ∧ ¬ (events &&& POLLIN ≠ 0) then
      { conn with state := kDisconnected }
    else conn
  let c2 :=
    if events &&& (POLLERR ||| POLLNVAL) ≠ 0 then { c1 with state := kDisconnected }
    else c1
  let c3 :=
    if events &&& (POLLIN ||| POLLPRI ||| POLLRDHUP) ≠ 0 then OnReadable c2 r
    else c2
  if events &&& POLLOUT ≠ 0 then
    (if c3.obuf = [] then DisableWriting c3 else c3)
  else c3

/-- The reactor state touched by polling: the connection table `conns_`
keyed by connection address, the counter `conn_index_`, the size of the vector
`active_events_`, and the descriptors closed so far. -/
structure Server where
  conns_ : List (Nat × Conn)
  conn_index_ : Nat
  active_events_ : Nat
  closed : List Int

/-- State built by the constructor `Server::Server`: no connection, counter 0
and `kInitialEventsNum` event slots. -/
def Server.initial : Server :=
  { conns_ := [], conn_index_ := 0, active_events_ := kInitialEventsNum, closed := [] }

/-- The helper `Close(int& fd)`: a descriptor other than -1 is closed. -/
def Close (fd : Int) (closed : List Int) : List Int :=
  if fd ≠ -1 then fd :: closed else closed

/-- Lookup `conns_.find(conn)`. -/
def findConn (conns : List (Nat × Conn)) (key : Nat) : Option Conn :=
  match conns with
  | [] => none
  | (k, c) :: rest => if k = key then some c else findConn rest key

/-- Replaces the record stored under `key`. -/
def storeConn (conns : List (Nat × Conn)) (key : Nat) (c : Conn) : List (Nat × Conn) :=
  match conns with
  | [] => []
  | (k, c0) :: rest =>
    if k = key then (k, c) :: rest else (k, c0) :: storeConn rest key c

/-- Removal `conns_.erase(conn)`. -/
def eraseConn (conns : List (Nat × Conn)) (key : Nat) : List (Nat × Conn) :=
  conns.filter (fun kc => decide (kc.1 ≠ key))

/-- Outcome of the `accept` call of `OnNewConn`: the descriptor (-1 on
failure), the address of the `Conn` allocated for it and the steady time. -/
structure AcceptOutcome where
  sockfd : Int
  ptr : Nat
  now : Nat

/-- Function `Server::OnNewConn`. -/
def OnNewConn (s : Server) (events : Nat) (a : AcceptOutcome) : Server :=
  if events &&& (POLLIN ||| POLLPRI ||| POLLRDHUP) ≠ 0 then
    if a.sockfd ≠ -1 then
      if s.conns_.length ≥ kMaxConnNum then { s with closed := Close a.sockfd s.closed }
      else
        let conn : Conn :=
          { name := (s.conn_index_, a.sockfd, a.now), state := kConnected,
            sockfd := a.sockfd, watch_events := kReadEvent, conn_time := a.now,
            ibuf := [], obuf := [] }
        match findConn s.conns_ a.ptr with
        | some _ =>
          { s with conn_index_ := (s.conn_index_ + 1) % 4294967296,
                   closed := Close a.sockfd s.closed }
        | none =>
          { s with conns_ := s.conns_ ++ [(a.ptr, conn)],
                   conn_index_ := (s.conn_index_ + 1) % 4294967296 }
    else s
  else s

/-- Function `Server::HandleEvents`; `userp` is `none` for the server itself
and `some p` for the connection at address `p`. -/
def HandleEvents (s : Server) (events : Nat) (userp : Option Nat)
    (a : AcceptOutcome) (r : RecvOutcome) : Server :=
  match userp with
  | none => OnNewConn s events a
  | some p =>
    match findConn s.conns_ p with
    | none => s
    | some conn =>
      let conn1 := OnConnEvt conn events r
      if conn1.state = kDisconnected then
        { s with conns_ := eraseConn s.conns_ p, closed := Close conn1.sockfd s.closed }
      else { s with conns_ := storeConn s.conns_ p conn1 }

/-- One ready slot of `epoll_wait` together with the outcomes of the system
calls that handling it makes. -/
structure ReadyEvent where
  events : Nat
  userp : Option Nat
  accept : AcceptOutcome
  recv : RecvOutcome

/-- Handling of a sequence of ready slots, one `HandleEvents` call each. -/
def handleAll (s : Server) (ready : List ReadyEvent) : Server :=
  ready.foldl (fun st ev => HandleEvents st ev.events ev.userp ev.accept ev.recv) s

/-- Function `Server::Poll`, with the return value of `epoll_wait` and the
slots it filled. -/
def Poll (s : Server) (num_events : Int) (ready : List ReadyEvent) : Server :=
  if num_events > 0 then
    let s1 := handleAll s (ready.take num_events.toNat)
    if num_events.toNat = s1.active_events_ ∧ s1.active_events_ < kMaxEventsNum then
      { s1 with active_events_ := min (s1.active_events_ * 2) kMaxEventsNum }
    else s1
  else s

/-- A run of poll cycles, each given by the return value of `epoll_wait` and
the slots it filled. -/
def pollAll (s : Server) (cycles : List (Int × List ReadyEvent)) : Server :=
  cycles.foldl (fun st c => Poll st c.1 c.2) s

/-- Outcomes of the system calls of `Server::Start`, in the order of the
calls; `fcntl` is the result of the last `F_SETFL` attempt. -/
structure StartOutcome where
  epoll_create : Int
  socket : Int
  fcntl : Int
  setsockopt : Int
  bind : Int
  listen : Int

/-- Return value of `Server::Stop`. -/
def Stop : Int := 0

/-- Return value of `Server::Start`. -/
def Start (o : StartOutcome) : Int :=
  if Stop ≠ 0 then -1
  else if o.epoll_create = -1 then -2
  else if o.socket = -1 then -3
  else if o.fcntl ≠ 0 then -4
  else if o.setsockopt ≠ 0 then -5
  else if o.bind ≠ 0 then -6
  else if o.listen ≠ 0 then -7
  else 0

/-- Outcome of a call of `ShowHelp` (`conf.cc`): the function is declared
`int`, prints the usage and reaches its closing brace without a `return`
statement, which is undefined behaviour; `none` stands for a call whose
behaviour is undefined. -/
def ShowHelp : Option Int := none

/-- Exit status of `main` (`main.cc`), from the return value of `LoadConf` and
the outcomes of `Start`; `none` where the behaviour is undefined.  After a
failing `LoadConf`, `main` calls `ShowHelp` before its `return 1`; when `Start`
succeeds the status is the one returned once the polling loop has ended. -/
def main_exit (loadConf : Int) (o : StartOutcome) : Option Int :=
  if loadConf ≠ 0 then
    match ShowHelp with
    | none => none
    | some _ => some 1
  else if Start o = 0 then some 0
  else some 0

/-! ## `conf.cc` -/

/-- The record `Conf`. -/
structure Conf where
  listen_port : Int
  log_level : Int
deriving DecidableEq

def OPTIND_LISTEN_PORT : Int := 0x1
def OPTIND_LOG_LEVEL : Int := 0x2

/-- The call `atoi(s)`, which glibc computes as `(int) strtol(s, NULL, 10)`:
the value read by `strtol` (a 64-bit `long`), converted to a 32-bit `int`. -/
def atoi (s : List Nat) : Int :=
  ((strtoll s).1 + 2147483648) % 4294967296 - 2147483648

/-- The `while` loop of `LoadConf`, run over the successive results of
`getopt_long` (the returned value and `optarg`); the loop ends at the first
result -1 or when the results are used up.  The outcome is `required_mask`
after the loop, or `none` when the `default` case returned, and the record as
it stands then. -/
def LoadConf_loop : List (Int × List Nat) → Nat → Conf → Option Nat × Conf
  | [], required_mask, conf => (some required_mask, conf)
  | (opt, optarg) :: rest, required_mask, conf =>
    if opt = -1 then (some required_mask, conf)
    else if opt = OPTIND_LISTEN_PORT then
      LoadConf_loop rest (required_mask &&& (4294967295 - 0x1))
        { conf with listen_port := atoi optarg }
    else if opt = OPTIND_LOG_LEVEL then
      LoadConf_loop rest (required_mask &&& (4294967295 - 0x2))
        { conf with log_level := atoi optarg }
    else (none, conf)

/-- Function `LoadConf` for a non-null `conf`: the return value and the record
afterwards. -/
def LoadConf (opts : List (Int × List Nat)) (conf : Conf) : Int × Conf :=
  match LoadConf_loop opts 0x1 conf with
  | (none, c) => (-2, c)
  | (some required_mask, c) =>
    if c.listen_port ≤ 0 then (-3, c)
    else if c.log_level < 0 ∨ c.log_level > 3 then (-4, c)
    else (if required_mask = 0 then 0 else -5, c)

/-- The record that `main` hands to `LoadConf`: value-initialised, with the
log level of the build mode (`LOG_LEVEL_INFO` = 1 under `NDEBUG`, else
`LOG_LEVEL_DEBUG` = 0). -/
def mainConf (ndebug : Bool) : Conf :=
  { listen_port := 0, log_level := if ndebug then 1 else 0 }

/-! ## Vocabulary of the statements -/

/-- Whether memory holds the bytes of `l` from offset `s` on. -/
def HoldsAt (data : Mem) (s : Nat) (l : List Nat) : Prop :=
  ∀ k, k < l.length → rd data (s + k) = l.getD k 0

instance (data : Mem) (s : Nat) (l : List Nat) : Decidable (HoldsAt data s l) :=
  inferInstanceAs (Decidable (∀ k, k < l.length → rd data (s + k) = l.getD k 0))

/-- A field of a text line: a non-empty run of bytes none of which is NUL,
a space or CR. -/
def IsField (f : List Nat) : Prop := f ≠ [] ∧ ∀ c, c ∈ f → c ≠ 0 ∧ c ≠ 32 ∧ c ≠ 13

instance (f : List Nat) : Decidable (IsField f) :=
  inferInstanceAs (Decidable (f ≠ [] ∧ ∀ c, c ∈ f → c ≠ 0 ∧ c ≠ 32 ∧ c ≠ 13))

/-- The v1 line with the given tag, addresses and ports, CR LF included:
`PROXY <tag> <sip> <dip> <sp> <dp>\r\n`. -/
def v1Line (tag sip dip sp dp : List Nat) : List Nat :=
  sigV1 ++ 32 :: (tag ++ 32 :: (sip ++ 32 :: (dip ++ 32 :: (sp ++ 32 :: (dp ++ [13, 10])))))

/-- A port text: only ASCII digits, with a decimal value of at most 65535. -/
def IsPort (p : List Nat) : Prop := (∀ c, c ∈ p → isdigit c = true) ∧ decimalValue p ≤ 65535

instance (p : List Nat) : Decidable (IsPort p) :=
  inferInstanceAs (Decidable ((∀ c, c ∈ p → isdigit c = true) ∧ decimalValue p ≤ 65535))

/-- Six fields separated by runs of spaces: field i is followed by one space
and `n i` more, and the sixth field by the byte `c`. -/
def v1Spaced (t1 t2 t3 t4 t5 t6 : List Nat) (n1 n2 n3 n4 n5 c : Nat) : List Nat :=
  t1 ++ 32 :: (List.replicate n1 32 ++ (t2 ++ 32 :: (List.replicate n2 32 ++
    (t3 ++ 32 :: (List.replicate n3 32 ++ (t4 ++ 32 :: (List.replicate n4 32 ++
      (t5 ++ 32 :: (List.replicate n5 32 ++ (t6 ++ [c]))))))))))

/-- Fields joined by single spaces. -/
def joinFields : List (List Nat) → List Nat
  | [] => []
  | [f] => f
  | f :: g :: rest => f ++ 32 :: joinFields (g :: rest)

/-- The invariant of the connection table: every tabled connection is
Connected with a descriptor other than -1, and no key occurs twice. -/
def TableInv (s : Server) : Prop :=
  (∀ kc, kc ∈ s.conns_ → kc.2.state = kConnected ∧ kc.2.sockfd ≠ -1) ∧
  (s.conns_.map Prod.fst).Nodup

/-- The argument of the last occurrence of the option `opt` among the results
of `getopt_long`. -/
def lastArg (opt : Int) : List (Int × List Nat) → Option (List Nat)
  | [] => none
  | (o, a) :: rest =>
    match lastArg opt rest with
    | some s => some s
    | none => if o = opt then some a else none

/-- The number configured for the option `opt`: `atoi` of its last argument,
or the preset value when the option does not occur. -/
def optValue (opt : Int) (opts : List (Int × List Nat)) (preset : Int) : Int :=
  match lastArg opt opts with
  | some s => atoi s
  | none => preset

/-! ## Buffers used as examples -/

/-- A v2 TCPv4 header with L = 15: the 12-byte address block and 3 more bytes. -/
def v2Tcp4Example : List Nat :=
  v2sig ++ [0x21, 0x11, 0x00, 0x0F, 192, 168, 0, 1, 10, 0, 0, 1, 0x04, 0xD2, 0x16, 0x2E,
    0xAA, 0xBB, 0xCC]

/-- The 8 bytes "PROXY TC". -/
def proxyTcExample : List Nat := ascii "PROXY TC"

/-- A complete v1 line text closed by a NUL byte (31 bytes). -/
def nulClosedLine : List Nat := ascii "PROXY TCP4 1.2.3.4 5.6.7.8 1 2" ++ [0]

/-- Memory that starts with `nulClosedLine`, goes on with the letter `a`, and
has CR LF at offsets `n` and `n + 1`. -/
def longBuffer (n : Nat) : Mem :=
  fun i => if i < 31 then nulClosedLine.getD i 0
    else if i = n then 13 else if i = n + 1 then 10 else 97

/-- The 3 bytes "PRO". -/
def proExample : List Nat := ascii "PRO"

/-- Twenty bytes that start neither signature. -/
def httpExample : List Nat := ascii "GET / HTTP/1.1\r\nHost"

/-- A v2 TCPv4 header that declares L = 0: the 16 header bytes and nothing else. -/
def v2ShortExample : List Nat := v2sig ++ [0x21, 0x11, 0x00, 0x00]

/-- A v2 TCPv6 header that declares L = 0: the 16 header bytes and nothing else. -/
def v2Short6Example : List Nat := v2sig ++ [0x21, 0x21, 0x00, 0x00]

/-- Memory that holds 0xFF everywhere. -/
def onesMem : Mem := fun _ => 0xFF

/-- The v1 line for 192.168.0.1:1234 to 10.0.0.1:5678 (43 bytes). -/
def v1Tcp4Line : List Nat := ascii "PROXY TCP4 192.168.0.1 10.0.0.1 1234 5678\r\n"

/-- The v1 line for [::1]:1 to [::2]:2 (24 bytes). -/
def v1Tcp6Line : List Nat := ascii "PROXY TCP6 ::1 ::2 1 2\r\n"

/-- A v1 line whose source port is not a number (35 bytes). -/
def v1BadPortLine : List Nat := ascii "PROXY TCP4 1.2.3.4 5.6.7.8 80x 90\r\n"

/-- A connection as `OnNewConn` creates it, with an empty input buffer. -/
def freshConn : Conn :=
  { name := (0, 7, 100), state := kConnected, sockfd := 7, watch_events := kReadEvent,
    conn_time := 100, ibuf := [], obuf := [] }

/-- A reactor whose table holds `freshConn` under the key 1. -/
def oneConnServer : Server :=
  { conns_ := [(1, freshConn)], conn_index_ := 1, active_events_ := 4, closed := [] }

/-- An accept outcome for events that do not accept. -/
def noAccept : AcceptOutcome := { sockfd := -1, ptr := 0, now := 0 }

/-- A v1 line whose destination port field is `56`, a NUL byte and `x`
(38 bytes). -/
def nulPortLine : List Nat := ascii "PROXY TCP4 1.2.3.4 5.6.7.8 1234 56\x00x\r\n"

/-- A v2 header with the LOCAL command (0x20), family 0x11 and L = 12 that
holds only 20 of its 28 bytes. -/
def v2TruncatedExample : List Nat :=
  v2sig ++ [0x20, 0x11, 0x00, 0x0C, 1, 2, 3, 4]

/-- A complete 16-byte v2 header with the LOCAL command (0x20), family 0 and L = 0. -/
def v2LocalExample : List Nat := v2sig ++ [0x20, 0x00, 0x00, 0x00]

/-- A complete 16-byte v2 header with the PROXY command, family 0x31 (unix
stream) and L = 0. -/
def v2UnixExample : List Nat := v2sig ++ [0x21, 0x31, 0x00, 0x00]

/-- The first 27 bytes of the line `v1Tcp4Line`. -/
def v1PartialLine : List Nat := ascii "PROXY TCP4 192.168.0.1 10.0"

/-- Outcomes of `Start` in which everything succeeds except `bind`. -/
def bindFails : StartOutcome :=
  { epoll_create := 3, socket := 4, fcntl := 0, setsockopt := 0, bind := -1, listen := 0 }

/-- A connection whose input buffer already holds the first 27 bytes of
`v1Tcp4Line`. -/
def partialConn : Conn :=
  { name := (0, 7, 100), state := kConnected, sockfd := 7, watch_events := kReadEvent,
    conn_time := 100, ibuf := v1PartialLine, obuf := [] }

/-- A reactor whose table holds `partialConn` under the key 1. -/
def partialServer : Server :=
  { conns_ := [(1, partialConn)], conn_index_ := 1, active_events_ := 4, closed := [] }

/-- A connection table with the given number of entries, keyed 1, 2, ... -/
def manyConns (n : Nat) : List (Nat × Conn) :=
  (List.range n).map (fun i => (i + 1, freshConn))

/-- A reactor whose table is full. -/
def fullServer : Server :=
  { conns_ := manyConns 1024, conn_index_ := 1024, active_events_ := 4, closed := [] }

/-- A successful accept of descriptor 9. -/
def acceptNine : AcceptOutcome := { sockfd := 9, ptr := 5000, now := 200 }

/-- A ready slot for the listening socket with a successful accept. -/
def acceptEvent : ReadyEvent :=
  { events := POLLIN, userp := none, accept := acceptNine, recv := ⟨-1, [], zeroMem⟩ }

/-- A v1 line of 132 bytes: the destination port is written with a hundred
leading zeros, and the CR LF sits at offsets 130 and 131. -/
def longPortLine : List Nat :=
  ascii "PROXY TCP4 1.2.3.4 5.6.7.8 1 " ++ List.replicate 100 48 ++ ascii "2\r\n"

/-- A line whose second field is "TCP4" followed by a NUL byte. -/
def nulTagLine : List Nat := ascii "PROXY TCP4\x00 1.2.3.4 5.6.7.8 1 2\r\n"

/-- A line with two spaces after the first field: split at single spaces,
its second field is empty. -/
def doubleSpaceLine : List Nat := ascii "PROXY  TCP4 1.2.3.4 5.6.7.8 1 2\r\n"

/-- The eight bytes "PROXY \r\n": nothing follows the space after the first
field. -/
def emptyTagLine : List Nat := ascii "PROXY \r\n"

/-- A line with the protocol keyword UNKNOWN and no further fields. -/
def unknownLine : List Nat := ascii "PROXY UNKNOWN\r\n"

/-- A line with the tag in lower case. -/
def lowerTagLine : List Nat := ascii "PROXY tcp4 1.2.3.4 5.6.7.8 1 2\r\n"

/-- A line with a seventh field. -/
def seventhFieldLine : List Nat := ascii "PROXY TCP4 1.2.3.4 5.6.7.8 1 2 extra\r\n"

/-- A line whose first field is "PROXYX". -/
def proxyxLine : List Nat := ascii "PROXYX TCP4 1.2.3.4 5.6.7.8 1 2\r\n"

/-- A line of five fields: the destination port is missing. -/
def fiveFieldLine : List Nat := ascii "PROXY TCP4 1.2.3.4 5.6.7.8 80\r\n"

/-- A line whose source port field holds a CR: "12", CR, "3". -/
def crPortLine : List Nat := ascii "PROXY TCP4 1.2.3.4 5.6.7.8 12\r3 5678\r\n"

/-- A line with a NUL byte in the first field, before the second field
UNKNOWN. -/
def nulFirstFieldLine : List Nat := ascii "PROXY\x00 UNKNOWN\r\n"

end ProxyProto

/-! # Properties -/

namespace ProxyProto

/-! ## Basic facts -/

theorem rd_lt (data : Mem) (i : Nat) : rd data i < 256 :=
  Nat.mod_lt _ (by decide)

theorem rd_wr_same (data : Mem) (i v : Nat) : rd (wr data i v) i = v % 256 := by
  simp [rd, wr]

theorem rd_wr_of_ne (data : Mem) (i j v : Nat) (h : j ≠ i) :
    rd (wr data i v) j = rd data j := by
  simp [rd, wr, h]

theorem toInt32_of_lt (n : Nat) (h : n < 2147483648) : toInt32 n = (n : Int) := by
  unfold toInt32
  omega

theorem ntohs_rd (data : Mem) (i j : Nat) :
    ntohs (rd data i) (rd data j) = 256 * rd data i + rd data j := by
  have h1 := rd_lt data i
  have h2 := rd_lt data j
  unfold ntohs
  omega

theorem memcmpEq_iff (data : Mem) (s : List Nat) (n : Nat) :
    memcmpEq data s n = true ↔ ∀ i, i < n → rd data i = s.getD i 0 := by
  simp [memcmpEq]

/-! ## The binary (v2) path -/

/-- C1: a buffer that starts with the v2 signature, has version/command byte
0x21, family 0x11 with length field L >= 12 (or 0x21 with L >= 36) and at
least 16+L bytes decodes to exactly 16+L; the endpoints are the bytes of the
address block as they stand (TCPv4: source address 16..19, destination
address 20..23, source port 24..25, destination port 26..27; TCPv6: 16..31,
32..47, 48..49, 50..51); and any other memory that agrees on the header and
the address block gives the same return value and endpoints, whatever follows
the block. -/
theorem DecodeProxyProto_v2_success (data : Mem) (size L : Nat) (src dst : InetAddress)
    (hsig : ∀ i, i < 12 → rd data i = v2sig.getD i 0)
    (hver : rd data 12 = 0x21)
    (hlen : L = 256 * rd data 14 + rd data 15)
    (hfam : (rd data 13 = 0x11 ∧ 12 ≤ L) ∨ (rd data 13 = 0x21 ∧ 36 ≤ L))
    (hsize : 16 + L ≤ size) :
    (DecodeProxyProto data size src dst).ret = 16 + (L : Int) ∧
    (rd data 13 = 0x11 →
      (DecodeProxyProto data size src dst).src =
        ⟨AF_INET, [rd data 24, rd data 25],
          [rd data 16, rd data 17, rd data 18, rd data 19]⟩ ∧
      (DecodeProxyProto data size src dst).dst =
        ⟨AF_INET, [rd data 26, rd data 27],
          [rd data 20, rd data 21, rd data 22, rd data 23]⟩) ∧
    (rd data 13 = 0x21 →
      (DecodeProxyProto data size src dst).src =
        ⟨AF_INET6, [rd data 48, rd data 49], (List.range 16).map (fun k => rd data (16 + k))⟩ ∧
      (DecodeProxyProto data size src dst).dst =
        ⟨AF_INET6, [rd data 50, rd data 51], (List.range 16).map (fun k => rd data (32 + k))⟩) ∧
    (∀ (data2 : Mem) (size2 : Nat),
      (∀ i, i < (if rd data 13 = 0x11 then 28 else 52) → rd data2 i = rd data i) →
      16 + L ≤ size2 →
      (DecodeProxyProto data2 size2 src dst).ret = (DecodeProxyProto data size src dst).ret ∧
      (DecodeProxyProto data2 size2 src dst).src = (DecodeProxyProto data size src dst).src ∧
      (DecodeProxyProto data2 size2 src dst).dst = (DecodeProxyProto data size src dst).dst) := by
  have key : ∀ (d : Mem) (sz : Nat),
      (∀ i, i < 12 → rd d i = v2sig.getD i 0) → rd d 12 = 0x21 →
      L = 256 * rd d 14 + rd d 15 → 16 + L ≤ sz →
      DecodeProxyProto d sz src dst =
        if rd d 13 = 0x11 then
          ⟨toInt32 (16 + L), set_addr4 (bytes d 24 26) (bytes d 16 20),
            set_addr4 (bytes d 26 28) (bytes d 20 24), d⟩
        else if rd d 13 = 0x21 then
          ⟨toInt32 (16 + L), set_addr6 (bytes d 48 50) (bytes d 16 32),
            set_addr6 (bytes d 50 52) (bytes d 32 48), d⟩
        else ⟨kUnknownFamily, src, dst, d⟩ := by
    intro d sz hs hv hl hz
    have h16 : sz ≥ 16 := by omega
    have hm : memcmpEq d v2sig 12 = true := (memcmpEq_iff d v2sig 12).2 hs
    have hn : ntohs (rd d 14) (rd d 15) = L := by rw [ntohs_rd]; exact hl.symm
    have hlt : ¬ sz < 16 + L := by omega
    have a1 : (0x21 : Nat) &&& 0xF0 = 0x20 := by decide
    have a2 : (0x21 : Nat) &&& 0xF = 0x01 := by decide
    simp only [DecodeProxyProto, DecodeV2, h16, hm, hv, hn, hlt, a1, a2, and_self, if_true,
      if_false]
  have hL : L < 65536 := by
    have h1 := rd_lt data 14
    have h2 := rd_lt data 15
    omega
  have hret : toInt32 (16 + L) = 16 + (L : Int) := by
    rw [toInt32_of_lt _ (by omega)]
    push_cast
    rfl
  have hmain := key data size hsig hver hlen hsize
  refine ⟨?_, ?_, ?_, ?_⟩
  · rcases hfam with ⟨hf, _⟩ | ⟨hf, _⟩
    · rw [hmain]; simp [hf, hret]
    · rw [hmain]; simp [hf, hret]
  · intro hf
    rw [hmain, if_pos hf]
    exact ⟨rfl, rfl⟩
  · intro hf
    have hne : ¬ rd data 13 = 0x11 := by rw [hf]; decide
    rw [hmain, if_neg hne, if_pos hf]
    exact ⟨rfl, rfl⟩
  · intro data2 size2 hagree hsize2
    have hbound : 28 ≤ (if rd data 13 = 0x11 then 28 else 52) := by split <;> omega
    have hag : ∀ i, i < 28 → rd data2 i = rd data i := fun i hi =>
      hagree i (by omega)
    have hs2 : ∀ i, i < 12 → rd data2 i = v2sig.getD i 0 := fun i hi => by
      rw [hag i (by omega)]; exact hsig i hi
    have hv2 : rd data2 12 = 0x21 := by rw [hag 12 (by omega)]; exact hver
    have hl2 : L = 256 * rd data2 14 + rd data2 15 := by
      rw [hag 14 (by omega), hag 15 (by omega)]; exact hlen
    have h13 : rd data2 13 = rd data 13 := hag 13 (by omega)
    rw [key data2 size2 hs2 hv2 hl2 hsize2, hmain, h13]
    rcases hfam with ⟨hf, _⟩ | ⟨hf, _⟩
    · rw [if_pos hf] at hagree
      rw [if_pos hf, if_pos hf]
      refine ⟨rfl, ?_, ?_⟩
      · simp [set_addr4, bytes, List.range_succ, hagree]
      · simp [set_addr4, bytes, List.range_succ, hagree]
    · have hne : ¬ rd data 13 = 0x11 := by rw [hf]; decide
      rw [if_neg hne] at hagree
      rw [if_neg hne, if_pos hf, if_neg hne, if_pos hf]
      refine ⟨rfl, ?_, ?_⟩
      · simp [set_addr6, bytes, List.range_succ, hagree]
      · simp [set_addr6, bytes, List.range_succ, hagree]

/-! ## Library scans -/

theorem memchrFrom_some (data : Mem) (c : Nat) :
    ∀ (n i p : Nat), memchrFrom data c i n = some p →
      i ≤ p ∧ p < i + n ∧ rd data p = c ∧ ∀ j, i ≤ j → j < p → rd data j ≠ c := by
  intro n
  induction n with
  | zero => intro i p h; simp [memchrFrom] at h
  | succ n ih =>
    intro i p h
    unfold memchrFrom at h
    by_cases hc : rd data i = c
    · rw [if_pos hc] at h
      have hp : i = p := Option.some.inj h
      subst hp
      exact ⟨le_refl _, by omega, hc, fun j h1 h2 => by omega⟩
    · rw [if_neg hc] at h
      obtain ⟨h1, h2, h3, h4⟩ := ih (i + 1) p h
      refine ⟨by omega, by omega, h3, ?_⟩
      intro j hj1 hj2
      by_cases hji : j = i
      · rw [hji]; exact hc
      · exact h4 j (by omega) hj2

theorem memchrFrom_eq_some (data : Mem) (c : Nat) :
    ∀ (n i p : Nat), i ≤ p → p < i + n → rd data p = c →
      (∀ j, i ≤ j → j < p → rd data j ≠ c) → memchrFrom data c i n = some p := by
  intro n
  induction n with
  | zero => intro i p h1 h2; omega
  | succ n ih =>
    intro i p h1 h2 h3 h4
    unfold memchrFrom
    by_cases hip : i = p
    · subst hip; rw [if_pos h3]
    · rw [if_neg (h4 i (le_refl _) (by omega))]
      exact ih (i + 1) p (by omega) (by omega) h3 (fun j hj1 hj2 => h4 j (by omega) hj2)

theorem memchr_some (data : Mem) (c n p : Nat) (h : memchr data c n = some p) :
    p < n ∧ rd data p = c ∧ ∀ j, j < p → rd data j ≠ c := by
  obtain ⟨_, h2, h3, h4⟩ := memchrFrom_some data c n 0 p h
  exact ⟨by omega, h3, fun j hj => h4 j (Nat.zero_le _) hj⟩

theorem memchr_eq_some (data : Mem) (c n p : Nat) (h1 : p < n) (h2 : rd data p = c)
    (h3 : ∀ j, j < p → rd data j ≠ c) : memchr data c n = some p :=
  memchrFrom_eq_some data c n 0 p (Nat.zero_le _) (by omega) h2 (fun j _ hj => h3 j hj)

/-! ## Shape of the results -/

/-- Case analysis on a call of `DecodeV1`: it returns one of four error codes
with the outputs untouched, or the offset after the first CR LF. -/
theorem DecodeV1_cases (P : Result → Prop) (data : Mem) (size : Nat) (src dst : InetAddress)
    (herr : ∀ r : Result,
      (r.ret = kWrongProtocol ∨ r.ret = kUnknownFamily ∨ r.ret = kInvalidAddr ∨
        r.ret = kInvalidPort) → r.src = src → r.dst = dst → P r)
    (hok : ∀ (r : Result) (e : Nat),
      memchr data 13 (size - 1) = some e → rd data (e + 1) = 10 →
        r.ret = toInt32 (e + 2) → P r) :
    P (DecodeV1 data size src dst) := by
  simp only [DecodeV1, DecodeV1_loop]
  repeat' split
  all_goals first
    | exact herr _ (Or.inl (by with_reducible rfl)) (by with_reducible rfl)
        (by with_reducible rfl)
    | exact herr _ (Or.inr (Or.inl (by with_reducible rfl))) (by with_reducible rfl)
        (by with_reducible rfl)
    | exact herr _ (Or.inr (Or.inr (Or.inl (by with_reducible rfl)))) (by with_reducible rfl)
        (by with_reducible rfl)
    | exact herr _ (Or.inr (Or.inr (Or.inr (by with_reducible rfl)))) (by with_reducible rfl)
        (by with_reducible rfl)
    | exact hok _ _ (by assumption) (Decidable.of_not_not (by assumption)) (by with_reducible rfl)

/-- Case analysis on a call of `DecodeV2`: it returns one of three error codes
with the outputs untouched, or the framed length 16 + L. -/
theorem DecodeV2_cases (P : Result → Prop) (data : Mem) (size : Nat) (src dst : InetAddress)
    (herr : ∀ r : Result,
      (r.ret = kWrongDataSize ∨ r.ret = kUnknownCommand ∨ r.ret = kUnknownFamily) →
        r.src = src → r.dst = dst → P r)
    (hok : ∀ r : Result,
      16 + ntohs (rd data 14) (rd data 15) ≤ size →
        r.ret = toInt32 (16 + ntohs (rd data 14) (rd data 15)) → P r) :
    P (DecodeV2 data size src dst) := by
  simp only [DecodeV2]
  repeat' split
  all_goals first
    | exact herr _ (Or.inl (by with_reducible rfl)) (by with_reducible rfl)
        (by with_reducible rfl)
    | exact herr _ (Or.inr (Or.inl (by with_reducible rfl))) (by with_reducible rfl)
        (by with_reducible rfl)
    | exact herr _ (Or.inr (Or.inr (by with_reducible rfl))) (by with_reducible rfl)
        (by with_reducible rfl)
    | exact hok _ (by omega) (by with_reducible rfl)

set_option maxRecDepth 100000 in
theorem topNibble_iff (b : Nat) (hb : b < 256) : b &&& 0xF0 = 0x20 ↔ b / 16 = 2 := by
  revert b
  decide

theorem longBuffer_memchr (n : Nat) (hn : 31 ≤ n) :
    memchr (longBuffer n) 13 (n + 1) = some n := by
  apply memchr_eq_some
  · omega
  · have h1 : ¬ n < 31 := by omega
    simp [rd, longBuffer, h1]
  · intro j hj
    by_cases h : j < 31
    · have hall : ∀ k, k < 31 → nulClosedLine.getD k 0 % 256 ≠ 13 := by decide
      simpa [rd, longBuffer, h] using hall j h
    · have h2 : j ≠ n := by omega
      have h3 : j ≠ n + 1 := by omega
      simp [rd, longBuffer, h, h2, h3]

/-! ## Dispatch -/

/-- C3 (as stated) fails: the 8 bytes "PROXY TC" are shorter than 16 and
start with "PROXY", and the result is WrongProtocol, not NeedMoreData. -/
theorem need_more_data_fails_at_eight_bytes :
    (8 : Nat) < 16 ∧
    (∀ i, i < min 8 5 → rd (memOf proxyTcExample zeroMem) i = sigV1.getD i 0) ∧
    (DecodeProxyProto (memOf proxyTcExample zeroMem) 8
      InetAddress.default InetAddress.default).ret = kWrongProtocol ∧
    (DecodeProxyProto (memOf proxyTcExample zeroMem) 8
      InetAddress.default InetAddress.default).ret ≠ kNeedMoreData := by
  decide

/-- C3 (amended): a buffer shorter than 16 bytes whose first min(length,12)
bytes are the leading bytes of the v2 signature, or shorter than 8 bytes whose
first min(length,5) bytes are the leading bytes of "PROXY", gives NeedMoreData
and leaves the outputs as they were. -/
theorem DecodeProxyProto_need_more_data (data : Mem) (size : Nat) (src dst : InetAddress)
    (h : (size < 16 ∧ ∀ i, i < min size 12 → rd data i = v2sig.getD i 0) ∨
      (size < 8 ∧ ∀ i, i < min size 5 → rd data i = sigV1.getD i 0)) :
    (DecodeProxyProto data size src dst).ret = kNeedMoreData ∧
    (DecodeProxyProto data size src dst).src = src ∧
    (DecodeProxyProto data size src dst).dst = dst := by
  rcases h with ⟨hs, hp⟩ | ⟨hs, hp⟩
  · have h16 : ¬ size ≥ 16 := by omega
    have hv2 : memcmpEq data v2sig (min 12 size) = true := by
      rw [memcmpEq_iff, Nat.min_comm]; exact hp
    have hv1 : ¬ (size ≥ 8 ∧ memcmpEq data sigV1 5 = true) := by
      rintro ⟨h8, hm⟩
      rw [memcmpEq_iff] at hm
      have a := hm 0 (by omega)
      have b := hp 0 (by omega)
      rw [a] at b
      revert b
      decide
    simp only [DecodeProxyProto, h16, hv1, hv2, false_and, if_false, if_true]
    exact ⟨trivial, trivial, trivial⟩
  · have h16 : ¬ size ≥ 16 := by omega
    have h8 : ¬ size ≥ 8 := by omega
    have hv1 : memcmpEq data sigV1 (min 5 size) = true := by
      rw [memcmpEq_iff, Nat.min_comm]; exact hp
    simp only [DecodeProxyProto, h16, h8, hv1, false_and, if_false, if_true]
    split <;> exact ⟨rfl, rfl, rfl⟩

theorem DecodeProxyProto_need_more_data_witness :
    (((3 : Nat) < 16 ∧ ∀ i, i < min 3 12 → rd (memOf proExample zeroMem) i = v2sig.getD i 0) ∨
      ((3 : Nat) < 8 ∧ ∀ i, i < min 3 5 → rd (memOf proExample zeroMem) i = sigV1.getD i 0)) ∧
    (DecodeProxyProto (memOf proExample zeroMem) 3 InetAddress.default
      InetAddress.default).ret = kNeedMoreData :=
  ⟨Or.inr ⟨by decide, by decide⟩,
    (DecodeProxyProto_need_more_data (memOf proExample zeroMem) 3 InetAddress.default
      InetAddress.default (Or.inr ⟨by decide, by decide⟩)).1⟩

/-- The dispatch on a buffer that goes down the v1 path and has its first CR
at offset `e`, followed by LF. -/
theorem DecodeProxyProto_eq_loop (data : Mem) (size e : Nat) (src dst : InetAddress)
    (h1 : ¬ (size ≥ 16 ∧ memcmpEq data v2sig 12 = true ∧ rd data 12 &&& 0xF0 = 0x20))
    (h2 : size ≥ 8 ∧ memcmpEq data sigV1 5 = true)
    (hm : memchr data 13 (size - 1) = some e) (hlf : rd data (e + 1) = 10) :
    DecodeProxyProto data size src dst = DecodeV1_loop (wr data e 0) size e src dst := by
  unfold DecodeProxyProto
  rw [if_neg h1, if_pos h2]
  unfold DecodeV1
  rw [hm]
  simp only [hlf, ne_eq, not_true_eq_false, if_false]

theorem longBuffer_eq_loop (n : Nat) (hn : 31 ≤ n) (src dst : InetAddress) :
    DecodeProxyProto (longBuffer n) (n + 2) src dst =
      DecodeV1_loop (wr (longBuffer n) n 0) (n + 2) n src dst := by
  apply DecodeProxyProto_eq_loop
  · rintro ⟨_, h, _⟩
    rw [memcmpEq_iff] at h
    have := h 0 (by decide)
    revert this
    simp [rd, longBuffer]
    decide
  · refine ⟨by omega, ?_⟩
    rw [memcmpEq_iff]
    intro i hi
    have h31 : i < 31 := by omega
    simp only [rd, longBuffer, h31, if_true]
    revert i
    decide
  · exact longBuffer_memchr n hn
  · have h1 : ¬ n + 1 < 31 := by omega
    simp [rd, longBuffer, h1]

/-! ## Return values -/

/-- The return value and outputs of any call on a buffer below 2^31 bytes:
an error code with the outputs untouched, zero (only below 16 bytes) with the
outputs untouched, or a positive count that does not exceed the size. -/
theorem DecodeProxyProto_result_kinds (data : Mem) (size : Nat) (src dst : InetAddress)
    (hsize : size < 2147483648) :
    (((DecodeProxyProto data size src dst).ret = kWrongProtocol ∨
        (DecodeProxyProto data size src dst).ret = kWrongDataSize ∨
        (DecodeProxyProto data size src dst).ret = kUnknownCommand ∨
        (DecodeProxyProto data size src dst).ret = kUnknownFamily ∨
        (DecodeProxyProto data size src dst).ret = kInvalidAddr ∨
        (DecodeProxyProto data size src dst).ret = kInvalidPort ∨
        (size < 16 ∧ (DecodeProxyProto data size src dst).ret = kNeedMoreData)) ∧
      (DecodeProxyProto data size src dst).src = src ∧
      (DecodeProxyProto data size src dst).dst = dst) ∨
    (0 < (DecodeProxyProto data size src dst).ret ∧
      (DecodeProxyProto data size src dst).ret ≤ size) := by
  unfold DecodeProxyProto
  split
  · refine DecodeV2_cases (fun r => ((r.ret = kWrongProtocol ∨ r.ret = kWrongDataSize ∨
      r.ret = kUnknownCommand ∨ r.ret = kUnknownFamily ∨ r.ret = kInvalidAddr ∨
      r.ret = kInvalidPort ∨ (size < 16 ∧ r.ret = kNeedMoreData)) ∧ r.src = src ∧
      r.dst = dst) ∨ (0 < r.ret ∧ r.ret ≤ size)) data size src dst ?_ ?_
    · intro r hr hs hd
      refine Or.inl ⟨?_, hs, hd⟩
      rcases hr with h | h | h
      · exact Or.inr (Or.inl h)
      · exact Or.inr (Or.inr (Or.inl h))
      · exact Or.inr (Or.inr (Or.inr (Or.inl h)))
    · intro r hn hr
      right
      rw [hr, toInt32_of_lt _ (by omega)]
      constructor
      · omega
      · exact_mod_cast hn
  · split
    · refine DecodeV1_cases (fun r => ((r.ret = kWrongProtocol ∨ r.ret = kWrongDataSize ∨
        r.ret = kUnknownCommand ∨ r.ret = kUnknownFamily ∨ r.ret = kInvalidAddr ∨
        r.ret = kInvalidPort ∨ (size < 16 ∧ r.ret = kNeedMoreData)) ∧ r.src = src ∧
        r.dst = dst) ∨ (0 < r.ret ∧ r.ret ≤ size)) data size src dst ?_ ?_
      · intro r hr hs hd
        refine Or.inl ⟨?_, hs, hd⟩
        rcases hr with h | h | h | h
        · exact Or.inl h
        · exact Or.inr (Or.inr (Or.inr (Or.inl h)))
        · exact Or.inr (Or.inr (Or.inr (Or.inr (Or.inl h))))
        · exact Or.inr (Or.inr (Or.inr (Or.inr (Or.inr (Or.inl h)))))
      · intro r e he _ hr
        have hlt := (memchr_some data 13 (size - 1) e he).1
        right
        rw [hr, toInt32_of_lt _ (by omega)]
        constructor
        · omega
        · have : e + 2 ≤ size := by omega
          exact_mod_cast this
    · split
      · exact Or.inl ⟨Or.inl rfl, rfl, rfl⟩
      · have h16 : size < 16 := by omega
        repeat' split
        all_goals first
          | exact Or.inl ⟨Or.inl rfl, rfl, rfl⟩
          | exact Or.inl ⟨Or.inr (Or.inr (Or.inr (Or.inr (Or.inr (Or.inr ⟨h16, rfl⟩))))),
              rfl, rfl⟩

/-- C7 (as stated) fails: on a buffer of 2^32 - 5 bytes whose first CR LF
ends the buffer the return value is -5, which is neither one of the six error
codes, nor zero, nor positive. -/
theorem return_value_outside_taxonomy :
    (DecodeProxyProto (longBuffer 4294967289) (4294967289 + 2)
      InetAddress.default InetAddress.default).ret = -5 :=
  (congrArg Result.ret (longBuffer_eq_loop 4294967289 (by decide) _ _)).trans (by decide)

/-- C7 (amended): for every buffer of fewer than 2^31 bytes the return
value is one of the six error codes, or 0, or a positive count that is at most
the length. -/
theorem DecodeProxyProto_return_taxonomy (data : Mem) (size : Nat) (src dst : InetAddress)
    (hsize : size < 2147483648) :
    ((DecodeProxyProto data size src dst).ret = kWrongProtocol ∨
      (DecodeProxyProto data size src dst).ret = kWrongDataSize ∨
      (DecodeProxyProto data size src dst).ret = kUnknownCommand ∨
      (DecodeProxyProto data size src dst).ret = kUnknownFamily ∨
      (DecodeProxyProto data size src dst).ret = kInvalidAddr ∨
      (DecodeProxyProto data size src dst).ret = kInvalidPort) ∨
    (DecodeProxyProto data size src dst).ret = kNeedMoreData ∨
    (0 < (DecodeProxyProto data size src dst).ret ∧
      (DecodeProxyProto data size src dst).ret ≤ size) := by
  rcases DecodeProxyProto_result_kinds data size src dst hsize with ⟨h, _, _⟩ | h
  · rcases h with h | h | h | h | h | h | ⟨_, h⟩
    · exact Or.inl (Or.inl h)
    · exact Or.inl (Or.inr (Or.inl h))
    · exact Or.inl (Or.inr (Or.inr (Or.inl h)))
    · exact Or.inl (Or.inr (Or.inr (Or.inr (Or.inl h))))
    · exact Or.inl (Or.inr (Or.inr (Or.inr (Or.inr (Or.inl h)))))
    · exact Or.inl (Or.inr (Or.inr (Or.inr (Or.inr (Or.inr h)))))
    · exact Or.inr (Or.inl h)
  · exact Or.inr (Or.inr h)

theorem DecodeProxyProto_return_taxonomy_witness :
    (31 : Nat) < 2147483648 ∧
    (((DecodeProxyProto (memOf v2Tcp4Example zeroMem) 31 InetAddress.default
          InetAddress.default).ret = kWrongProtocol ∨
      (DecodeProxyProto (memOf v2Tcp4Example zeroMem) 31 InetAddress.default
          InetAddress.default).ret = kWrongDataSize ∨
      (DecodeProxyProto (memOf v2Tcp4Example zeroMem) 31 InetAddress.default
          InetAddress.default).ret = kUnknownCommand ∨
      (DecodeProxyProto (memOf v2Tcp4Example zeroMem) 31 InetAddress.default
          InetAddress.default).ret = kUnknownFamily ∨
      (DecodeProxyProto (memOf v2Tcp4Example zeroMem) 31 InetAddress.default
          InetAddress.default).ret = kInvalidAddr ∨
      (DecodeProxyProto (memOf v2Tcp4Example zeroMem) 31 InetAddress.default
          InetAddress.default).ret = kInvalidPort) ∨
    (DecodeProxyProto (memOf v2Tcp4Example zeroMem) 31 InetAddress.default
        InetAddress.default).ret = kNeedMoreData ∨
    (0 < (DecodeProxyProto (memOf v2Tcp4Example zeroMem) 31 InetAddress.default
        InetAddress.default).ret ∧
      (DecodeProxyProto (memOf v2Tcp4Example zeroMem) 31 InetAddress.default
        InetAddress.default).ret ≤ (31 : Nat))) :=
  ⟨by decide, DecodeProxyProto_return_taxonomy (memOf v2Tcp4Example zeroMem) 31
    InetAddress.default InetAddress.default (by decide)⟩

/-- C8 (as stated) fails: on a buffer of 2^31 bytes whose first CR LF ends
the buffer the return value is negative and yet both outputs have been
written. -/
theorem outputs_written_with_negative_return :
    (DecodeProxyProto (longBuffer 2147483646) (2147483646 + 2)
      InetAddress.default InetAddress.default).ret ≤ 0 ∧
    (DecodeProxyProto (longBuffer 2147483646) (2147483646 + 2)
      InetAddress.default InetAddress.default).src ≠ InetAddress.default ∧
    (DecodeProxyProto (longBuffer 2147483646) (2147483646 + 2)
      InetAddress.default InetAddress.default).dst ≠ InetAddress.default := by
  rw [longBuffer_eq_loop 2147483646 (by decide)]
  decide

/-- C8 (amended): for every buffer of fewer than 2^31 bytes, a return
value <= 0 (NeedMoreData or an error code) leaves both outputs exactly as
they were before the call. -/
theorem DecodeProxyProto_outputs_untouched (data : Mem) (size : Nat) (src dst : InetAddress)
    (hsize : size < 2147483648)
    (hret : (DecodeProxyProto data size src dst).ret ≤ 0) :
    (DecodeProxyProto data size src dst).src = src ∧
    (DecodeProxyProto data size src dst).dst = dst := by
  rcases DecodeProxyProto_result_kinds data size src dst hsize with ⟨_, h⟩ | ⟨h, _⟩
  · exact h
  · omega

theorem DecodeProxyProto_outputs_untouched_witness :
    (8 : Nat) < 2147483648 ∧
    (DecodeProxyProto (memOf proxyTcExample zeroMem) 8 InetAddress.default
      InetAddress.default).ret ≤ 0 ∧
    (DecodeProxyProto (memOf proxyTcExample zeroMem) 8 InetAddress.default
      InetAddress.default).src = InetAddress.default ∧
    (DecodeProxyProto (memOf proxyTcExample zeroMem) 8 InetAddress.default
      InetAddress.default).dst = InetAddress.default :=
  ⟨by decide, by decide,
    DecodeProxyProto_outputs_untouched (memOf proxyTcExample zeroMem) 8 InetAddress.default
      InetAddress.default (by decide) (by decide)⟩

/-- C9 (as stated) fails: on a buffer of 2^32 bytes whose first CR LF ends
the buffer the return value is 0, the NeedMoreData value, although the buffer
has at least 16 bytes. -/
theorem need_more_data_on_long_buffer :
    16 ≤ 4294967294 + 2 ∧
    (DecodeProxyProto (longBuffer 4294967294) (4294967294 + 2)
      InetAddress.default InetAddress.default).ret = kNeedMoreData :=
  ⟨by decide,
    (congrArg Result.ret (longBuffer_eq_loop 4294967294 (by decide) _ _)).trans (by decide)⟩

/-- C9 (amended): a buffer of at least 16 and fewer than 2^31 bytes never
gives NeedMoreData; and a buffer of at least 16 bytes (of any length) that is
neither the 12-byte v2 signature followed by a byte whose top nibble is 2 nor
starts with "PROXY" gives WrongProtocol. -/
theorem DecodeProxyProto_sixteen_bytes (data : Mem) (size : Nat) (src dst : InetAddress)
    (h16 : 16 ≤ size) :
    (size < 2147483648 → (DecodeProxyProto data size src dst).ret ≠ kNeedMoreData) ∧
    (¬ ((∀ i, i < 12 → rd data i = v2sig.getD i 0) ∧ rd data 12 / 16 = 2) →
      ¬ (∀ i, i < 5 → rd data i = sigV1.getD i 0) →
      (DecodeProxyProto data size src dst).ret = kWrongProtocol) := by
  constructor
  · intro hsize
    rcases DecodeProxyProto_result_kinds data size src dst hsize with ⟨h, _⟩ | ⟨h, _⟩
    · rcases h with h | h | h | h | h | h | ⟨h, _⟩
      all_goals first
        | omega
        | (rw [h]; decide)
    · intro h0
      rw [h0] at h
      exact absurd h (by decide)
  · intro hv2 hv1
    have c1 : ¬ (size ≥ 16 ∧ memcmpEq data v2sig 12 = true ∧ rd data 12 &&& 0xF0 = 0x20) := by
      rintro ⟨_, hm, hn⟩
      exact hv2 ⟨(memcmpEq_iff _ _ _).1 hm, (topNibble_iff _ (rd_lt _ _)).1 hn⟩
    have c2 : ¬ (size ≥ 8 ∧ memcmpEq data sigV1 5 = true) := by
      rintro ⟨_, hm⟩
      exact hv1 ((memcmpEq_iff _ _ _).1 hm)
    have c3 : size ≥ 16 := h16
    unfold DecodeProxyProto
    rw [if_neg c1, if_neg c2, if_pos c3]

theorem DecodeProxyProto_sixteen_bytes_witness :
    16 ≤ 20 ∧ 20 < 2147483648 ∧
    ¬ ((∀ i, i < 12 → rd (memOf httpExample zeroMem) i = v2sig.getD i 0) ∧
        rd (memOf httpExample zeroMem) 12 / 16 = 2) ∧
    ¬ (∀ i, i < 5 → rd (memOf httpExample zeroMem) i = sigV1.getD i 0) ∧
    (DecodeProxyProto (memOf httpExample zeroMem) 20 InetAddress.default
      InetAddress.default).ret ≠ kNeedMoreData ∧
    (DecodeProxyProto (memOf httpExample zeroMem) 20 InetAddress.default
      InetAddress.default).ret = kWrongProtocol :=
  have h := DecodeProxyProto_sixteen_bytes (memOf httpExample zeroMem) 20
    InetAddress.default InetAddress.default (by decide)
  ⟨by decide, by decide, by decide, by decide, h.1 (by decide),
    h.2 (by decide) (by decide)⟩

/-! ## Witnesses and failing inputs of the binary path -/

theorem DecodeProxyProto_v2_success_witness :
    (∀ i, i < 12 → rd (memOf v2Tcp4Example zeroMem) i = v2sig.getD i 0) ∧
    rd (memOf v2Tcp4Example zeroMem) 12 = 0x21 ∧
    15 = 256 * rd (memOf v2Tcp4Example zeroMem) 14 + rd (memOf v2Tcp4Example zeroMem) 15 ∧
    (rd (memOf v2Tcp4Example zeroMem) 13 = 0x11 ∧ 12 ≤ 15) ∧
    16 + 15 ≤ 31 ∧
    (DecodeProxyProto (memOf v2Tcp4Example zeroMem) 31 InetAddress.default
      InetAddress.default).ret = 16 + ((15 : Nat) : Int) ∧
    (DecodeProxyProto (memOf v2Tcp4Example zeroMem) 31 InetAddress.default
      InetAddress.default).src = ⟨AF_INET, [0x04, 0xD2], [192, 168, 0, 1]⟩ ∧
    (DecodeProxyProto (memOf v2Tcp4Example zeroMem) 31 InetAddress.default
      InetAddress.default).dst = ⟨AF_INET, [0x16, 0x2E], [10, 0, 0, 1]⟩ ∧
    (DecodeProxyProto (wr (memOf v2Tcp4Example zeroMem) 29 0x55) 40 InetAddress.default
      InetAddress.default).ret =
      (DecodeProxyProto (memOf v2Tcp4Example zeroMem) 31 InetAddress.default
        InetAddress.default).ret :=
  have h := DecodeProxyProto_v2_success (memOf v2Tcp4Example zeroMem) 31 15
    InetAddress.default InetAddress.default (by decide) (by decide) (by decide)
    (Or.inl ⟨by decide, by decide⟩) (by decide)
  ⟨by decide, by decide, by decide, ⟨by decide, by decide⟩, by decide, h.1,
    (h.2.1 (by decide)).1.trans (by decide), (h.2.1 (by decide)).2.trans (by decide),
    (h.2.2.2 (wr (memOf v2Tcp4Example zeroMem) 29 0x55) 40 (by decide) (by decide)).1⟩

/-- C4 (failing input): a 16-byte buffer holding a v2 TCPv4 header with L = 0
is accepted with return value 16, and the source address delivered is made of
the cells at offsets 16..19, outside the 16 bytes passed in: two memories
that agree on the whole buffer and differ only behind it give different
source endpoints.  The same happens for a TCPv6 header with L = 0, whose
source address is made of the cells at offsets 16..31. -/
theorem v2_reads_past_the_buffer :
    (∀ i, i < 16 → rd (memOf v2ShortExample zeroMem) i = rd (memOf v2ShortExample onesMem) i) ∧
    (DecodeProxyProto (memOf v2ShortExample zeroMem) 16 InetAddress.default
      InetAddress.default).ret = 16 ∧
    (DecodeProxyProto (memOf v2ShortExample onesMem) 16 InetAddress.default
      InetAddress.default).ret = 16 ∧
    (DecodeProxyProto (memOf v2ShortExample zeroMem) 16 InetAddress.default
      InetAddress.default).src = ⟨AF_INET, [0, 0], [0, 0, 0, 0]⟩ ∧
    (DecodeProxyProto (memOf v2ShortExample onesMem) 16 InetAddress.default
      InetAddress.default).src = ⟨AF_INET, [255, 255], [255, 255, 255, 255]⟩ ∧
    (DecodeProxyProto (memOf v2ShortExample onesMem) 16 InetAddress.default
      InetAddress.default).src.addr =
      [rd (memOf v2ShortExample onesMem) 16, rd (memOf v2ShortExample onesMem) 17,
        rd (memOf v2ShortExample onesMem) 18, rd (memOf v2ShortExample onesMem) 19] ∧
    (DecodeProxyProto (memOf v2Short6Example zeroMem) 16 InetAddress.default
      InetAddress.default).ret = 16 ∧
    (DecodeProxyProto (memOf v2Short6Example zeroMem) 16 InetAddress.default
      InetAddress.default).src.addr = List.replicate 16 0 ∧
    (DecodeProxyProto (memOf v2Short6Example onesMem) 16 InetAddress.default
      InetAddress.default).ret = 16 ∧
    (DecodeProxyProto (memOf v2Short6Example onesMem) 16 InetAddress.default
      InetAddress.default).src.addr = List.replicate 16 255 := by
  decide

/-! ## Writes into the input buffer -/

/-- C5 (failing input): decoding the 43-byte v1 line for 192.168.0.1:1234
returns 43 and leaves NUL bytes where the first space (offset 5) and the CR
(offset 41) were; decoding the same buffer again returns WrongProtocol. -/
theorem v1_decode_overwrites_buffer :
    (DecodeProxyProto (memOf v1Tcp4Line zeroMem) 43 InetAddress.default
      InetAddress.default).ret = 43 ∧
    bytes (memOf v1Tcp4Line zeroMem) 0 43 = v1Tcp4Line ∧
    bytes (DecodeProxyProto (memOf v1Tcp4Line zeroMem) 43 InetAddress.default
      InetAddress.default).data 0 43 ≠ v1Tcp4Line ∧
    rd (memOf v1Tcp4Line zeroMem) 5 = 32 ∧
    rd (DecodeProxyProto (memOf v1Tcp4Line zeroMem) 43 InetAddress.default
      InetAddress.default).data 5 = 0 ∧
    rd (memOf v1Tcp4Line zeroMem) 41 = 13 ∧
    rd (DecodeProxyProto (memOf v1Tcp4Line zeroMem) 43 InetAddress.default
      InetAddress.default).data 41 = 0 ∧
    (DecodeProxyProto
      (DecodeProxyProto (memOf v1Tcp4Line zeroMem) 43 InetAddress.default
        InetAddress.default).data 43 InetAddress.default InetAddress.default).ret
      = kWrongProtocol := by
  decide

/-- C6 (failing input): a connection with an empty input buffer receives the
35 bytes of a v1 line with a bad source port; the decoder returns InvalidPort,
the connection stays in the table and Connected, but its input buffer is no
longer the bytes received: the five spaces and the CR are NUL. -/
theorem decode_error_alters_input_buffer :
    (DecodeProxyProto (memOf v1BadPortLine zeroMem) 35 InetAddress.default
      InetAddress.default).ret = kInvalidPort ∧
    (findConn (HandleEvents oneConnServer POLLIN (some 1) noAccept
      ⟨35, v1BadPortLine, zeroMem⟩).conns_ 1).map (fun c => c.state) = some kConnected ∧
    (findConn (HandleEvents oneConnServer POLLIN (some 1) noAccept
      ⟨35, v1BadPortLine, zeroMem⟩).conns_ 1).map (fun c => c.ibuf) ≠
      some (freshConn.ibuf ++ v1BadPortLine) ∧
    (findConn (HandleEvents oneConnServer POLLIN (some 1) noAccept
      ⟨35, v1BadPortLine, zeroMem⟩).conns_ 1).map (fun c => c.ibuf) =
      some (ascii "PROXY\x00TCP4\x001.2.3.4\x005.6.7.8\x0080x\x0090\x00\n") := by
  decide

/-! ## Tokens -/

theorem HoldsAt_append (d : Mem) (s : Nat) (a b : List Nat) :
    HoldsAt d s (a ++ b) ↔ HoldsAt d s a ∧ HoldsAt d (s + a.length) b := by
  constructor
  · intro h
    constructor
    · intro k hk
      have := h k (by rw [List.length_append]; omega)
      rw [this, List.getD_append _ _ _ _ hk]
    · intro k hk
      have := h (a.length + k) (by rw [List.length_append]; omega)
      rw [Nat.add_assoc, this, List.getD_append_right _ _ _ _ (by omega)]
      congr 1
      omega
  · rintro ⟨ha, hb⟩ k hk
    rw [List.length_append] at hk
    by_cases hka : k < a.length
    · rw [List.getD_append _ _ _ _ hka]; exact ha k hka
    · rw [List.getD_append_right _ _ _ _ (by omega)]
      have := hb (k - a.length) (by omega)
      rw [← this]
      congr 1
      omega

theorem HoldsAt_cons (d : Mem) (s c : Nat) (l : List Nat) :
    HoldsAt d s (c :: l) ↔ rd d s = c ∧ HoldsAt d (s + 1) l := by
  constructor
  · intro h
    constructor
    · simpa using h 0 (by simp)
    · intro k hk
      have := h (k + 1) (by simp; omega)
      rw [show s + 1 + k = s + (k + 1) by omega, this]
      simp
  · rintro ⟨h0, hl⟩ k hk
    cases k with
    | zero => simpa using h0
    | succ k =>
      have := hl k (by simpa using hk)
      rw [show s + (k + 1) = s + 1 + k by omega, this]
      simp

theorem HoldsAt_wr (d : Mem) (s p v : Nat) (l : List Nat) (h : HoldsAt d s l)
    (hp : p < s ∨ s + l.length ≤ p) : HoldsAt (wr d p v) s l := by
  intro k hk
  rw [rd_wr_of_ne _ _ _ _ (by omega)]
  exact h k hk

theorem bytes_of_HoldsAt (d : Mem) (s : Nat) (l : List Nat) (h : HoldsAt d s l) :
    bytes d s (s + l.length) = l := by
  apply List.ext_getElem
  · simp [bytes]
  · intro i h1 h2
    simp only [bytes, List.getElem_map, List.getElem_range]
    rw [h i h2]
    simp [List.getD_eq_getElem?_getD, h2]

theorem strcspn_eq (d : Mem) (reject : List Nat) :
    ∀ (fuel s k : Nat), k < fuel →
      (∀ j, j < k → rd d (s + j) ≠ 0 ∧ rd d (s + j) ∉ reject) →
      (rd d (s + k) = 0 ∨ rd d (s + k) ∈ reject) →
      strcspn d reject s fuel = k := by
  intro fuel
  induction fuel with
  | zero => intro s k hk; omega
  | succ fuel ih =>
    intro s k hk hrun hstop
    unfold strcspn
    cases k with
    | zero =>
      have : ¬ (rd d s ≠ 0 ∧ rd d s ∉ reject) := by
        rintro ⟨h1, h2⟩
        rcases hstop with h | h
        · exact h1 (by simpa using h)
        · exact h2 (by simpa using h)
      rw [if_neg this]
    | succ k =>
      have h0 := hrun 0 (by omega)
      rw [Nat.add_zero] at h0
      rw [if_pos h0]
      have := ih (s + 1) k (by omega)
        (fun j hj => by
          have := hrun (j + 1) (by omega)
          rwa [show s + (j + 1) = s + 1 + j by omega] at this)
        (by rwa [show s + (k + 1) = s + 1 + k by omega] at hstop)
      rw [this]

theorem strspn_zero (d : Mem) (accept : List Nat) (s fuel : Nat)
    (h : rd d s ∉ accept) : strspn d accept s fuel = 0 := by
  cases fuel with
  | zero => rfl
  | succ fuel =>
    unfold strspn
    rw [if_neg (fun hh => h hh.2)]

/-- One `strtok_r` call at the start of a field that is followed by a space:
the token is the field, the space is overwritten and the scan resumes behind
it. -/
theorem strtok_r_sep (d : Mem) (s fuel : Nat) (tok rest : List Nat) (hf : IsField tok)
    (h : HoldsAt d s (tok ++ 32 :: rest)) (hfuel : tok.length < fuel) :
    (strtok_r d s [32] fuel).token = some (s, s + tok.length) ∧
    (strtok_r d s [32] fuel).save_ptr = s + tok.length + 1 ∧
    (strtok_r d s [32] fuel).data = wr d (s + tok.length) 0 ∧
    bytes (strtok_r d s [32] fuel).data s (s + tok.length) = tok ∧
    HoldsAt (strtok_r d s [32] fuel).data (s + tok.length + 1) rest := by
  obtain ⟨hne, hclean⟩ := hf
  rw [HoldsAt_append, HoldsAt_cons] at h
  obtain ⟨htok, hsp, hrest⟩ := h
  have hlen : 0 < tok.length := List.length_pos.2 hne
  have hget : ∀ k, k < tok.length → tok.getD k 0 ∈ tok := fun k hk => by
    rw [List.getD_eq_getElem _ _ hk]; exact List.getElem_mem _
  have h0 : rd d s ≠ 0 ∧ rd d s ≠ 32 := by
    have := htok 0 hlen
    rw [Nat.add_zero] at this
    rw [this]
    exact ⟨(hclean _ (hget 0 hlen)).1, (hclean _ (hget 0 hlen)).2.1⟩
  have hspn : strspn d [32] s fuel = 0 := strspn_zero d [32] s fuel (by simpa using h0.2)
  have hcspn : strcspn d [32] s fuel = tok.length := by
    apply strcspn_eq d [32] fuel s tok.length hfuel
    · intro j hj
      rw [htok j hj]
      have := hclean _ (hget j hj)
      exact ⟨this.1, by simpa using this.2.1⟩
    · right; rw [hsp]; simp
  have hne0 : ¬ rd d (s + tok.length) = 0 := by rw [hsp]; decide
  have hdata : (strtok_r d s [32] fuel).data = wr d (s + tok.length) 0 := by
    simp only [strtok_r, h0.1, hspn, hcspn, Nat.add_zero, hne0, if_false]
  refine ⟨?_, ?_, hdata, ?_, ?_⟩
  · simp only [strtok_r, h0.1, hspn, hcspn, Nat.add_zero, hne0, if_false]
  · simp only [strtok_r, h0.1, hspn, hcspn, Nat.add_zero, hne0, if_false]
  · rw [hdata]
    exact bytes_of_HoldsAt _ _ _ (HoldsAt_wr _ _ _ _ _ htok (Or.inr (le_refl _)))
  · rw [hdata]
    exact HoldsAt_wr _ _ _ _ _ hrest (Or.inl (by omega))

/-- One `strtok_r` call at the start of a field that is followed by the
terminating NUL: the token is the field and nothing is written. -/
theorem strtok_r_end (d : Mem) (s fuel : Nat) (tok rest : List Nat) (hf : IsField tok)
    (h : HoldsAt d s (tok ++ 0 :: rest)) (hfuel : tok.length < fuel) :
    (strtok_r d s [32] fuel).token = some (s, s + tok.length) ∧
    (strtok_r d s [32] fuel).data = d ∧
    bytes (strtok_r d s [32] fuel).data s (s + tok.length) = tok := by
  obtain ⟨hne, hclean⟩ := hf
  rw [HoldsAt_append, HoldsAt_cons] at h
  obtain ⟨htok, hsp, _⟩ := h
  have hlen : 0 < tok.length := List.length_pos.2 hne
  have hget : ∀ k, k < tok.length → tok.getD k 0 ∈ tok := fun k hk => by
    rw [List.getD_eq_getElem _ _ hk]; exact List.getElem_mem _
  have h0 : rd d s ≠ 0 ∧ rd d s ≠ 32 := by
    have := htok 0 hlen
    rw [Nat.add_zero] at this
    rw [this]
    exact ⟨(hclean _ (hget 0 hlen)).1, (hclean _ (hget 0 hlen)).2.1⟩
  have hspn : strspn d [32] s fuel = 0 := strspn_zero d [32] s fuel (by simpa using h0.2)
  have hcspn : strcspn d [32] s fuel = tok.length := by
    apply strcspn_eq d [32] fuel s tok.length hfuel
    · intro j hj
      rw [htok j hj]
      have := hclean _ (hget j hj)
      exact ⟨this.1, by simpa using this.2.1⟩
    · left; exact hsp
  have hdata : (strtok_r d s [32] fuel).data = d := by
    simp only [strtok_r, h0.1, hspn, hcspn, Nat.add_zero, hsp, if_false, if_true]
  refine ⟨?_, hdata, ?_⟩
  · simp only [strtok_r, h0.1, hspn, hcspn, Nat.add_zero, hsp, if_false, if_true]
  · rw [hdata]
    exact bytes_of_HoldsAt _ _ _ htok

/-! ## Port numbers -/

theorem isdigit_facts (c : Nat) (h : isdigit c = true) :
    isspace c = false ∧ c ≠ 45 ∧ c ≠ 43 ∧ 48 ≤ c ∧ c ≤ 57 := by
  simp only [isdigit, decide_eq_true_eq] at h
  refine ⟨?_, by omega, by omega, h.1, h.2⟩
  simp only [isspace, decide_eq_false_iff_not]
  omega

theorem signOf_digit (c : Nat) (t : List Nat) (h : isdigit c = true) :
    signOf (c :: t) = (false, 0) := by
  obtain ⟨_, h1, h2, _, _⟩ := isdigit_facts c h
  unfold signOf
  split
  · rename_i heq; injection heq with a b; exact absurd a h1
  · rename_i heq; injection heq with a b; exact absurd a h2
  · rfl

/-- What `strtoll` does with a string that starts with a digit: it converts
the leading run of digits. -/
theorem strtoll_digit (c : Nat) (t : List Nat) (h : isdigit c = true) :
    strtoll (c :: t) =
      if LLONG_MAX < ((decimalValue ((c :: t).takeWhile isdigit) : Nat) : Int) then
        (LLONG_MAX, ((c :: t).takeWhile isdigit).length, true)
      else (((decimalValue ((c :: t).takeWhile isdigit) : Nat) : Int),
        ((c :: t).takeWhile isdigit).length, false) := by
  have hsp := (isdigit_facts c h).1
  have hws : (c :: t).takeWhile isspace = [] := by simp [List.takeWhile, hsp]
  have hds : (c :: t).takeWhile isdigit ≠ [] := by simp [List.takeWhile, h]
  simp only [strtoll, hws, List.length_nil, List.drop_zero, signOf_digit c t h, Nat.add_zero,
    Nat.zero_add, hds, if_false, Bool.false_eq_true]

theorem parsePort_digits (t : List Nat) (hne : t ≠ []) (hd : ∀ c, c ∈ t → isdigit c = true) :
    parsePort t = if decimalValue t ≤ 65535 then some (decimalValue t) else none := by
  cases t with
  | nil => exact absurd rfl hne
  | cons c t =>
    have hc : isdigit c = true := hd c (List.mem_cons_self _ _)
    have hall : (c :: t).takeWhile isdigit = c :: t :=
      List.takeWhile_eq_self_iff.2 (fun x hx => hd x hx)
    have hst := strtoll_digit c t hc
    rw [hall] at hst
    have hlen : (c :: t).length ≠ 0 := by simp
    by_cases hbig : LLONG_MAX < ((decimalValue (c :: t) : Nat) : Int)
    · rw [if_pos hbig] at hst
      have hgt : ¬ decimalValue (c :: t) ≤ 65535 := by
        unfold LLONG_MAX at hbig; omega
      rw [if_neg hgt]
      simp only [parsePort, List.headD_cons, hc, strtonum, hst, UINT16_MAX, LLONG_MAX,
        LLONG_MIN]
      simp
    · rw [if_neg hbig] at hst
      by_cases hle : decimalValue (c :: t) ≤ 65535
      · rw [if_pos hle]
        have e1 : ¬ ((decimalValue (c :: t) : Nat) : Int) > 65535 := by omega
        have e2 : ¬ ((decimalValue (c :: t) : Nat) : Int) < 0 := by omega
        simp only [parsePort, List.headD_cons, hc, strtonum, hst, UINT16_MAX, LLONG_MAX,
          LLONG_MIN]
        simp [e1, e2, hlen]
        omega
      · rw [if_neg hle]
        have e1 : ((decimalValue (c :: t) : Nat) : Int) > 65535 := by omega
        have e2 : ¬ ((decimalValue (c :: t) : Nat) : Int) < 0 := by omega
        simp only [parsePort, List.headD_cons, hc, strtonum, hst, UINT16_MAX, LLONG_MAX,
          LLONG_MIN]
        simp [e1, e2, hlen]

theorem parsePort_not_digits (t : List Nat) (h : ∃ c, c ∈ t ∧ isdigit c = false) :
    parsePort t = none := by
  cases t with
  | nil => obtain ⟨c, hc, _⟩ := h; exact absurd hc (List.not_mem_nil _)
  | cons c t =>
    by_cases hc : isdigit c = true
    · have hst := strtoll_digit c t hc
      have hlt : ((c :: t).takeWhile isdigit).length ≠ (c :: t).length := by
        intro heq
        have := List.takeWhile_eq_self_iff.1
          (List.IsPrefix.eq_of_length (List.takeWhile_prefix _) heq)
        obtain ⟨x, hx, hx2⟩ := h
        rw [this x hx] at hx2
        exact absurd hx2 (by decide)
      have herr : (strtonum (c :: t) 0 UINT16_MAX).2 ≠ 0 := by
        simp only [strtonum, UINT16_MAX]
        have : (strtoll (c :: t)).2.1 ≠ (c :: t).length := by
          rw [hst]; split <;> exact hlt
        rw [List.length_cons] at this
        simp [this]
      simp only [parsePort, List.headD_cons, hc]
      simp [herr]
    · simp only [parsePort, List.headD_cons]
      simp [hc]

/-! ## Address text -/

theorem inet_pton4_step_char (st st1 : Pton4) (ch : Nat)
    (h : inet_pton4_step st ch = some st1) : ch ≠ 0 ∧ ch ≠ 32 ∧ ch ≠ 13 := by
  unfold inet_pton4_step at h
  by_cases h1 : 48 ≤ ch ∧ ch ≤ 57
  · omega
  · rw [if_neg h1] at h
    by_cases h2 : ch = 46 ∧ st.saw_digit = true
    · omega
    · rw [if_neg h2] at h
      exact absurd h (by simp)

theorem inet_pton4_loop_chars :
    ∀ (s : List Nat) (st st1 : Pton4), inet_pton4_loop s st = some st1 →
      ∀ c, c ∈ s → c ≠ 0 ∧ c ≠ 32 ∧ c ≠ 13 := by
  intro s
  induction s with
  | nil => intro st st1 _ c hc; exact absurd hc (List.not_mem_nil _)
  | cons ch rest ih =>
    intro st st1 h c hc
    unfold inet_pton4_loop at h
    cases hstep : inet_pton4_step st ch with
    | none => rw [hstep] at h; exact absurd h (by simp)
    | some st2 =>
      rw [hstep] at h
      rcases List.mem_cons.1 hc with rfl | hmem
      · exact inet_pton4_step_char st st2 c hstep
      · exact ih st2 st1 h c hmem

theorem inet_pton4_isField (s a : List Nat) (h : inet_pton4 s = some a) : IsField s := by
  unfold inet_pton4 at h
  cases hl : inet_pton4_loop s ⟨[], 0, false, 0⟩ with
  | none => rw [hl] at h; exact absurd h (by simp)
  | some st =>
    rw [hl] at h
    refine ⟨?_, inet_pton4_loop_chars s _ st hl⟩
    rintro rfl
    simp only [inet_pton4_loop, Option.some.injEq] at hl
    rw [← hl] at h
    simp at h

theorem hex_digit_value_char (ch d : Nat) (h : hex_digit_value ch = some d) :
    ch ≠ 0 ∧ ch ≠ 32 ∧ ch ≠ 13 := by
  unfold hex_digit_value at h
  by_cases h1 : 48 ≤ ch ∧ ch ≤ 57
  · omega
  · rw [if_neg h1] at h
    by_cases h2 : 97 ≤ ch ∧ ch ≤ 102
    · omega
    · rw [if_neg h2] at h
      by_cases h3 : 65 ≤ ch ∧ ch ≤ 70
      · omega
      · rw [if_neg h3] at h
        exact absurd h (by simp)

theorem inet_pton6_loop_chars :
    ∀ (rest curtok : List Nat) (st st1 : Pton6),
      inet_pton6_loop rest curtok st = some st1 → (∃ pre, curtok = pre ++ rest) →
      ∀ c, c ∈ rest → c ≠ 0 ∧ c ≠ 32 ∧ c ≠ 13 := by
  intro rest
  induction rest with
  | nil => intro _ _ _ _ _ c hc; exact absurd hc (List.not_mem_nil _)
  | cons ch rest ih =>
    intro curtok st st1 h hpre c hc
    unfold inet_pton6_loop at h
    cases hx : hex_digit_value ch with
    | some digit =>
      rw [hx] at h
      simp only at h
      rcases List.mem_cons.1 hc with rfl | hmem
      · exact hex_digit_value_char c digit hx
      · split at h
        · exact absurd h (by simp)
        · split at h
          · exact absurd h (by simp)
          · obtain ⟨pre, hp⟩ := hpre
            exact ih curtok _ st1 h ⟨pre ++ [ch], by rw [hp]; simp⟩ c hmem
    | none =>
      rw [hx] at h
      simp only at h
      by_cases hcol : ch = 58
      · rw [if_pos hcol] at h
        rcases List.mem_cons.1 hc with rfl | hmem
        · omega
        · split at h
          · split at h
            · exact absurd h (by simp)
            · exact ih rest _ st1 h ⟨[], rfl⟩ c hmem
          · split at h
            · exact absurd h (by simp)
            · split at h
              · exact absurd h (by simp)
              · exact ih rest _ st1 h ⟨[], rfl⟩ c hmem
      · rw [if_neg hcol] at h
        split at h
        · cases hq : inet_pton4 curtok with
          | none => rw [hq] at h; exact absurd h (by simp)
          | some quad =>
            obtain ⟨pre, hp⟩ := hpre
            have hf := (inet_pton4_isField curtok quad hq).2
            exact hf c (by rw [hp]; exact List.mem_append_right _ hc)
        · exact absurd h (by simp)

theorem inet_pton6_isField (s a : List Nat) (h : inet_pton6 s = some a) : IsField s := by
  have key : ∀ t : List Nat, (∃ st, inet_pton6_loop t t ⟨[], none, 0, 0⟩ = some st) →
      ∀ c, c ∈ t → c ≠ 0 ∧ c ≠ 32 ∧ c ≠ 13 := by
    rintro t ⟨st, hst⟩
    exact inet_pton6_loop_chars t t _ st hst ⟨[], rfl⟩
  have ofMatch : ∀ t : List Nat,
      (match inet_pton6_loop t t ⟨[], none, 0, 0⟩ with
        | none => none
        | some st => inet_pton6_finish st) = some a →
      ∃ st, inet_pton6_loop t t ⟨[], none, 0, 0⟩ = some st := by
    intro t ht
    cases hl : inet_pton6_loop t t ⟨[], none, 0, 0⟩ with
    | none => rw [hl] at ht; exact absurd ht (by simp)
    | some st => exact ⟨st, rfl⟩
  unfold inet_pton6 at h
  split at h
  · exact absurd h (by simp)
  · rename_i rest
    split at h
    · rename_i rest2
      refine ⟨by simp, ?_⟩
      intro c hc
      rcases List.mem_cons.1 hc with rfl | hmem
      · omega
      · exact key _ (ofMatch _ h) c hmem
    · exact absurd h (by simp)
  · rename_i hne _
    refine ⟨fun hnil => hne hnil, ?_⟩
    exact key _ (ofMatch _ h)

theorem inet_pton_isField (af : Nat) (s a : List Nat) (h : inet_pton af s = some a) :
    IsField s := by
  unfold inet_pton at h
  split at h
  · exact inet_pton4_isField s a h
  · split at h
    · exact inet_pton6_isField s a h
    · exact absurd h (by simp)

/-! ## The text (v1) path on a line of six fields -/

/-- The token loop on memory that holds six fields separated by single
spaces and closed by NUL, when the tag and both addresses are valid: the
outcome is decided by the two port fields. -/
theorem DecodeV1_loop_fields (d0 : Mem) (size e af : Nat) (src dst : InetAddress)
    (f1 f2 f3 f4 f5 f6 rest a b : List Nat)
    (h1 : IsField f1) (h5 : IsField f5) (h6 : IsField f6)
    (htag : (f2 = strTCP4 ∧ af = AF_INET) ∨ (f2 = strTCP6 ∧ af = AF_INET6))
    (ha : inet_pton af f3 = some a) (hb : inet_pton af f4 = some b)
    (hmem : HoldsAt d0 0
      (f1 ++ 32 :: (f2 ++ 32 :: (f3 ++ 32 :: (f4 ++ 32 :: (f5 ++ 32 :: (f6 ++ 0 :: rest)))))))
    (hfuel : f1.length < size ∧ f2.length < size ∧ f3.length < size ∧ f4.length < size ∧
      f5.length < size ∧ f6.length < size) :
    (parsePort f5 = none →
      (DecodeV1_loop d0 size e src dst).ret = kInvalidPort ∧
      (DecodeV1_loop d0 size e src dst).src = src ∧
      (DecodeV1_loop d0 size e src dst).dst = dst) ∧
    (∀ p, parsePort f5 = some p → parsePort f6 = none →
      (DecodeV1_loop d0 size e src dst).ret = kInvalidPort ∧
      (DecodeV1_loop d0 size e src dst).src = src ∧
      (DecodeV1_loop d0 size e src dst).dst = dst) ∧
    (∀ p q, parsePort f5 = some p → parsePort f6 = some q →
      (DecodeV1_loop d0 size e src dst).ret = toInt32 (e + 2) ∧
      (DecodeV1_loop d0 size e src dst).src = ⟨af, htons p, a⟩ ∧
      (DecodeV1_loop d0 size e src dst).dst = ⟨af, htons q, b⟩) := by
  have h2 : IsField f2 := by
    rcases htag with ⟨h, _⟩ | ⟨h, _⟩ <;> rw [h] <;> decide
  have h3 : IsField f3 := inet_pton_isField af f3 a ha
  have h4 : IsField f4 := inet_pton_isField af f4 b hb
  obtain ⟨z1, z2, z3, z4, z5, z6⟩ := hfuel
  have haf : (if f2 = strTCP4 then AF_INET else AF_INET6) = af := by
    rcases htag with ⟨h, h'⟩ | ⟨h, h'⟩
    · rw [if_pos h, h']
    · rw [if_neg (by rw [h]; decide), h']
  have hnot : ¬ (f2 ≠ strTCP4 ∧ f2 ≠ strTCP6) := by
    rcases htag with ⟨h, _⟩ | ⟨h, _⟩
    · exact fun hh => hh.1 h
    · exact fun hh => hh.2 h
  have hfam : (af = AF_INET ∧ f2 = strTCP4) ∨ (af ≠ AF_INET ∧ af = AF_INET6) := by
    rcases htag with ⟨h, h'⟩ | ⟨h, h'⟩
    · exact Or.inl ⟨h', h⟩
    · exact Or.inr ⟨by rw [h']; decide, h'⟩
  unfold DecodeV1_loop
  obtain ⟨t1a, t1b, _, _, t1m⟩ := strtok_r_sep d0 0 size f1 _ h1 hmem z1
  generalize strtok_r d0 0 [32] size = t1 at *
  simp only [t1a, t1b]
  obtain ⟨t2a, t2b, _, t2c, t2m⟩ := strtok_r_sep t1.data _ size f2 _ h2 t1m z2
  generalize strtok_r t1.data (0 + f1.length + 1) [32] size = t2 at *
  simp only [t2a, t2b, t2c, hnot, haf, if_false]
  obtain ⟨t3a, t3b, _, t3c, t3m⟩ := strtok_r_sep t2.data _ size f3 _ h3 t2m z3
  generalize strtok_r t2.data (0 + f1.length + 1 + f2.length + 1) [32] size = t3 at *
  simp only [t3a, t3b, t3c, ha]
  obtain ⟨t4a, t4b, _, t4c, t4m⟩ := strtok_r_sep t3.data _ size f4 _ h4 t3m z4
  generalize strtok_r t3.data (0 + f1.length + 1 + f2.length + 1 + f3.length + 1) [32] size
    = t4 at *
  simp only [t4a, t4b, t4c, hb]
  obtain ⟨t5a, t5b, _, t5c, t5m⟩ := strtok_r_sep t4.data _ size f5 _ h5 t4m z5
  generalize strtok_r t4.data
    (0 + f1.length + 1 + f2.length + 1 + f3.length + 1 + f4.length + 1) [32] size = t5 at *
  simp only [t5a, t5b, t5c]
  obtain ⟨t6a, _, t6c⟩ := strtok_r_end t5.data _ size f6 rest h6 t5m z6
  generalize strtok_r t5.data
    (0 + f1.length + 1 + f2.length + 1 + f3.length + 1 + f4.length + 1 + f5.length + 1)
    [32] size = t6 at *
  refine ⟨?_, ?_, ?_⟩
  · intro hp
    simp only [hp]
    exact ⟨trivial, trivial, trivial⟩
  · intro p hp hq
    simp only [hp, t6a, t6c, hq]
    exact ⟨trivial, trivial, trivial⟩
  · intro p q hp hq
    simp only [hp, t6a, t6c, hq]
    rcases hfam with ⟨hf, _⟩ | ⟨hf, hf6⟩
    · rw [if_pos hf]
      rw [hf]
      exact ⟨rfl, rfl, rfl⟩
    · rw [if_neg hf]
      rw [hf6]
      exact ⟨rfl, rfl, rfl⟩

theorem HoldsAt_wr_at (d : Mem) (l r : List Nat) (c : Nat) (h : HoldsAt d 0 (l ++ c :: r)) :
    HoldsAt (wr d l.length 0) 0 (l ++ 0 :: r) := by
  rw [HoldsAt_append, HoldsAt_cons] at *
  obtain ⟨h1, _, h3⟩ := h
  refine ⟨HoldsAt_wr _ _ _ _ _ h1 (Or.inr (by omega)), ?_, HoldsAt_wr _ _ _ _ _ h3 (Or.inl (by omega))⟩
  rw [Nat.zero_add, rd_wr_same]

theorem memchr_of_HoldsAt (d : Mem) (l r : List Nat) (c n : Nat)
    (h : HoldsAt d 0 (l ++ c :: r)) (hc : c ∉ l) (hn : l.length < n) :
    memchr d c n = some l.length := by
  rw [HoldsAt_append, HoldsAt_cons] at h
  obtain ⟨h1, h2, _⟩ := h
  apply memchr_eq_some _ _ _ _ hn
  · rw [Nat.zero_add] at h2; exact h2
  · intro j hj hjc
    have := h1 j hj
    rw [Nat.zero_add, hjc] at this
    rw [List.getD_eq_getElem _ _ hj] at this
    exact hc (this ▸ List.getElem_mem _)

/-- The whole decoder on a buffer that starts with a v1 line of six clean
fields: the dispatch takes the v1 path, the line end is found, and the token
loop runs on the line closed by NUL. -/
theorem DecodeProxyProto_v1_line (data : Mem) (size : Nat) (src dst : InetAddress)
    (tag sip dip sp dp : List Nat)
    (h2 : IsField tag) (h3 : IsField sip) (h4 : IsField dip) (h5 : IsField sp)
    (h6 : IsField dp)
    (hdata : HoldsAt data 0 (v1Line tag sip dip sp dp))
    (hsize : (v1Line tag sip dip sp dp).length ≤ size) :
    DecodeProxyProto data size src dst =
      DecodeV1_loop (wr data ((v1Line tag sip dip sp dp).length - 2) 0) size
        ((v1Line tag sip dip sp dp).length - 2) src dst ∧
    HoldsAt (wr data ((v1Line tag sip dip sp dp).length - 2) 0) 0
      (sigV1 ++ 32 :: (tag ++ 32 :: (sip ++ 32 :: (dip ++ 32 :: (sp ++ 32 :: (dp ++ 0 :: [10])))))) := by
  have hassoc : ∀ c : Nat,
      sigV1 ++ 32 :: (tag ++ 32 :: (sip ++ 32 :: (dip ++ 32 :: (sp ++ 32 :: (dp ++ c :: [10])))))
        = (sigV1 ++ 32 :: (tag ++ 32 :: (sip ++ 32 :: (dip ++ 32 :: (sp ++ 32 :: dp))))) ++ c :: [10] := by
    intro c; simp
  have hlen : (v1Line tag sip dip sp dp).length - 2 =
      (sigV1 ++ 32 :: (tag ++ 32 :: (sip ++ 32 :: (dip ++ 32 :: (sp ++ 32 :: dp))))).length := by
    simp [v1Line]
    omega
  have hlen2 : (v1Line tag sip dip sp dp).length =
      (sigV1 ++ 32 :: (tag ++ 32 :: (sip ++ 32 :: (dip ++ 32 :: (sp ++ 32 :: dp))))).length + 2 := by
    simp [v1Line]
    omega
  have hd : HoldsAt data 0
      ((sigV1 ++ 32 :: (tag ++ 32 :: (sip ++ 32 :: (dip ++ 32 :: (sp ++ 32 :: dp))))) ++ 13 :: [10]) := by
    rw [← hassoc]; exact hdata
  have hno13 : (13 : Nat) ∉ sigV1 ++ 32 :: (tag ++ 32 :: (sip ++ 32 :: (dip ++ 32 :: (sp ++ 32 :: dp)))) := by
    intro h
    simp only [List.mem_append, List.mem_cons] at h
    rcases h with h | h | h | h | h | h | h | h | h | h | h
    all_goals first
      | exact (h2.2 13 h).2.2 rfl
      | exact (h3.2 13 h).2.2 rfl
      | exact (h4.2 13 h).2.2 rfl
      | exact (h5.2 13 h).2.2 rfl
      | exact (h6.2 13 h).2.2 rfl
      | exact absurd h (by decide)
  have hsig : HoldsAt data 0 sigV1 := by
    have := hdata
    unfold v1Line at this
    rw [HoldsAt_append] at this
    exact this.1
  have hmem := memchr_of_HoldsAt data _ _ 13 (size - 1) hd hno13 (by omega)
  have hlf : rd data ((v1Line tag sip dip sp dp).length - 2 + 1) = 10 := by
    rw [HoldsAt_append, HoldsAt_cons, HoldsAt_cons] at hd
    rw [hlen]
    have := hd.2.2.1
    rw [Nat.zero_add] at this
    exact this
  constructor
  · apply DecodeProxyProto_eq_loop
    · rintro ⟨_, hm, _⟩
      rw [memcmpEq_iff] at hm
      have a := hm 0 (by decide)
      have b := hsig 0 (by decide)
      rw [Nat.zero_add, a] at b
      revert b
      decide
    · refine ⟨by rw [hlen2] at hsize; have : 5 ≤ sigV1.length := by decide
                 simp only [List.length_append, List.length_cons] at hsize; omega, ?_⟩
      rw [memcmpEq_iff]
      intro i hi
      have := hsig i (by simpa [sigV1] using hi)
      rwa [Nat.zero_add] at this
    · rw [hlen]; exact hmem
    · exact hlf
  · rw [hlen, hassoc]
    exact HoldsAt_wr_at data _ _ 13 hd

theorem parsePort_eq (t : List Nat) (hne : t ≠ []) :
    parsePort t = if IsPort t then some (decimalValue t) else none := by
  by_cases hd : ∀ c, c ∈ t → isdigit c = true
  · rw [parsePort_digits t hne hd]
    by_cases hv : decimalValue t ≤ 65535
    · rw [if_pos hv, if_pos ⟨hd, hv⟩]
    · rw [if_neg hv, if_neg (fun h => hv h.2)]
  · rw [if_neg (fun h => hd h.1)]
    apply parsePort_not_digits
    by_contra hcon
    apply hd
    intro c hc
    by_contra hnd
    exact hcon ⟨c, hc, by simpa using hnd⟩

theorem IsField_of_digits (t : List Nat) (hne : t ≠ [])
    (hd : ∀ c, c ∈ t → isdigit c = true) : IsField t := by
  refine ⟨hne, fun c hc => ?_⟩
  obtain ⟨_, _, _, h1, h2⟩ := isdigit_facts c (hd c hc)
  omega

/-- The decoder on a buffer that starts with a v1 line whose tag and addresses
are valid and whose port fields are clean: the line is accepted when both
ports are valid port texts and rejected with InvalidPort otherwise. -/
theorem v1_line_ports_outcome (data : Mem) (size af : Nat) (src dst : InetAddress)
    (tag sip dip sp dp a b : List Nat)
    (htag : (tag = strTCP4 ∧ af = AF_INET) ∨ (tag = strTCP6 ∧ af = AF_INET6))
    (hsip : inet_pton af sip = some a) (hdip : inet_pton af dip = some b)
    (hsp : IsField sp) (hdp : IsField dp)
    (hdata : ∀ i, i < (v1Line tag sip dip sp dp).length →
      rd data i = (v1Line tag sip dip sp dp).getD i 0)
    (hsize : (v1Line tag sip dip sp dp).length ≤ size)
    (hlen : (v1Line tag sip dip sp dp).length < 2147483648) :
    (IsPort sp ∧ IsPort dp →
      (DecodeProxyProto data size src dst).ret = (v1Line tag sip dip sp dp).length ∧
      (DecodeProxyProto data size src dst).src = ⟨af, htons (decimalValue sp), a⟩ ∧
      (DecodeProxyProto data size src dst).dst = ⟨af, htons (decimalValue dp), b⟩) ∧
    (¬ (IsPort sp ∧ IsPort dp) →
      (DecodeProxyProto data size src dst).ret = kInvalidPort ∧
      (DecodeProxyProto data size src dst).src = src ∧
      (DecodeProxyProto data size src dst).dst = dst) := by
  have h2 : IsField tag := by
    rcases htag with ⟨h, _⟩ | ⟨h, _⟩ <;> rw [h] <;> decide
  have h3 : IsField sip := inet_pton_isField af sip a hsip
  have h4 : IsField dip := inet_pton_isField af dip b hdip
  have hH : HoldsAt data 0 (v1Line tag sip dip sp dp) := fun k hk => by
    rw [Nat.zero_add]; exact hdata k hk
  obtain ⟨heq, hmem⟩ := DecodeProxyProto_v1_line data size src dst tag sip dip sp dp
    h2 h3 h4 hsp hdp hH hsize
  have hlens : (v1Line tag sip dip sp dp).length =
      5 + tag.length + sip.length + dip.length + sp.length + dp.length + 7 := by
    simp [v1Line, sigV1]; omega
  have hfuel : sigV1.length < size ∧ tag.length < size ∧ sip.length < size ∧
      dip.length < size ∧ sp.length < size ∧ dp.length < size := by
    have : sigV1.length = 5 := rfl
    omega
  obtain ⟨c1, c2, c3⟩ := DecodeV1_loop_fields
    (wr data ((v1Line tag sip dip sp dp).length - 2) 0) size
    ((v1Line tag sip dip sp dp).length - 2) af src dst sigV1 tag sip dip sp dp [10] a b
    (by decide) hsp hdp htag hsip hdip hmem hfuel
  have hps := parsePort_eq sp hsp.1
  have hpd := parsePort_eq dp hdp.1
  have hret : toInt32 ((v1Line tag sip dip sp dp).length - 2 + 2) =
      ((v1Line tag sip dip sp dp).length : Int) := by
    have : (v1Line tag sip dip sp dp).length - 2 + 2 = (v1Line tag sip dip sp dp).length := by
      omega
    rw [this, toInt32_of_lt _ hlen]
  rw [heq]
  constructor
  · rintro ⟨v1, v2⟩
    rw [if_pos v1] at hps
    rw [if_pos v2] at hpd
    have := c3 _ _ hps hpd
    rw [hret] at this
    exact this
  · intro hnot
    by_cases v1 : IsPort sp
    · have v2 : ¬ IsPort dp := fun h => hnot ⟨v1, h⟩
      rw [if_pos v1] at hps
      rw [if_neg v2] at hpd
      exact c2 _ hps hpd
    · rw [if_neg v1] at hps
      exact c1 hps

/-- C2: for every buffer that starts with a well-formed v1 line
`PROXY <TCP4|TCP6> <src-ip> <dst-ip> <src-port> <dst-port>\r\n` (addresses
valid text for the family of the tag, ports all digits with value at most
65535; the line shorter than 2^31 bytes, where the wire format allows 108) and
goes on with any bytes, the decoder returns the offset just behind the CR LF,
the source endpoint is the source address and port and the destination
endpoint the destination address and port, in the family of the tag. -/
theorem DecodeProxyProto_v1_success (data : Mem) (size af : Nat) (src dst : InetAddress)
    (tag sip dip sp dp a b : List Nat)
    (htag : (tag = strTCP4 ∧ af = AF_INET) ∨ (tag = strTCP6 ∧ af = AF_INET6))
    (hsip : inet_pton af sip = some a) (hdip : inet_pton af dip = some b)
    (hsp : sp ≠ [] ∧ IsPort sp) (hdp : dp ≠ [] ∧ IsPort dp)
    (hdata : ∀ i, i < (v1Line tag sip dip sp dp).length →
      rd data i = (v1Line tag sip dip sp dp).getD i 0)
    (hsize : (v1Line tag sip dip sp dp).length ≤ size)
    (hlen : (v1Line tag sip dip sp dp).length < 2147483648) :
    (DecodeProxyProto data size src dst).ret = (v1Line tag sip dip sp dp).length ∧
    (DecodeProxyProto data size src dst).src = ⟨af, htons (decimalValue sp), a⟩ ∧
    (DecodeProxyProto data size src dst).dst = ⟨af, htons (decimalValue dp), b⟩ :=
  (v1_line_ports_outcome data size af src dst tag sip dip sp dp a b htag hsip hdip
    (IsField_of_digits sp hsp.1 hsp.2.1) (IsField_of_digits dp hdp.1 hdp.2.1)
    hdata hsize hlen).1 ⟨hsp.2, hdp.2⟩

/-- C10 (amended): on a CR LF terminated v1 line (shorter than 2^31 bytes,
where the wire format allows 108) whose tag and both addresses are valid and
whose two port fields are non-empty and free of NUL, space and CR bytes, the
line is accepted exactly when both port fields consist of ASCII digits only
with a decimal value in [0, 65535]; in every other case the result is
InvalidPort and the outputs are untouched. -/
theorem DecodeProxyProto_v1_ports (data : Mem) (size af : Nat) (src dst : InetAddress)
    (tag sip dip sp dp a b : List Nat)
    (htag : (tag = strTCP4 ∧ af = AF_INET) ∨ (tag = strTCP6 ∧ af = AF_INET6))
    (hsip : inet_pton af sip = some a) (hdip : inet_pton af dip = some b)
    (hsp : IsField sp) (hdp : IsField dp)
    (hdata : ∀ i, i < (v1Line tag sip dip sp dp).length →
      rd data i = (v1Line tag sip dip sp dp).getD i 0)
    (hsize : (v1Line tag sip dip sp dp).length ≤ size)
    (hlen : (v1Line tag sip dip sp dp).length < 2147483648) :
    (0 < (DecodeProxyProto data size src dst).ret ↔ IsPort sp ∧ IsPort dp) ∧
    (IsPort sp ∧ IsPort dp →
      (DecodeProxyProto data size src dst).ret = (v1Line tag sip dip sp dp).length ∧
      (DecodeProxyProto data size src dst).src.port = htons (decimalValue sp) ∧
      (DecodeProxyProto data size src dst).dst.port = htons (decimalValue dp)) ∧
    (¬ (IsPort sp ∧ IsPort dp) →
      (DecodeProxyProto data size src dst).ret = kInvalidPort ∧
      (DecodeProxyProto data size src dst).src = src ∧
      (DecodeProxyProto data size src dst).dst = dst) := by
  obtain ⟨hok, hbad⟩ := v1_line_ports_outcome data size af src dst tag sip dip sp dp
    a b htag hsip hdip hsp hdp hdata hsize hlen
  have hpos : 0 < (v1Line tag sip dip sp dp).length := by simp [v1Line]
  refine ⟨⟨?_, ?_⟩, ?_, hbad⟩
  · intro hr
    by_contra hnot
    rw [(hbad hnot).1] at hr
    exact absurd hr (by decide)
  · intro hv
    rw [(hok hv).1]
    exact_mod_cast hpos
  · intro hv
    obtain ⟨r1, r2, r3⟩ := hok hv
    exact ⟨r1, by rw [r2], by rw [r3]⟩

theorem DecodeProxyProto_v1_success_witness :
    (DecodeProxyProto (memOf (v1Tcp4Line ++ ascii "GET /") zeroMem) 48 InetAddress.default
      InetAddress.default).ret = 43 ∧
    (DecodeProxyProto (memOf (v1Tcp4Line ++ ascii "GET /") zeroMem) 48 InetAddress.default
      InetAddress.default).src.ToAddrPort = ascii "192.168.0.1:1234" ∧
    (DecodeProxyProto (memOf (v1Tcp4Line ++ ascii "GET /") zeroMem) 48 InetAddress.default
      InetAddress.default).dst.ToAddrPort = ascii "10.0.0.1:5678" ∧
    (DecodeProxyProto (memOf v1Tcp6Line zeroMem) 24 InetAddress.default
      InetAddress.default).ret = 24 ∧
    (DecodeProxyProto (memOf v1Tcp6Line zeroMem) 24 InetAddress.default
      InetAddress.default).src.ToAddrPort = ascii "::1:1" ∧
    (DecodeProxyProto (memOf v1Tcp6Line zeroMem) 24 InetAddress.default
      InetAddress.default).dst.ToAddrPort = ascii "::2:2" :=
  have h4 := DecodeProxyProto_v1_success (memOf (v1Tcp4Line ++ ascii "GET /") zeroMem) 48
    AF_INET InetAddress.default InetAddress.default strTCP4 (ascii "192.168.0.1")
    (ascii "10.0.0.1") (ascii "1234") (ascii "5678") [192, 168, 0, 1] [10, 0, 0, 1]
    (Or.inl ⟨rfl, rfl⟩) (by decide) (by decide) ⟨by decide, by decide⟩
    ⟨by decide, by decide⟩ (by decide) (by decide) (by decide)
  have h6 := DecodeProxyProto_v1_success (memOf v1Tcp6Line zeroMem) 24
    AF_INET6 InetAddress.default InetAddress.default strTCP6 (ascii "::1") (ascii "::2")
    (ascii "1") (ascii "2") [0, 0, 0, 0, 0, 0, 0, 0, 0, 0, 0, 0, 0, 0, 0, 1]
    [0, 0, 0, 0, 0, 0, 0, 0, 0, 0, 0, 0, 0, 0, 0, 2]
    (Or.inr ⟨rfl, rfl⟩) (by decide) (by decide) ⟨by decide, by decide⟩
    ⟨by decide, by decide⟩ (by decide) (by decide) (by decide)
  ⟨h4.1.trans (by decide), by rw [h4.2.1]; decide, by rw [h4.2.2]; decide,
    h6.1.trans (by decide), by rw [h6.2.1]; decide, by rw [h6.2.2]; decide⟩

/-- C10 (as stated) fails: in the 38-byte line
`PROXY TCP4 1.2.3.4 5.6.7.8 1234 56<NUL>x` + CR LF the tag and both addresses
are valid and the destination port field `56<NUL>x` does not consist of
digits only, yet the line is accepted, with destination port 56.  And in the
line `PROXY TCP4 1.2.3.4 5.6.7.8 12<CR>3 5678` + CR LF, whose source port
field holds a CR, the result is WrongProtocol, not InvalidPort. -/
theorem port_field_with_nul_accepted :
    crPortLine = v1Line strTCP4 (ascii "1.2.3.4") (ascii "5.6.7.8") (ascii "12\r3")
      (ascii "5678") ∧
    ¬ IsPort (ascii "12\r3") ∧
    (DecodeProxyProto (memOf crPortLine zeroMem) 38 InetAddress.default
      InetAddress.default).ret = kWrongProtocol ∧
    crPortLine.length = 38 ∧ kWrongProtocol ≠ kInvalidPort ∧
    nulPortLine = v1Line strTCP4 (ascii "1.2.3.4") (ascii "5.6.7.8") (ascii "1234")
      (ascii "56\x00x") ∧
    inet_pton AF_INET (ascii "1.2.3.4") = some [1, 2, 3, 4] ∧
    inet_pton AF_INET (ascii "5.6.7.8") = some [5, 6, 7, 8] ∧
    ¬ IsPort (ascii "56\x00x") ∧
    (DecodeProxyProto (memOf nulPortLine zeroMem) 38 InetAddress.default
      InetAddress.default).ret = 38 ∧
    (DecodeProxyProto (memOf nulPortLine zeroMem) 38 InetAddress.default
      InetAddress.default).ret ≠ kInvalidPort ∧
    (DecodeProxyProto (memOf nulPortLine zeroMem) 38 InetAddress.default
      InetAddress.default).dst = ⟨AF_INET, htons 56, [5, 6, 7, 8]⟩ := by
  decide

theorem DecodeProxyProto_v1_ports_witness :
    IsField (ascii "1234x") ∧ IsField (ascii "5678") ∧
    ¬ (IsPort (ascii "1234x") ∧ IsPort (ascii "5678")) ∧
    (DecodeProxyProto
      (memOf (v1Line strTCP4 (ascii "1.2.3.4") (ascii "5.6.7.8") (ascii "1234x")
        (ascii "5678")) zeroMem) 39 InetAddress.default InetAddress.default).ret
      = kInvalidPort :=
  ⟨by decide, by decide, by decide,
    ((DecodeProxyProto_v1_ports
      (memOf (v1Line strTCP4 (ascii "1.2.3.4") (ascii "5.6.7.8") (ascii "1234x")
        (ascii "5678")) zeroMem) 39 AF_INET InetAddress.default InetAddress.default
      strTCP4 (ascii "1.2.3.4") (ascii "5.6.7.8") (ascii "1234x") (ascii "5678")
      [1, 2, 3, 4] [5, 6, 7, 8] (Or.inl ⟨rfl, rfl⟩) (by decide) (by decide) (by decide)
      (by decide) (by decide) (by decide) (by decide)).2.2 (by decide)).1⟩

/-! ## The scan bound of the token loop -/

theorem strspn_fuel (d : Mem) (accept : List Nat) :
    ∀ (n1 n2 s z : Nat), rd d z = 0 → s ≤ z → z - s < n1 → z - s < n2 →
      strspn d accept s n1 = strspn d accept s n2 ∧ s + strspn d accept s n1 ≤ z := by
  intro n1
  induction n1 with
  | zero => intro n2 s z _ _ h; omega
  | succ n1 ih =>
    intro n2 s z hz hs h1 h2
    cases n2 with
    | zero => omega
    | succ n2 =>
      unfold strspn
      by_cases hc : rd d s ≠ 0 ∧ rd d s ∈ accept
      · have hne : s ≠ z := fun h => hc.1 (h ▸ hz)
        obtain ⟨e, b⟩ := ih n2 (s + 1) z hz (by omega) (by omega) (by omega)
        rw [if_pos hc, if_pos hc, e]
        exact ⟨rfl, by omega⟩
      · rw [if_neg hc, if_neg hc]
        exact ⟨rfl, by omega⟩

theorem strcspn_fuel (d : Mem) (reject : List Nat) :
    ∀ (n1 n2 s z : Nat), rd d z = 0 → s ≤ z → z - s < n1 → z - s < n2 →
      strcspn d reject s n1 = strcspn d reject s n2 ∧ s + strcspn d reject s n1 ≤ z := by
  intro n1
  induction n1 with
  | zero => intro n2 s z _ _ h; omega
  | succ n1 ih =>
    intro n2 s z hz hs h1 h2
    cases n2 with
    | zero => omega
    | succ n2 =>
      unfold strcspn
      by_cases hc : rd d s ≠ 0 ∧ rd d s ∉ reject
      · have hne : s ≠ z := fun h => hc.1 (h ▸ hz)
        obtain ⟨e, b⟩ := ih n2 (s + 1) z hz (by omega) (by omega) (by omega)
        rw [if_pos hc, if_pos hc, e]
        exact ⟨rfl, by omega⟩
      · rw [if_neg hc, if_neg hc]
        exact ⟨rfl, by omega⟩

/-- A `strtok_r` call that starts at or before a NUL byte at offset `z` gives
the same outcome for every scan bound above `z`, resumes at or before `z` and
leaves the NUL in place. -/
theorem strtok_r_fuel (d : Mem) (delim : List Nat) (s z n1 n2 : Nat) (hz : rd d z = 0)
    (hs : s ≤ z) (h1 : z < n1) (h2 : z < n2) :
    strtok_r d s delim n1 = strtok_r d s delim n2 ∧
    (strtok_r d s delim n2).save_ptr ≤ z ∧ rd (strtok_r d s delim n2).data z = 0 := by
  obtain ⟨a1, a2⟩ := strspn_fuel d delim n1 n2 s z hz hs (by omega) (by omega)
  obtain ⟨b1, b2⟩ := strcspn_fuel d delim n1 n2 (s + strspn d delim s n1) z hz a2
    (by omega) (by omega)
  rw [a1] at b1 b2 a2
  rw [b1] at b2
  have heq : strtok_r d s delim n1 = strtok_r d s delim n2 := by
    simp only [strtok_r, a1, b1]
  refine ⟨heq, ?_⟩
  simp only [strtok_r]
  by_cases c1 : rd d s = 0
  · simp only [c1, if_true]
    exact ⟨hs, hz⟩
  · simp only [c1, if_false]
    by_cases c2 : rd d (s + strspn d delim s n2) = 0
    · simp only [c2, if_true]
      exact ⟨a2, hz⟩
    · simp only [c2, if_false]
      by_cases c3 : rd d (s + strspn d delim s n2 +
          strcspn d delim (s + strspn d delim s n2) n2) = 0
      · simp only [c3, if_true]
        exact ⟨b2, hz⟩
      · simp only [c3, if_false]
        have hne : s + strspn d delim s n2 +
            strcspn d delim (s + strspn d delim s n2) n2 ≠ z := fun h => c3 (h ▸ hz)
        refine ⟨by omega, ?_⟩
        rw [rd_wr_of_ne _ _ _ _ (Ne.symm hne)]
        exact hz

/-- The scan bound of the token loop is never reached: with the NUL that
`DecodeV1` stores at offset `e`, every bound above `e` gives the same
result as the bound `size` that the embedding passes. -/
theorem DecodeV1_loop_fuel (d0 : Mem) (e n1 n2 : Nat) (src dst : InetAddress)
    (hz : rd d0 e = 0) (h1 : e < n1) (h2 : e < n2) :
    DecodeV1_loop d0 n1 e src dst = DecodeV1_loop d0 n2 e src dst := by
  simp only [DecodeV1_loop]
  obtain ⟨e1, s1, z1⟩ := strtok_r_fuel d0 [32] 0 e n1 n2 hz (Nat.zero_le _) h1 h2
  rw [e1]
  generalize strtok_r d0 0 [32] n2 = t1 at *
  obtain ⟨e2, s2, z2⟩ := strtok_r_fuel t1.data [32] t1.save_ptr e n1 n2 z1 s1 h1 h2
  rw [e2]
  generalize strtok_r t1.data t1.save_ptr [32] n2 = t2 at *
  obtain ⟨e3, s3, z3⟩ := strtok_r_fuel t2.data [32] t2.save_ptr e n1 n2 z2 s2 h1 h2
  rw [e3]
  generalize strtok_r t2.data t2.save_ptr [32] n2 = t3 at *
  obtain ⟨e4, s4, z4⟩ := strtok_r_fuel t3.data [32] t3.save_ptr e n1 n2 z3 s3 h1 h2
  rw [e4]
  generalize strtok_r t3.data t3.save_ptr [32] n2 = t4 at *
  obtain ⟨e5, s5, z5⟩ := strtok_r_fuel t4.data [32] t4.save_ptr e n1 n2 z4 s4 h1 h2
  rw [e5]
  generalize strtok_r t4.data t4.save_ptr [32] n2 = t5 at *
  obtain ⟨e6, _, _⟩ := strtok_r_fuel t5.data [32] t5.save_ptr e n1 n2 z5 s5 h1 h2
  rw [e6]

/-! ## Errors of the binary path and of an unfinished line -/

theorem lowNibble_eq (b : Nat) : b &&& 0xF = b % 16 :=
  Nat.and_pow_two_sub_one_eq_mod b 4

theorem memchr_eq_none (data : Mem) (c n : Nat) (h : ∀ j, j < n → rd data j ≠ c) :
    memchr data c n = none := by
  cases hm : memchr data c n with
  | none => rfl
  | some p =>
    obtain ⟨h1, h2, _⟩ := memchr_some data c n p hm
    exact absurd h2 (h p h1)

/-- The dispatch on a buffer of at least 16 bytes that carries the v2
signature and version nibble 2. -/
theorem DecodeProxyProto_eq_v2 (data : Mem) (size : Nat) (src dst : InetAddress)
    (h16 : 16 ≤ size) (hsig : ∀ i, i < 12 → rd data i = v2sig.getD i 0)
    (hver : rd data 12 / 16 = 2) :
    DecodeProxyProto data size src dst = DecodeV2 data size src dst := by
  have c : size ≥ 16 ∧ memcmpEq data v2sig 12 = true ∧ rd data 12 &&& 0xF0 = 0x20 :=
    ⟨h16, (memcmpEq_iff _ _ _).2 hsig, (topNibble_iff _ (rd_lt _ _)).2 hver⟩
  unfold DecodeProxyProto
  rw [if_pos c]

/-- C12: a buffer of at least 16 bytes with the v2 signature and version
nibble 2 whose length field L gives length < 16+L returns WrongDataSize (-2),
not NeedMoreData, whatever the command nibble and the family byte are; the
outputs are untouched. -/
theorem DecodeProxyProto_v2_truncated (data : Mem) (size : Nat) (src dst : InetAddress)
    (h16 : 16 ≤ size) (hsig : ∀ i, i < 12 → rd data i = v2sig.getD i 0)
    (hver : rd data 12 / 16 = 2)
    (hlen : size < 16 + (256 * rd data 14 + rd data 15)) :
    (DecodeProxyProto data size src dst).ret = kWrongDataSize ∧
    (DecodeProxyProto data size src dst).ret = -2 ∧
    (DecodeProxyProto data size src dst).ret ≠ kNeedMoreData ∧
    (DecodeProxyProto data size src dst).src = src ∧
    (DecodeProxyProto data size src dst).dst = dst := by
  rw [DecodeProxyProto_eq_v2 data size src dst h16 hsig hver]
  have hn : size < 16 + ntohs (rd data 14) (rd data 15) := by rw [ntohs_rd]; exact hlen
  simp only [DecodeV2, hn, if_true]
  refine ⟨?_, ?_, ?_, ?_, ?_⟩ <;> trivial

theorem DecodeProxyProto_v2_truncated_witness :
    16 ≤ 20 ∧ rd (memOf v2TruncatedExample zeroMem) 12 / 16 = 2 ∧
    20 < 16 + (256 * rd (memOf v2TruncatedExample zeroMem) 14 +
      rd (memOf v2TruncatedExample zeroMem) 15) ∧
    (DecodeProxyProto (memOf v2TruncatedExample zeroMem) 20 InetAddress.default
      InetAddress.default).ret = kWrongDataSize :=
  ⟨by decide, by decide, by decide,
    (DecodeProxyProto_v2_truncated (memOf v2TruncatedExample zeroMem) 20 InetAddress.default
      InetAddress.default (by decide) (by decide) (by decide) (by decide)).1⟩

/-- C13: on a complete v2 frame (v2 signature, version nibble 2, length at
least 16+L) a low nibble of the version/command byte other than 1 gives
UnknownCommand whatever the family byte is; with low nibble 1, a family byte
other than 0x11 and 0x21 gives UnknownFamily.  The outputs are untouched in
both cases. -/
theorem DecodeProxyProto_v2_command_family (data : Mem) (size : Nat) (src dst : InetAddress)
    (hsig : ∀ i, i < 12 → rd data i = v2sig.getD i 0)
    (hver : rd data 12 / 16 = 2)
    (hlen : 16 + (256 * rd data 14 + rd data 15) ≤ size) :
    (rd data 12 % 16 ≠ 1 →
      (DecodeProxyProto data size src dst).ret = kUnknownCommand ∧
      (DecodeProxyProto data size src dst).src = src ∧
      (DecodeProxyProto data size src dst).dst = dst) ∧
    (rd data 12 % 16 = 1 → rd data 13 ≠ 0x11 → rd data 13 ≠ 0x21 →
      (DecodeProxyProto data size src dst).ret = kUnknownFamily ∧
      (DecodeProxyProto data size src dst).src = src ∧
      (DecodeProxyProto data size src dst).dst = dst) := by
  rw [DecodeProxyProto_eq_v2 data size src dst (by omega) hsig hver]
  have hn : ¬ size < 16 + ntohs (rd data 14) (rd data 15) := by rw [ntohs_rd]; omega
  constructor
  · intro hc
    have hc2 : ¬ rd data 12 &&& 0xF = 0x01 := by rw [lowNibble_eq]; exact hc
    simp only [DecodeV2, hn, hc2, if_false]
    refine ⟨?_, ?_, ?_⟩ <;> trivial
  · intro hc h4 h6
    have hc2 : rd data 12 &&& 0xF = 0x01 := by rw [lowNibble_eq]; exact hc
    simp only [DecodeV2, hn, hc2, h4, h6, if_false, if_true]
    refine ⟨?_, ?_, ?_⟩ <;> trivial

theorem DecodeProxyProto_v2_command_family_witness :
    rd (memOf v2LocalExample zeroMem) 12 % 16 ≠ 1 ∧
    (DecodeProxyProto (memOf v2LocalExample zeroMem) 16 InetAddress.default
      InetAddress.default).ret = kUnknownCommand ∧
    rd (memOf v2UnixExample zeroMem) 12 % 16 = 1 ∧
    rd (memOf v2UnixExample zeroMem) 13 = 0x31 ∧
    (DecodeProxyProto (memOf v2UnixExample zeroMem) 16 InetAddress.default
      InetAddress.default).ret = kUnknownFamily :=
  ⟨by decide,
    ((DecodeProxyProto_v2_command_family (memOf v2LocalExample zeroMem) 16
      InetAddress.default InetAddress.default (by decide) (by decide) (by decide)).1
      (by decide)).1,
    by decide, by decide,
    ((DecodeProxyProto_v2_command_family (memOf v2UnixExample zeroMem) 16
      InetAddress.default InetAddress.default (by decide) (by decide) (by decide)).2
      (by decide) (by decide) (by decide)).1⟩

/-- The dispatch on a buffer of at least 8 bytes that starts with "PROXY". -/
theorem DecodeProxyProto_eq_v1 (data : Mem) (size : Nat) (src dst : InetAddress)
    (h8 : 8 ≤ size) (hp : ∀ i, i < 5 → rd data i = sigV1.getD i 0) :
    DecodeProxyProto data size src dst = DecodeV1 data size src dst := by
  have c1 : ¬ (size ≥ 16 ∧ memcmpEq data v2sig 12 = true ∧ rd data 12 &&& 0xF0 = 0x20) := by
    rintro ⟨_, hm, _⟩
    rw [memcmpEq_iff] at hm
    have a := hm 0 (by decide)
    have b := hp 0 (by decide)
    rw [a] at b
    revert b
    decide
  have c2 : size ≥ 8 ∧ memcmpEq data sigV1 5 = true := ⟨h8, (memcmpEq_iff _ _ _).2 hp⟩
  unfold DecodeProxyProto
  rw [if_neg c1, if_pos c2]

/-- C14: a buffer of at least 8 bytes that starts with "PROXY" and holds no
CR LF (no CR among its first length-1 bytes, or a first CR that is not
followed by LF) returns WrongProtocol, not NeedMoreData, with the outputs and
the buffer untouched; this includes proper beginnings of well-formed v1
lines. -/
theorem DecodeProxyProto_v1_no_crlf (data : Mem) (size : Nat) (src dst : InetAddress)
    (h8 : 8 ≤ size) (hp : ∀ i, i < 5 → rd data i = sigV1.getD i 0)
    (hno : (∀ j, j < size - 1 → rd data j ≠ 13) ∨
      (∃ e, e < size - 1 ∧ rd data e = 13 ∧ (∀ j, j < e → rd data j ≠ 13) ∧
        rd data (e + 1) ≠ 10)) :
    (DecodeProxyProto data size src dst).ret = kWrongProtocol ∧
    (DecodeProxyProto data size src dst).ret ≠ kNeedMoreData ∧
    (DecodeProxyProto data size src dst).src = src ∧
    (DecodeProxyProto data size src dst).dst = dst ∧
    (DecodeProxyProto data size src dst).data = data := by
  rw [DecodeProxyProto_eq_v1 data size src dst h8 hp]
  rcases hno with hnone | ⟨e, he, hcr, hfirst, hlf⟩
  · simp only [DecodeV1, memchr_eq_none data 13 (size - 1) hnone]
    refine ⟨?_, ?_, ?_, ?_, ?_⟩ <;> trivial
  · simp only [DecodeV1, memchr_eq_some data 13 (size - 1) e he hcr hfirst, hlf, ne_eq,
      not_false_eq_true, if_true]
    refine ⟨?_, ?_, ?_, ?_, ?_⟩ <;> trivial

theorem DecodeProxyProto_v1_no_crlf_witness :
    8 ≤ 27 ∧ (∀ i, i < 5 → rd (memOf v1PartialLine zeroMem) i = sigV1.getD i 0) ∧
    (∀ j, j < 27 - 1 → rd (memOf v1PartialLine zeroMem) j ≠ 13) ∧
    v1PartialLine = v1Tcp4Line.take 27 ∧
    (DecodeProxyProto (memOf v1PartialLine zeroMem) 27 InetAddress.default
      InetAddress.default).ret = kWrongProtocol :=
  ⟨by decide, by decide, by decide, by decide,
    (DecodeProxyProto_v1_no_crlf (memOf v1PartialLine zeroMem) 27 InetAddress.default
      InetAddress.default (by decide) (by decide) (Or.inl (by decide))).1⟩

/-! ## Start-up -/

/-- C15 (failing input): with a loaded configuration and a `bind` that
fails, `Start` returns -6 and `main` still returns 0; indeed `main` returns 0
whatever `Start` returns.  After a failing `LoadConf`, `main` never reaches
that `return 0`: it calls `ShowHelp`, whose behaviour is undefined, on the
way to its `return 1`. -/
theorem main_exit_zero_when_start_fails :
    Start bindFails = -6 ∧ main_exit 0 bindFails = some 0 ∧
    (∀ o : StartOutcome, main_exit 0 o = some 0) ∧
    (∀ (c : Int) (o : StartOutcome), c ≠ 0 → main_exit c o = none) := by
  refine ⟨by decide, by decide, ?_, ?_⟩
  · intro o
    simp [main_exit]
  · intro c o hc
    simp [main_exit, hc, ShowHelp]

/-! ## The reactor -/

theorem findConn_eraseConn (conns : List (Nat × Conn)) (key : Nat) :
    findConn (eraseConn conns key) key = none := by
  induction conns with
  | nil => rfl
  | cons kc rest ih =>
    obtain ⟨k, c⟩ := kc
    unfold eraseConn at ih ⊢
    by_cases h : k = key
    · simp only [List.filter, h, ne_eq, not_true_eq_false, decide_False]
      exact ih
    · simp only [List.filter, h, ne_eq, not_false_eq_true, decide_True, findConn, if_false]
      exact ih

theorem length_eraseConn_le (conns : List (Nat × Conn)) (key : Nat) :
    (eraseConn conns key).length ≤ conns.length :=
  List.length_filter_le _ _

theorem length_storeConn (conns : List (Nat × Conn)) (key : Nat) (c : Conn) :
    (storeConn conns key c).length = conns.length := by
  induction conns with
  | nil => rfl
  | cons kc rest ih =>
    obtain ⟨k, c0⟩ := kc
    unfold storeConn
    split
    · rfl
    · simp [ih]

theorem writable_step (c : Conn) (p q : Prop) [Decidable p] [Decidable q] :
    (if p then (if q then DisableWriting c else c) else c).state = c.state ∧
    (if p then (if q then DisableWriting c else c) else c).sockfd = c.sockfd ∧
    (if p then (if q then DisableWriting c else c) else c).ibuf = c.ibuf := by
  split
  · split
    · exact ⟨rfl, rfl, rfl⟩
    · exact ⟨rfl, rfl, rfl⟩
  · exact ⟨rfl, rfl, rfl⟩

/-- The state of a connection after `OnConnEvt` when the event is readable,
the read delivers bytes and the decoder accepts the accumulated buffer. -/
theorem OnConnEvt_decoded (conn : Conn) (events : Nat) (r : RecvOutcome)
    (hread : events &&& (POLLIN ||| POLLPRI ||| POLLRDHUP) ≠ 0) (hn : 0 < r.n)
    (hdec : 0 < (DecodeProxyProto (memOf (conn.ibuf ++ r.buf.take r.n.toNat) r.slack)
      (conn.ibuf ++ r.buf.take r.n.toNat).length InetAddress.default
      InetAddress.default).ret) :
    (OnConnEvt conn events r).state = kDisconnected ∧
    (OnConnEvt conn events r).sockfd = conn.sockfd := by
  have hn2 : r.n > 0 := hn
  have key : ∀ c : Conn, c.ibuf = conn.ibuf → c.sockfd = conn.sockfd →
      (OnReadable c r).state = kDisconnected ∧ (OnReadable c r).sockfd = conn.sockfd := by
    intro c hi hs
    simp only [OnReadable, hn2, if_true, hi, hdec]
    exact ⟨trivial, hs⟩
  simp only [OnConnEvt, hread, ne_eq, not_false_eq_true, if_true]
  rw [(writable_step _ _ _).1, (writable_step _ _ _).2.1]
  exact key _ (by split <;> split <;> rfl) (by split <;> split <;> rfl)

/-- C16: when a readable event arrives for a tabled connection, the read
returns n > 0 bytes and the decoder returns a positive count on the
accumulated buffer, then after `HandleEvents` the connection has been marked
Disconnected, it is absent from the table, and its descriptor has been handed
to `Close` (so it is closed when it is an open descriptor). -/
theorem HandleEvents_decoded_removes (s : Server) (p : Nat) (conn : Conn) (events : Nat)
    (a : AcceptOutcome) (r : RecvOutcome)
    (htab : findConn s.conns_ p = some conn)
    (hread : events &&& (POLLIN ||| POLLPRI ||| POLLRDHUP) ≠ 0) (hn : 0 < r.n)
    (hdec : 0 < (DecodeProxyProto (memOf (conn.ibuf ++ r.buf.take r.n.toNat) r.slack)
      (conn.ibuf ++ r.buf.take r.n.toNat).length InetAddress.default
      InetAddress.default).ret) :
    (OnConnEvt conn events r).state = kDisconnected ∧
    findConn (HandleEvents s events (some p) a r).conns_ p = none ∧
    (HandleEvents s events (some p) a r).closed = Close conn.sockfd s.closed ∧
    (conn.sockfd ≠ -1 → conn.sockfd ∈ (HandleEvents s events (some p) a r).closed) := by
  obtain ⟨hst, hfd⟩ := OnConnEvt_decoded conn events r hread hn hdec
  have hclosed : (HandleEvents s events (some p) a r).closed = Close conn.sockfd s.closed := by
    simp only [HandleEvents, htab, hst, if_true, hfd]
  refine ⟨hst, ?_, hclosed, ?_⟩
  · simp only [HandleEvents, htab, hst, if_true]
    exact findConn_eraseConn _ _
  · intro hopen
    rw [hclosed]
    simp [Close, hopen]

theorem HandleEvents_decoded_removes_witness :
    findConn partialServer.conns_ 1 = some partialConn ∧
    (0 : Int) < 16 ∧
    0 < (DecodeProxyProto
      (memOf (partialConn.ibuf ++ (v1Tcp4Line.drop 27).take (16 : Int).toNat) zeroMem)
      (partialConn.ibuf ++ (v1Tcp4Line.drop 27).take (16 : Int).toNat).length
      InetAddress.default InetAddress.default).ret ∧
    findConn (HandleEvents partialServer POLLIN (some 1) noAccept
      ⟨16, v1Tcp4Line.drop 27, zeroMem⟩).conns_ 1 = none ∧
    (HandleEvents partialServer POLLIN (some 1) noAccept
      ⟨16, v1Tcp4Line.drop 27, zeroMem⟩).closed = [7] :=
  have h := HandleEvents_decoded_removes partialServer 1 partialConn POLLIN noAccept
    ⟨16, v1Tcp4Line.drop 27, zeroMem⟩ rfl (by decide) (by decide) (by decide)
  ⟨rfl, by decide, by decide, h.2.1, h.2.2.1.trans (by decide)⟩

theorem HandleEvents_length_le (s : Server) (events : Nat) (userp : Option Nat)
    (a : AcceptOutcome) (r : RecvOutcome) (h : s.conns_.length ≤ kMaxConnNum) :
    (HandleEvents s events userp a r).conns_.length ≤ kMaxConnNum := by
  unfold HandleEvents
  cases userp with
  | none =>
    simp only [OnNewConn]
    repeat' split
    all_goals first
      | exact h
      | (simp only [List.length_append, List.length_singleton]; omega)
  | some p =>
    simp only
    repeat' split
    all_goals first
      | exact h
      | exact le_trans (length_eraseConn_le _ _) h
      | (rw [length_storeConn]; exact h)

theorem handleAll_length_le (ready : List ReadyEvent) :
    ∀ s : Server, s.conns_.length ≤ kMaxConnNum →
      (handleAll s ready).conns_.length ≤ kMaxConnNum := by
  induction ready with
  | nil => intro s h; exact h
  | cons ev rest ih =>
    intro s h
    exact ih _ (HandleEvents_length_le s ev.events ev.userp ev.accept ev.recv h)

/-- C17: an accept that succeeds while the table holds the ceiling of 1024
connections closes the new descriptor at once and leaves the table as it
was; and in every state reached from the empty table by accept and connection
events the table holds at most 1024 connections. -/
theorem OnNewConn_at_ceiling :
    (∀ (s : Server) (events : Nat) (a : AcceptOutcome) (r : RecvOutcome),
      kMaxConnNum ≤ s.conns_.length →
      events &&& (POLLIN ||| POLLPRI ||| POLLRDHUP) ≠ 0 → a.sockfd ≠ -1 →
      (HandleEvents s events none a r).conns_ = s.conns_ ∧
      (HandleEvents s events none a r).conns_.length = s.conns_.length ∧
      (HandleEvents s events none a r).closed = a.sockfd :: s.closed) ∧
    (∀ ready : List ReadyEvent,
      (handleAll Server.initial ready).conns_.length ≤ 1024) := by
  constructor
  · intro s events a r hfull hread hacc
    have hge : s.conns_.length ≥ kMaxConnNum := hfull
    simp only [HandleEvents, OnNewConn, hread, hacc, hge, ne_eq, not_false_eq_true, if_true,
      Close]
    exact ⟨trivial, trivial, trivial⟩
  · intro ready
    exact handleAll_length_le ready Server.initial (by decide)

theorem OnNewConn_at_ceiling_witness :
    kMaxConnNum ≤ fullServer.conns_.length ∧
    (HandleEvents fullServer POLLIN none acceptNine ⟨-1, [], zeroMem⟩).conns_ =
      fullServer.conns_ ∧
    (HandleEvents fullServer POLLIN none acceptNine ⟨-1, [], zeroMem⟩).closed = [9] ∧
    (handleAll Server.initial [acceptEvent, acceptEvent]).conns_.length ≤ 1024 :=
  have hfull : kMaxConnNum ≤ fullServer.conns_.length := by
    simp [fullServer, manyConns, kMaxConnNum]
  have h := OnNewConn_at_ceiling.1 fullServer POLLIN acceptNine ⟨-1, [], zeroMem⟩ hfull
    (by decide) (by decide)
  ⟨hfull, h.1, h.2.2, OnNewConn_at_ceiling.2 [acceptEvent, acceptEvent]⟩

theorem HandleEvents_active (s : Server) (events : Nat) (userp : Option Nat)
    (a : AcceptOutcome) (r : RecvOutcome) :
    (HandleEvents s events userp a r).active_events_ = s.active_events_ := by
  unfold HandleEvents
  cases userp with
  | none =>
    simp only [OnNewConn]
    repeat' split
    all_goals rfl
  | some p =>
    simp only
    repeat' split
    all_goals rfl

theorem handleAll_active (ready : List ReadyEvent) :
    ∀ s : Server, (handleAll s ready).active_events_ = s.active_events_ := by
  induction ready with
  | nil => intro s; rfl
  | cons ev rest ih =>
    intro s
    exact (ih _).trans (HandleEvents_active s ev.events ev.userp ev.accept ev.recv)

theorem Poll_active (s : Server) (n : Int) (ready : List ReadyEvent) :
    (Poll s n ready).active_events_ =
      if 0 < n ∧ n.toNat = s.active_events_ ∧ s.active_events_ < kMaxEventsNum then
        min (s.active_events_ * 2) kMaxEventsNum
      else s.active_events_ := by
  unfold Poll
  by_cases hn : n > 0
  · have hn2 : 0 < n := hn
    simp only [hn, hn2, if_true, handleAll_active, true_and]
    split <;> simp only [handleAll_active]
  · have hn2 : ¬ 0 < n := hn
    simp only [hn, hn2, if_false, false_and]

theorem pollAll_active (cycles : List (Int × List ReadyEvent)) :
    ∀ s : Server,
      (s.active_events_ = 4 ∨ s.active_events_ = 8 ∨ s.active_events_ = 16 ∨
        s.active_events_ = 20) →
      ((pollAll s cycles).active_events_ = 4 ∨ (pollAll s cycles).active_events_ = 8 ∨
        (pollAll s cycles).active_events_ = 16 ∨ (pollAll s cycles).active_events_ = 20) ∧
      s.active_events_ ≤ (pollAll s cycles).active_events_ := by
  induction cycles with
  | nil => intro s h; exact ⟨h, le_refl _⟩
  | cons c rest ih =>
    intro s h
    have hp := Poll_active s c.1 c.2
    have hstep : ((Poll s c.1 c.2).active_events_ = 4 ∨ (Poll s c.1 c.2).active_events_ = 8 ∨
        (Poll s c.1 c.2).active_events_ = 16 ∨ (Poll s c.1 c.2).active_events_ = 20) ∧
        s.active_events_ ≤ (Poll s c.1 c.2).active_events_ := by
      rw [hp]
      unfold kMaxEventsNum
      split
      · rcases h with h | h | h | h <;> rw [h] <;> decide
      · exact ⟨h, le_refl _⟩
    obtain ⟨a1, a2⟩ := ih (Poll s c.1 c.2) hstep.1
    exact ⟨a1, le_trans hstep.2 a2⟩

/-- C18: the event-batch capacity starts at 4; a poll cycle that returns
exactly as many ready events as the capacity c, with c < 20, makes it
min(2c, 20) and any other cycle leaves it unchanged; hence after every
sequence of poll cycles the capacity is one of 4, 8, 16, 20, at most 20, and
no further cycles ever make it smaller. -/
theorem Poll_capacity :
    Server.initial.active_events_ = 4 ∧
    (∀ (s : Server) (n : Int) (ready : List ReadyEvent),
      (n = (s.active_events_ : Int) ∧ s.active_events_ < 20 →
        (Poll s n ready).active_events_ = min (2 * s.active_events_) 20) ∧
      (¬ (n = (s.active_events_ : Int) ∧ s.active_events_ < 20) →
        (Poll s n ready).active_events_ = s.active_events_)) ∧
    (∀ cycles : List (Int × List ReadyEvent),
      ((pollAll Server.initial cycles).active_events_ = 4 ∨
        (pollAll Server.initial cycles).active_events_ = 8 ∨
        (pollAll Server.initial cycles).active_events_ = 16 ∨
        (pollAll Server.initial cycles).active_events_ = 20) ∧
      (pollAll Server.initial cycles).active_events_ ≤ 20) ∧
    (∀ cycles more : List (Int × List ReadyEvent),
      (pollAll Server.initial cycles).active_events_ ≤
        (pollAll Server.initial (cycles ++ more)).active_events_) := by
  refine ⟨rfl, ?_, ?_, ?_⟩
  · intro s n ready
    rw [Poll_active]
    unfold kMaxEventsNum
    constructor
    · rintro ⟨h1, h2⟩
      by_cases hz : s.active_events_ = 0
      · have : ¬ (0 < n ∧ n.toNat = s.active_events_ ∧ s.active_events_ < 20) := by
          rintro ⟨h, _⟩; omega
        rw [if_neg this, hz]
        decide
      · have : 0 < n ∧ n.toNat = s.active_events_ ∧ s.active_events_ < 20 :=
          ⟨by omega, by omega, h2⟩
        rw [if_pos this, Nat.mul_comm]
    · intro hne
      have : ¬ (0 < n ∧ n.toNat = s.active_events_ ∧ s.active_events_ < 20) := by
        rintro ⟨h1, h2, h3⟩
        exact hne ⟨by omega, h3⟩
      rw [if_neg this]
  · intro cycles
    have h := (pollAll_active cycles Server.initial (Or.inl rfl)).1
    refine ⟨h, ?_⟩
    rcases h with h | h | h | h <;> rw [h] <;> decide
  · intro cycles more
    have h1 := (pollAll_active cycles Server.initial (Or.inl rfl)).1
    have h2 := (pollAll_active more (pollAll Server.initial cycles) h1).2
    have : pollAll Server.initial (cycles ++ more) =
        pollAll (pollAll Server.initial cycles) more := by
      simp [pollAll, List.foldl_append]
    rw [this]
    exact h2

/-! ## Length of an accepted line -/

theorem eight_bytes_of_positive (data : Mem) (size : Nat) (src dst : InetAddress)
    (hret : 0 < (DecodeProxyProto data size src dst).ret) : 8 ≤ size := by
  by_contra hlt
  have h1 : ¬ (size ≥ 16 ∧ memcmpEq data v2sig 12 = true ∧ rd data 12 &&& 0xF0 = 0x20) := by
    rintro ⟨h, _⟩; omega
  have h2 : ¬ (size ≥ 8 ∧ memcmpEq data sigV1 5 = true) := by
    rintro ⟨h, _⟩; omega
  have h3 : ¬ size ≥ 16 := by omega
  unfold DecodeProxyProto at hret
  rw [if_neg h1, if_neg h2, if_neg h3] at hret
  split at hret
  · exact (by decide : ¬ (0 : Int) < kNeedMoreData) hret
  · split at hret
    · exact (by decide : ¬ (0 : Int) < kNeedMoreData) hret
    · exact (by decide : ¬ (0 : Int) < kWrongProtocol) hret

set_option maxRecDepth 100000 in
/-- C20 (counterexample): a buffer of 132 bytes whose only CR LF lies at
offsets 130 and 131, beyond offset 107, is accepted through the v1 path, and
the returned consumed length is 132, more than 108. -/
theorem v1_line_longer_than_108_accepted :
    longPortLine.length = 132 ∧
    bytes (memOf longPortLine zeroMem) 130 132 = [13, 10] ∧
    (∀ j, j < 130 → rd (memOf longPortLine zeroMem) j ≠ 13) ∧
    (DecodeProxyProto (memOf longPortLine zeroMem) 132 InetAddress.default
      InetAddress.default).ret = 132 ∧
    (108 : Int) < (DecodeProxyProto (memOf longPortLine zeroMem) 132 InetAddress.default
      InetAddress.default).ret := by
  refine ⟨by decide, by decide, by decide, by decide, by decide⟩

/-- C20 (amended): when the decoder succeeds on a buffer of fewer than 2^31
bytes that starts with "PROXY", the returned consumed length is the offset
just past the first CR LF: the first CR of the buffer sits at some offset e
with e + 2 within the buffer, it is followed by LF, and the return value is
e + 2.  No limit of 108 bytes is applied. -/
theorem DecodeProxyProto_v1_consumed (data : Mem) (size : Nat) (src dst : InetAddress)
    (hsize : size < 2147483648) (hp : ∀ i, i < 5 → rd data i = sigV1.getD i 0)
    (hret : 0 < (DecodeProxyProto data size src dst).ret) :
    ∃ e, e + 2 ≤ size ∧ rd data e = 13 ∧ (∀ j, j < e → rd data j ≠ 13) ∧
      rd data (e + 1) = 10 ∧ (DecodeProxyProto data size src dst).ret = ((e + 2 : Nat) : Int) := by
  have h8 := eight_bytes_of_positive data size src dst hret
  rw [DecodeProxyProto_eq_v1 data size src dst h8 hp] at hret ⊢
  revert hret
  refine DecodeV1_cases
    (fun r => 0 < r.ret → ∃ e, e + 2 ≤ size ∧ rd data e = 13 ∧ (∀ j, j < e → rd data j ≠ 13) ∧
      rd data (e + 1) = 10 ∧ r.ret = ((e + 2 : Nat) : Int)) data size src dst ?_ ?_
  · intro r hr _ _ hpos
    rcases hr with h | h | h | h <;> rw [h] at hpos <;> exact absurd hpos (by decide)
  · intro r e he hlf hr _
    obtain ⟨h1, h2, h3⟩ := memchr_some data 13 (size - 1) e he
    refine ⟨e, by omega, h2, h3, hlf, ?_⟩
    rw [hr, toInt32_of_lt _ (by omega)]

set_option maxRecDepth 100000 in
theorem DecodeProxyProto_v1_consumed_witness :
    (132 : Nat) < 2147483648 ∧
    (∀ i, i < 5 → rd (memOf longPortLine zeroMem) i = sigV1.getD i 0) ∧
    0 < (DecodeProxyProto (memOf longPortLine zeroMem) 132 InetAddress.default
      InetAddress.default).ret ∧
    ∃ e, e + 2 ≤ 132 ∧ rd (memOf longPortLine zeroMem) e = 13 ∧
      (∀ j, j < e → rd (memOf longPortLine zeroMem) j ≠ 13) ∧
      rd (memOf longPortLine zeroMem) (e + 1) = 10 ∧
      (DecodeProxyProto (memOf longPortLine zeroMem) 132 InetAddress.default
        InetAddress.default).ret = ((e + 2 : Nat) : Int) :=
  ⟨by decide, by decide, by decide,
    DecodeProxyProto_v1_consumed (memOf longPortLine zeroMem) 132 InetAddress.default
      InetAddress.default (by decide) (by decide) (by decide)⟩

/-! ## The second field -/

/-- C19 (counterexample): four lines that end in CR LF and whose second
field, taken between single spaces, is not exactly TCP4 or TCP6, and on which
the decoder does not return UnknownFamily: with the second field "TCP4" plus
a NUL byte it returns WrongProtocol; with an empty second field (two spaces
after PROXY) it accepts the line and returns its length 33; with nothing
after the first space it returns WrongProtocol; and with a NUL byte in the
first field, before the second field UNKNOWN, it returns WrongProtocol. -/
theorem second_field_not_tcp_other_outcome :
    (DecodeProxyProto (memOf nulFirstFieldLine zeroMem) 16 InetAddress.default
      InetAddress.default).ret = kWrongProtocol ∧
    nulFirstFieldLine.length = 16 ∧
    (DecodeProxyProto (memOf nulTagLine zeroMem) 33 InetAddress.default
      InetAddress.default).ret = kWrongProtocol ∧
    (DecodeProxyProto (memOf doubleSpaceLine zeroMem) 33 InetAddress.default
      InetAddress.default).ret = 33 ∧
    (DecodeProxyProto (memOf emptyTagLine zeroMem) 8 InetAddress.default
      InetAddress.default).ret = kWrongProtocol ∧
    nulTagLine.length = 33 ∧ doubleSpaceLine.length = 33 ∧ emptyTagLine.length = 8 ∧
    kWrongProtocol ≠ kUnknownFamily := by
  refine ⟨by decide, by decide, by decide, by decide, by decide, by decide, by decide,
    by decide, by decide⟩

/-- C19 (amended): on a buffer of at least 8 bytes that starts with "PROXY",
whose first CR is followed by LF, and that begins with a first field free of
NUL, space and CR bytes, one space, a non-empty second field free of NUL,
space and CR bytes, and then a space or that CR: when the second field is not
exactly TCP4 or TCP6 the decoder returns UnknownFamily with the outputs
untouched, whatever follows the second field. -/
theorem DecodeProxyProto_v1_unknown_family (data : Mem) (size e : Nat)
    (src dst : InetAddress) (f1 f2 : List Nat) (c : Nat)
    (h8 : 8 ≤ size) (hp : ∀ i, i < 5 → rd data i = sigV1.getD i 0)
    (hf1 : IsField f1) (hf2 : IsField f2) (hc : c = 32 ∨ c = 13)
    (hbuf : HoldsAt data 0 (f1 ++ 32 :: (f2 ++ [c])))
    (he : e < size - 1) (hcr : rd data e = 13) (hfirst : ∀ j, j < e → rd data j ≠ 13)
    (hlf : rd data (e + 1) = 10)
    (htag : f2 ≠ strTCP4 ∧ f2 ≠ strTCP6) :
    (DecodeProxyProto data size src dst).ret = kUnknownFamily ∧
    (DecodeProxyProto data size src dst).src = src ∧
    (DecodeProxyProto data size src dst).dst = dst := by
  rw [DecodeProxyProto_eq_v1 data size src dst h8 hp]
  have hmem := memchr_eq_some data 13 (size - 1) e he hcr hfirst
  simp only [DecodeV1, hmem, hlf, ne_eq, not_true_eq_false, if_false]
  have hb := hbuf
  rw [HoldsAt_append, HoldsAt_cons, HoldsAt_append, HoldsAt_cons] at hb
  obtain ⟨hb1, hb2, hb3, hb4, _⟩ := hb
  simp only [Nat.zero_add] at hb2 hb3 hb4
  have hnocr : ∀ j, j < f1.length + 1 + f2.length → rd data j ≠ 13 := by
    intro j hj
    by_cases h1 : j < f1.length
    · have := hb1 j h1
      rw [Nat.zero_add] at this
      rw [this, List.getD_eq_getElem _ _ h1]
      exact (hf1.2 _ (List.getElem_mem _)).2.2
    · by_cases h2 : j = f1.length
      · rw [h2, hb2]; decide
      · have h3 : j - (f1.length + 1) < f2.length := by omega
        have := hb3 _ h3
        rw [show f1.length + 1 + (j - (f1.length + 1)) = j by omega] at this
        rw [this, List.getD_eq_getElem _ _ h3]
        exact (hf2.2 _ (List.getElem_mem _)).2.2
  have hpos : f1.length + 1 + f2.length ≤ e := by
    by_contra hcon
    exact hnocr e (by omega) hcr
  have hlen : (f1 ++ 32 :: (f2 ++ [c])).length = f1.length + 1 + f2.length + 1 := by
    simp only [List.length_append, List.length_cons, List.length_nil]
    omega
  have hd0 : ∃ c1, (c1 = 32 ∨ c1 = 0) ∧
      HoldsAt (wr data e 0) 0 (f1 ++ 32 :: (f2 ++ [c1])) := by
    rcases hc with hc | hc
    · refine ⟨32, Or.inl rfl, ?_⟩
      have hne : e ≠ f1.length + 1 + f2.length := by
        intro h
        rw [h, hb4, hc] at hcr
        exact absurd hcr (by decide)
      rw [hc] at hbuf hlen
      exact HoldsAt_wr _ _ _ _ _ hbuf (Or.inr (by rw [hlen]; omega))
    · refine ⟨0, Or.inr rfl, ?_⟩
      have heq : e = f1.length + 1 + f2.length := by
        by_contra hne
        exact hfirst (f1.length + 1 + f2.length) (by omega) (by rw [hb4, hc])
      have hl : (f1 ++ 32 :: f2).length = e := by
        simp only [List.length_append, List.length_cons]
        omega
      have h1 : HoldsAt data 0 ((f1 ++ 32 :: f2) ++ c :: []) := by
        simpa using hbuf
      have h2 := HoldsAt_wr_at data (f1 ++ 32 :: f2) [] c h1
      rw [hl] at h2
      simpa using h2
  obtain ⟨c1, hc1, hd0⟩ := hd0
  unfold DecodeV1_loop
  obtain ⟨t1a, t1b, _, _, t1m⟩ := strtok_r_sep (wr data e 0) 0 size f1 _ hf1 hd0 (by omega)
  generalize strtok_r (wr data e 0) 0 [32] size = t1 at *
  simp only [t1a, t1b]
  have ht2 : (strtok_r t1.data (0 + f1.length + 1) [32] size).token =
        some (0 + f1.length + 1, 0 + f1.length + 1 + f2.length) ∧
      bytes (strtok_r t1.data (0 + f1.length + 1) [32] size).data (0 + f1.length + 1)
        (0 + f1.length + 1 + f2.length) = f2 := by
    rcases hc1 with h | h
    · rw [h] at t1m
      obtain ⟨a, _, _, b, _⟩ := strtok_r_sep t1.data _ size f2 [] hf2 t1m (by omega)
      exact ⟨a, b⟩
    · rw [h] at t1m
      obtain ⟨a, _, b⟩ := strtok_r_end t1.data _ size f2 [] hf2 t1m (by omega)
      exact ⟨a, b⟩
  obtain ⟨t2a, t2c⟩ := ht2
  generalize strtok_r t1.data (0 + f1.length + 1) [32] size = t2 at *
  simp only [t2a, t2c, htag, ne_eq, not_false_eq_true, and_self, if_true]

theorem DecodeProxyProto_v1_unknown_family_witness :
    8 ≤ 15 ∧ IsField sigV1 ∧ IsField (ascii "UNKNOWN") ∧
    HoldsAt (memOf unknownLine zeroMem) 0 (sigV1 ++ 32 :: (ascii "UNKNOWN" ++ [13])) ∧
    (∀ j, j < 13 → rd (memOf unknownLine zeroMem) j ≠ 13) ∧
    rd (memOf unknownLine zeroMem) (13 + 1) = 10 ∧
    (ascii "UNKNOWN" ≠ strTCP4 ∧ ascii "UNKNOWN" ≠ strTCP6) ∧
    (DecodeProxyProto (memOf unknownLine zeroMem) 15 InetAddress.default
      InetAddress.default).ret = kUnknownFamily ∧
    (DecodeProxyProto (memOf lowerTagLine zeroMem) 32 InetAddress.default
      InetAddress.default).ret = kUnknownFamily :=
  ⟨by decide, by decide, by decide, by decide, by decide, by decide, by decide,
    (DecodeProxyProto_v1_unknown_family (memOf unknownLine zeroMem) 15 13
      InetAddress.default InetAddress.default sigV1 (ascii "UNKNOWN") 13
      (by decide) (by decide) (by decide) (by decide) (Or.inr rfl) (by decide) (by decide)
      (by decide) (by decide) (by decide) (by decide)).1,
    by decide⟩

/-! ## Tokens of an arbitrary line -/

theorem strspn_spec (d : Mem) (accept : List Nat) :
    ∀ (fuel s z : Nat), rd d z = 0 → s ≤ z → z - s < fuel →
      s + strspn d accept s fuel ≤ z ∧
      (∀ j, j < strspn d accept s fuel → rd d (s + j) ∈ accept) ∧
      (rd d (s + strspn d accept s fuel) = 0 ∨
        rd d (s + strspn d accept s fuel) ∉ accept) := by
  intro fuel
  induction fuel with
  | zero => intro s z _ _ h; omega
  | succ fuel ih =>
    intro s z hz hs hf
    unfold strspn
    by_cases hc : rd d s ≠ 0 ∧ rd d s ∈ accept
    · have hne : s ≠ z := fun h => hc.1 (h ▸ hz)
      obtain ⟨i1, i2, i3⟩ := ih (s + 1) z hz (by omega) (by omega)
      rw [if_pos hc]
      refine ⟨by omega, ?_, ?_⟩
      · intro j hj
        cases j with
        | zero => exact hc.2
        | succ j =>
          have := i2 j (by omega)
          rwa [show s + 1 + j = s + (j + 1) by omega] at this
      · rwa [show s + 1 + strspn d accept (s + 1) fuel =
          s + (strspn d accept (s + 1) fuel + 1) by omega] at i3
    · rw [if_neg hc]
      refine ⟨by omega, fun j hj => absurd hj (Nat.not_lt_zero _), ?_⟩
      rw [Nat.add_zero]
      by_cases h0 : rd d s = 0
      · exact Or.inl h0
      · exact Or.inr (fun h => hc ⟨h0, h⟩)

theorem strcspn_spec (d : Mem) (reject : List Nat) :
    ∀ (fuel s z : Nat), rd d z = 0 → s ≤ z → z - s < fuel →
      s + strcspn d reject s fuel ≤ z ∧
      (∀ j, j < strcspn d reject s fuel → rd d (s + j) ≠ 0 ∧ rd d (s + j) ∉ reject) ∧
      (rd d (s + strcspn d reject s fuel) = 0 ∨
        rd d (s + strcspn d reject s fuel) ∈ reject) := by
  intro fuel
  induction fuel with
  | zero => intro s z _ _ h; omega
  | succ fuel ih =>
    intro s z hz hs hf
    unfold strcspn
    by_cases hc : rd d s ≠ 0 ∧ rd d s ∉ reject
    · have hne : s ≠ z := fun h => hc.1 (h ▸ hz)
      obtain ⟨i1, i2, i3⟩ := ih (s + 1) z hz (by omega) (by omega)
      rw [if_pos hc]
      refine ⟨by omega, ?_, ?_⟩
      · intro j hj
        cases j with
        | zero => exact hc
        | succ j =>
          have := i2 j (by omega)
          rwa [show s + 1 + j = s + (j + 1) by omega] at this
      · rwa [show s + 1 + strcspn d reject (s + 1) fuel =
          s + (strcspn d reject (s + 1) fuel + 1) by omega] at i3
    · rw [if_neg hc]
      refine ⟨by omega, fun j hj => absurd hj (Nat.not_lt_zero _), ?_⟩
      rw [Nat.add_zero]
      by_cases h0 : rd d s = 0
      · exact Or.inl h0
      · exact Or.inr (by_contra fun h => hc ⟨h0, h⟩)

theorem bytes_length (d : Mem) (a b : Nat) : (bytes d a b).length = b - a := by
  simp [bytes]

theorem HoldsAt_bytes (d0 d : Mem) (a b : Nat)
    (h : ∀ j, a ≤ j → j < b → rd d j = rd d0 j) : HoldsAt d0 a (bytes d a b) := by
  intro k hk
  rw [bytes_length] at hk
  simp only [bytes]
  rw [List.getD_eq_getElem _ _ (by simpa using hk)]
  simp only [List.getElem_map, List.getElem_range]
  exact (h (a + k) (by omega) (by omega)).symm

theorem mem_bytes (d : Mem) (a b ch : Nat) (h : ch ∈ bytes d a b) :
    ∃ j, a ≤ j ∧ j < b ∧ rd d j = ch := by
  simp only [bytes, List.mem_map, List.mem_range] at h
  obtain ⟨i, hi, he⟩ := h
  exact ⟨a + i, by omega, by omega, he⟩

theorem HoldsAt_replicate (d : Mem) (s n c : Nat) (h : ∀ j, j < n → rd d (s + j) = c) :
    HoldsAt d s (List.replicate n c) := by
  intro k hk
  rw [List.length_replicate] at hk
  rw [h k hk, List.getD_eq_getElem _ _ (by simpa using hk)]
  simp

theorem strtok_r_of_nul (d : Mem) (s fuel : Nat) (delim : List Nat) (h : rd d s = 0) :
    (strtok_r d s delim fuel).token = none := by
  simp only [strtok_r, h, if_true]

/-- One `strtok_r` call that returns a token, on memory `d` that holds a NUL
at offset `z` and agrees between the scan start and `z` with a reference
memory `d0`: the scan start is followed in `d0` by a run of spaces and the
token (non-empty, free of NUL and space).  Either the token is closed by NUL
and the next call will find nothing, or it is closed by a space and the scan
resumes behind it, on memory that still agrees with `d0` from there up to
`z`. -/
theorem strtok_r_token (d0 d : Mem) (s z fuel : Nat) (p : Nat × Nat)
    (hagree : ∀ j, s ≤ j → j < z → rd d j = rd d0 j)
    (hz : rd d z = 0) (hs : s ≤ z) (hf : z < fuel)
    (ht : (strtok_r d s [32] fuel).token = some p) :
    ∃ (n : Nat) (tok : List Nat),
      tok ≠ [] ∧ (∀ ch, ch ∈ tok → ch ≠ 0 ∧ ch ≠ 32) ∧
      bytes (strtok_r d s [32] fuel).data p.1 p.2 = tok ∧
      HoldsAt d0 s (List.replicate n 32 ++ tok) ∧
      s + n + tok.length ≤ z ∧
      ((rd (strtok_r d s [32] fuel).data (strtok_r d s [32] fuel).save_ptr = 0 ∧
        (s + n + tok.length = z ∨ rd d0 (s + n + tok.length) = 0)) ∨
       (rd d0 (s + n + tok.length) = 32 ∧
        (strtok_r d s [32] fuel).save_ptr = s + n + tok.length + 1 ∧
        s + n + tok.length + 1 ≤ z ∧ rd (strtok_r d s [32] fuel).data z = 0 ∧
        ∀ j, s + n + tok.length + 1 ≤ j → j < z →
          rd (strtok_r d s [32] fuel).data j = rd d0 j)) := by
  obtain ⟨a1, a2, a3⟩ := strspn_spec d [32] fuel s z hz hs (by omega)
  obtain ⟨b1, b2, b3⟩ := strcspn_spec d [32] fuel (s + strspn d [32] s fuel) z hz a1 (by omega)
  generalize hk1 : strspn d [32] s fuel = k1 at *
  generalize hk2 : strcspn d [32] (s + k1) fuel = k2 at *
  by_cases c1 : rd d s = 0
  · simp [strtok_r, c1] at ht
  by_cases c2 : rd d (s + k1) = 0
  · simp [strtok_r, c1, hk1, c2] at ht
  have hns : rd d (s + k1) ≠ 32 := by
    rcases a3 with h | h
    · exact absurd h c2
    · simpa using h
  have hk2pos : 0 < k2 := by
    rcases Nat.eq_zero_or_pos k2 with h | h
    · rw [h, Nat.add_zero] at b3
      rcases b3 with h3 | h3
      · exact absurd h3 c2
      · exact absurd (by simpa using h3) hns
    · exact h
  have htok : ∀ j, s + k1 ≤ j → j < s + k1 + k2 → rd d j ≠ 0 ∧ rd d j ≠ 32 := by
    intro j h1 h2
    have := b2 (j - (s + k1)) (by omega)
    rw [show s + k1 + (j - (s + k1)) = j by omega] at this
    exact ⟨this.1, by simpa using this.2⟩
  have hp : p = (s + k1, s + k1 + k2) := by
    by_cases c3 : rd d (s + k1 + k2) = 0
    · simp [strtok_r, c1, hk1, c2, hk2, c3] at ht
      exact ht.symm
    · simp [strtok_r, c1, hk1, c2, hk2, c3] at ht
      exact ht.symm
  subst hp
  have hlen : (bytes d0 (s + k1) (s + k1 + k2)).length = k2 := by
    rw [bytes_length]; omega
  have hclean : ∀ ch, ch ∈ bytes d0 (s + k1) (s + k1 + k2) → ch ≠ 0 ∧ ch ≠ 32 := by
    intro ch hch
    obtain ⟨j, h1, h2, h3⟩ := mem_bytes _ _ _ _ hch
    rw [← h3, ← hagree j (by omega) (by omega)]
    exact htok j h1 h2
  have hne : bytes d0 (s + k1) (s + k1 + k2) ≠ [] := by
    intro h
    rw [h] at hlen
    simp at hlen
    omega
  have hrun : HoldsAt d0 s (List.replicate k1 32) := by
    apply HoldsAt_replicate
    intro j hj
    rw [← hagree _ (by omega) (by omega)]
    simpa using a2 j hj
  have hhold : HoldsAt d0 s (List.replicate k1 32 ++ bytes d0 (s + k1) (s + k1 + k2)) := by
    rw [HoldsAt_append, List.length_replicate]
    exact ⟨hrun, HoldsAt_bytes d0 d0 _ _ (fun _ _ _ => rfl)⟩
  by_cases c3 : rd d (s + k1 + k2) = 0
  · have hT : strtok_r d s [32] fuel = ⟨some (s + k1, s + k1 + k2), d, s + k1 + k2⟩ := by
      simp [strtok_r, c1, hk1, c2, hk2, c3]
    rw [hT]
    refine ⟨k1, bytes d0 (s + k1) (s + k1 + k2), hne, hclean, ?_, hhold, ?_, Or.inl ⟨c3, ?_⟩⟩
    · apply List.ext_getElem
      · simp [bytes]
      · intro i h1 h2
        simp only [bytes, List.getElem_map, List.getElem_range]
        rw [bytes_length] at h1
        exact hagree _ (by omega) (by omega)
    · rw [hlen]; exact b1
    · rw [hlen]
      by_cases hzz : s + k1 + k2 = z
      · exact Or.inl hzz
      · right
        rw [← hagree _ (by omega) (by omega)]
        exact c3
  · have h32 : rd d (s + k1 + k2) = 32 := by
      rcases b3 with h | h
      · exact absurd h c3
      · simpa using h
    have hT : strtok_r d s [32] fuel =
        ⟨some (s + k1, s + k1 + k2), wr d (s + k1 + k2) 0, s + k1 + k2 + 1⟩ := by
      simp [strtok_r, c1, hk1, c2, hk2, c3]
    have hnz : s + k1 + k2 ≠ z := fun h => c3 (h ▸ hz)
    rw [hT]
    refine ⟨k1, bytes d0 (s + k1) (s + k1 + k2), hne, hclean, ?_, hhold, ?_, Or.inr
      ⟨?_, ?_, ?_, ?_, ?_⟩⟩
    · apply List.ext_getElem
      · simp [bytes]
      · intro i h1 h2
        simp only [bytes, List.getElem_map, List.getElem_range]
        rw [bytes_length] at h1
        rw [rd_wr_of_ne _ _ _ _ (by omega)]
        exact hagree _ (by omega) (by omega)
    · rw [hlen]; exact b1
    · rw [hlen, ← hagree _ (by omega) (by omega)]; exact h32
    · rw [hlen]
    · rw [hlen]; omega
    · show rd (wr d (s + k1 + k2) 0) z = 0
      rw [rd_wr_of_ne _ _ _ _ (Ne.symm hnz)]
      exact hz
    · intro j hj hjz
      rw [hlen] at hj
      show rd (wr d (s + k1 + k2) 0) j = rd d0 j
      rw [rd_wr_of_ne _ _ _ _ (by omega)]
      exact hagree _ (by omega) hjz

theorem HoldsAt_glue (d : Mem) (s n c : Nat) (t rest : List Nat)
    (h1 : HoldsAt d s (List.replicate n 32 ++ t)) (h2 : rd d (s + n + t.length) = c)
    (h3 : HoldsAt d (s + n + t.length + 1) rest) :
    HoldsAt d s (List.replicate n 32 ++ (t ++ c :: rest)) := by
  rw [HoldsAt_append, List.length_replicate] at h1 ⊢
  rw [HoldsAt_append, HoldsAt_cons]
  exact ⟨h1.1, h1.2, h2, h3⟩

/-- The token loop returns a positive value only when it has found six
tokens: the memory holds, before the NUL at offset `e`, six fields separated
by runs of spaces (possibly after leading spaces), the second is TCP4 or
TCP6, the third and fourth are addresses of that family and the last two are
port numbers; the byte after the sixth field is a space, a NUL, or the byte
at offset `e` itself. -/
theorem DecodeV1_loop_success (data d0 : Mem) (size e : Nat) (src dst : InetAddress)
    (hag : ∀ j, j < e → rd d0 j = rd data j) (hz : rd d0 e = 0) (he : e < size)
    (hret : 0 < (DecodeV1_loop d0 size e src dst).ret) :
    ∃ (n0 n1 n2 n3 n4 n5 : Nat) (t1 t2 t3 t4 t5 t6 : List Nat) (af : Nat) (a b : List Nat),
      HoldsAt data 0 (List.replicate n0 32 ++
        v1Spaced t1 t2 t3 t4 t5 t6 n1 n2 n3 n4 n5 (rd data (n0 + t1.length + 1 + n1 +
          t2.length + 1 + n2 + t3.length + 1 + n3 + t4.length + 1 + n4 + t5.length + 1 + n5 +
          t6.length))) ∧
      n0 + t1.length + 1 + n1 + t2.length + 1 + n2 + t3.length + 1 + n3 + t4.length + 1 + n4 +
        t5.length + 1 + n5 + t6.length ≤ e ∧
      (n0 + t1.length + 1 + n1 + t2.length + 1 + n2 + t3.length + 1 + n3 + t4.length + 1 + n4 +
          t5.length + 1 + n5 + t6.length = e ∨
        rd data (n0 + t1.length + 1 + n1 + t2.length + 1 + n2 + t3.length + 1 + n3 +
          t4.length + 1 + n4 + t5.length + 1 + n5 + t6.length) = 0 ∨
        rd data (n0 + t1.length + 1 + n1 + t2.length + 1 + n2 + t3.length + 1 + n3 +
          t4.length + 1 + n4 + t5.length + 1 + n5 + t6.length) = 32) ∧
      t1 ≠ [] ∧ (∀ ch, ch ∈ t1 → ch ≠ 0 ∧ ch ≠ 32) ∧
      ((t2 = strTCP4 ∧ af = AF_INET) ∨ (t2 = strTCP6 ∧ af = AF_INET6)) ∧
      inet_pton af t3 = some a ∧ inet_pton af t4 = some b ∧
      t5 ≠ [] ∧ IsPort t5 ∧ t6 ≠ [] ∧ IsPort t6 ∧
      (DecodeV1_loop d0 size e src dst).src = ⟨af, htons (decimalValue t5), a⟩ ∧
      (DecodeV1_loop d0 size e src dst).dst = ⟨af, htons (decimalValue t6), b⟩ := by
  have hag0 : ∀ j, 0 ≤ j → j < e → rd d0 j = rd data j := fun j _ h => hag j h
  simp only [DecodeV1_loop] at hret ⊢
  obtain ⟨p1, h1⟩ : ∃ p, (strtok_r d0 0 [32] size).token = some p := by
    cases h : (strtok_r d0 0 [32] size).token with
    | none =>
      simp only [h] at hret
      exact absurd hret (by decide)
    | some p => exact ⟨p, rfl⟩
  obtain ⟨n0, t1, ne1, cl1, by1, hold1, le1, hc1⟩ :=
    strtok_r_token data d0 0 e size p1 hag0 hz (Nat.zero_le _) he h1
  simp only [h1] at hret ⊢
  generalize strtok_r d0 0 [32] size = T1 at *
  obtain ⟨p2, h2⟩ : ∃ p, (strtok_r T1.data T1.save_ptr [32] size).token = some p := by
    cases h : (strtok_r T1.data T1.save_ptr [32] size).token with
    | none =>
      simp only [h] at hret
      exact absurd hret (by decide)
    | some p => exact ⟨p, rfl⟩
  rcases hc1 with ⟨hnul, _⟩ | ⟨sp1, ptr1, le1b, z1, ag1⟩
  · rw [strtok_r_of_nul _ _ _ _ hnul] at h2
    exact absurd h2 (by simp)
  obtain ⟨n1, t2, ne2, cl2, by2, hold2, le2, hc2⟩ :=
    strtok_r_token data T1.data T1.save_ptr e size p2 (by rw [ptr1]; exact ag1) z1
      (by rw [ptr1]; exact le1b) he h2
  simp only [h2] at hret ⊢
  generalize strtok_r T1.data T1.save_ptr [32] size = T2 at *
  rw [ptr1] at hold2 le2 hc2
  rw [by2] at hret ⊢
  by_cases htag : t2 ≠ strTCP4 ∧ t2 ≠ strTCP6
  · rw [if_pos htag] at hret
    exact ((by decide : ¬ (0 : Int) < kUnknownFamily) hret).elim
  rw [if_neg htag] at hret ⊢
  have htag2 : (t2 = strTCP4 ∧ (if t2 = strTCP4 then AF_INET else AF_INET6) = AF_INET) ∨
      (t2 = strTCP6 ∧ (if t2 = strTCP4 then AF_INET else AF_INET6) = AF_INET6) := by
    by_cases h4 : t2 = strTCP4
    · exact Or.inl ⟨h4, by rw [if_pos h4]⟩
    · have h6 : t2 = strTCP6 := by
        by_contra h6
        exact htag ⟨h4, h6⟩
      exact Or.inr ⟨h6, by rw [if_neg h4]⟩
  generalize (if t2 = strTCP4 then AF_INET else AF_INET6) = af at *
  obtain ⟨p3, h3⟩ : ∃ p, (strtok_r T2.data T2.save_ptr [32] size).token = some p := by
    cases h : (strtok_r T2.data T2.save_ptr [32] size).token with
    | none =>
      simp only [h] at hret
      exact absurd hret (by decide)
    | some p => exact ⟨p, rfl⟩
  rcases hc2 with ⟨hnul, _⟩ | ⟨sp2, ptr2, le2b, z2, ag2⟩
  · rw [strtok_r_of_nul _ _ _ _ hnul] at h3
    exact absurd h3 (by simp)
  obtain ⟨n2, t3, ne3, cl3, by3, hold3, le3, hc3⟩ :=
    strtok_r_token data T2.data T2.save_ptr e size p3 (by rw [ptr2]; exact ag2) z2
      (by rw [ptr2]; exact le2b) he h3
  simp only [h3] at hret ⊢
  generalize strtok_r T2.data T2.save_ptr [32] size = T3 at *
  rw [ptr2] at hold3 le3 hc3
  rw [by3] at hret ⊢
  obtain ⟨a, ha⟩ : ∃ a, inet_pton af t3 = some a := by
    cases h : inet_pton af t3 with
    | none =>
      simp only [h] at hret
      exact absurd hret (by decide)
    | some a => exact ⟨a, rfl⟩
  simp only [ha] at hret ⊢
  obtain ⟨p4, h4⟩ : ∃ p, (strtok_r T3.data T3.save_ptr [32] size).token = some p := by
    cases h : (strtok_r T3.data T3.save_ptr [32] size).token with
    | none =>
      simp only [h] at hret
      exact absurd hret (by decide)
    | some p => exact ⟨p, rfl⟩
  rcases hc3 with ⟨hnul, _⟩ | ⟨sp3, ptr3, le3b, z3, ag3⟩
  · rw [strtok_r_of_nul _ _ _ _ hnul] at h4
    exact absurd h4 (by simp)
  obtain ⟨n3, t4, ne4, cl4, by4, hold4, le4, hc4⟩ :=
    strtok_r_token data T3.data T3.save_ptr e size p4 (by rw [ptr3]; exact ag3) z3
      (by rw [ptr3]; exact le3b) he h4
  simp only [h4] at hret ⊢
  generalize strtok_r T3.data T3.save_ptr [32] size = T4 at *
  rw [ptr3] at hold4 le4 hc4
  rw [by4] at hret ⊢
  obtain ⟨b, hb⟩ : ∃ b, inet_pton af t4 = some b := by
    cases h : inet_pton af t4 with
    | none =>
      simp only [h] at hret
      exact absurd hret (by decide)
    | some b => exact ⟨b, rfl⟩
  simp only [hb] at hret ⊢
  obtain ⟨p5, h5⟩ : ∃ p, (strtok_r T4.data T4.save_ptr [32] size).token = some p := by
    cases h : (strtok_r T4.data T4.save_ptr [32] size).token with
    | none =>
      simp only [h] at hret
      exact absurd hret (by decide)
    | some p => exact ⟨p, rfl⟩
  rcases hc4 with ⟨hnul, _⟩ | ⟨sp4, ptr4, le4b, z4, ag4⟩
  · rw [strtok_r_of_nul _ _ _ _ hnul] at h5
    exact absurd h5 (by simp)
  obtain ⟨n4, t5, ne5, cl5, by5, hold5, le5, hc5⟩ :=
    strtok_r_token data T4.data T4.save_ptr e size p5 (by rw [ptr4]; exact ag4) z4
      (by rw [ptr4]; exact le4b) he h5
  simp only [h5] at hret ⊢
  generalize strtok_r T4.data T4.save_ptr [32] size = T5 at *
  rw [ptr4] at hold5 le5 hc5
  rw [by5] at hret ⊢
  obtain ⟨sp, hsp⟩ : ∃ q, parsePort t5 = some q := by
    cases h : parsePort t5 with
    | none =>
      simp only [h] at hret
      exact absurd hret (by decide)
    | some q => exact ⟨q, rfl⟩
  simp only [hsp] at hret ⊢
  obtain ⟨p6, h6⟩ : ∃ p, (strtok_r T5.data T5.save_ptr [32] size).token = some p := by
    cases h : (strtok_r T5.data T5.save_ptr [32] size).token with
    | none =>
      simp only [h] at hret
      exact absurd hret (by decide)
    | some p => exact ⟨p, rfl⟩
  rcases hc5 with ⟨hnul, _⟩ | ⟨sp5, ptr5, le5b, z5, ag5⟩
  · rw [strtok_r_of_nul _ _ _ _ hnul] at h6
    exact absurd h6 (by simp)
  obtain ⟨n5, t6, ne6, cl6, by6, hold6, le6, hc6⟩ :=
    strtok_r_token data T5.data T5.save_ptr e size p6 (by rw [ptr5]; exact ag5) z5
      (by rw [ptr5]; exact le5b) he h6
  simp only [h6] at hret ⊢
  generalize strtok_r T5.data T5.save_ptr [32] size = T6 at *
  rw [ptr5] at hold6 le6 hc6
  rw [by6] at hret ⊢
  obtain ⟨dp, hdp⟩ : ∃ q, parsePort t6 = some q := by
    cases h : parsePort t6 with
    | none =>
      simp only [h] at hret
      exact absurd hret (by decide)
    | some q => exact ⟨q, rfl⟩
  simp only [hdp]
  have port5 : IsPort t5 ∧ sp = decimalValue t5 := by
    rw [parsePort_eq t5 ne5] at hsp
    by_cases hi : IsPort t5
    · rw [if_pos hi] at hsp
      exact ⟨hi, (Option.some.inj hsp).symm⟩
    · rw [if_neg hi] at hsp
      exact absurd hsp (by simp)
  have port6 : IsPort t6 ∧ dp = decimalValue t6 := by
    rw [parsePort_eq t6 ne6] at hdp
    by_cases hi : IsPort t6
    · rw [if_pos hi] at hdp
      exact ⟨hi, (Option.some.inj hdp).symm⟩
    · rw [if_neg hi] at hdp
      exact absurd hdp (by simp)
  simp only [Nat.zero_add] at hold1 hold2 hold3 hold4 hold5 hold6 le6 hc6 sp1 sp2 sp3 sp4 sp5
  refine ⟨n0, n1, n2, n3, n4, n5, t1, t2, t3, t4, t5, t6, af, a, b, ?_, le6, ?_, ne1, cl1, htag2,
    ha, hb, ne5, port5.1, ne6, port6.1, ?_, ?_⟩
  · unfold v1Spaced
    refine HoldsAt_glue data 0 n0 32 t1 _ hold1 (by rw [Nat.zero_add]; exact sp1) ?_
    rw [Nat.zero_add]
    refine HoldsAt_glue data _ n1 32 t2 _ hold2 sp2 ?_
    refine HoldsAt_glue data _ n2 32 t3 _ hold3 sp3 ?_
    refine HoldsAt_glue data _ n3 32 t4 _ hold4 sp4 ?_
    refine HoldsAt_glue data _ n4 32 t5 _ hold5 sp5 ?_
    refine HoldsAt_glue data _ n5 _ t6 [] hold6 rfl ?_
    intro k hk
    exact absurd hk (Nat.not_lt_zero _)
  · rcases hc6 with ⟨_, h | h⟩ | ⟨h, _⟩
    · exact Or.inl h
    · exact Or.inr (Or.inl h)
    · exact Or.inr (Or.inr h)
  · rw [port5.2]
    rcases htag2 with ⟨_, h⟩ | ⟨_, h⟩
    · rw [if_pos h, h]; rfl
    · rw [if_neg (by rw [h]; decide), h]; rfl
  · rw [port6.2]
    rcases htag2 with ⟨_, h⟩ | ⟨_, h⟩
    · rw [if_pos h, h]; rfl
    · rw [if_neg (by rw [h]; decide), h]; rfl

/-! ## The grammar of an accepted line -/

/-- C11 (counterexample): three lines outside the six-field grammar are
accepted, each with its full length as the return value: a line with a
seventh field, a line with two spaces between the first two fields, and a
line whose first field is "PROXYX". -/
theorem v1_lines_outside_grammar_accepted :
    (DecodeProxyProto (memOf seventhFieldLine zeroMem) 38 InetAddress.default
      InetAddress.default).ret = 38 ∧
    (DecodeProxyProto (memOf doubleSpaceLine zeroMem) 33 InetAddress.default
      InetAddress.default).ret = 33 ∧
    (DecodeProxyProto (memOf proxyxLine zeroMem) 33 InetAddress.default
      InetAddress.default).ret = 33 ∧
    seventhFieldLine.length = 38 ∧ doubleSpaceLine.length = 33 ∧ proxyxLine.length = 33 := by
  refine ⟨by decide, by decide, by decide, by decide, by decide, by decide⟩

/-- C11 (amended): the decoder returns success on a buffer that starts with
"PROXY" only when the first CR of the buffer is followed by LF and the bytes
before that CR begin with six fields separated by one or more spaces: the
first field begins with PROXY and holds no NUL, space or CR, the second is
exactly TCP4 or TCP6, the third and fourth are addresses of that family, the
fifth and sixth are non-empty decimal texts of at most 65535, and the sixth
field is ended by a space, a NUL or the CR.  The endpoints returned are those
of the four fields. -/
theorem DecodeProxyProto_v1_grammar (data : Mem) (size : Nat) (src dst : InetAddress)
    (hp : ∀ i, i < 5 → rd data i = sigV1.getD i 0)
    (hret : 0 < (DecodeProxyProto data size src dst).ret) :
    ∃ (e : Nat) (x t2 t3 t4 t5 t6 : List Nat) (n1 n2 n3 n4 n5 c af : Nat) (a b : List Nat),
      e < size - 1 ∧ rd data e = 13 ∧ (∀ j, j < e → rd data j ≠ 13) ∧ rd data (e + 1) = 10 ∧
      HoldsAt data 0 (v1Spaced (sigV1 ++ x) t2 t3 t4 t5 t6 n1 n2 n3 n4 n5 c) ∧
      (v1Spaced (sigV1 ++ x) t2 t3 t4 t5 t6 n1 n2 n3 n4 n5 c).length ≤ e + 1 ∧
      (c = 32 ∨ c = 0 ∨ c = 13) ∧
      (∀ ch, ch ∈ x → ch ≠ 0 ∧ ch ≠ 32 ∧ ch ≠ 13) ∧
      ((t2 = strTCP4 ∧ af = AF_INET) ∨ (t2 = strTCP6 ∧ af = AF_INET6)) ∧
      inet_pton af t3 = some a ∧ inet_pton af t4 = some b ∧
      t5 ≠ [] ∧ IsPort t5 ∧ t6 ≠ [] ∧ IsPort t6 ∧
      (DecodeProxyProto data size src dst).src = ⟨af, htons (decimalValue t5), a⟩ ∧
      (DecodeProxyProto data size src dst).dst = ⟨af, htons (decimalValue t6), b⟩ := by
  have h8 := eight_bytes_of_positive data size src dst hret
  rw [DecodeProxyProto_eq_v1 data size src dst h8 hp] at hret ⊢
  simp only [DecodeV1] at hret ⊢
  obtain ⟨e, hm⟩ : ∃ e, memchr data 13 (size - 1) = some e := by
    cases h : memchr data 13 (size - 1) with
    | none =>
      simp only [h] at hret
      exact absurd hret (by decide)
    | some e => exact ⟨e, rfl⟩
  simp only [hm] at hret ⊢
  have hlf : rd data (e + 1) = 10 := by
    by_contra hne
    rw [if_pos hne] at hret
    exact ((by decide : ¬ (0 : Int) < kWrongProtocol) hret).elim
  simp only [hlf, ne_eq, not_true_eq_false, if_false] at hret ⊢
  obtain ⟨he, hcr, hfirst⟩ := memchr_some data 13 (size - 1) e hm
  obtain ⟨n0, n1, n2, n3, n4, n5, t1, t2, t3, t4, t5, t6, af, a, b, hold, hle, hend, ne1, cl1,
      htag, ha, hb, ne5, ip5, ne6, ip6, hsrc, hdst⟩ :=
    DecodeV1_loop_success data (wr data e 0) size e src dst
      (fun j hj => rd_wr_of_ne _ _ _ _ (by omega)) (by rw [rd_wr_same]) (by omega) hret
  have hn0 : n0 = 0 := by
    cases n0 with
    | zero => rfl
    | succ m =>
      have h0 := hold 0 (by simp [List.replicate_succ])
      rw [Nat.zero_add, hp 0 (by decide)] at h0
      simp [List.replicate_succ, sigV1] at h0
  subst hn0
  simp only [List.replicate_zero, List.nil_append, Nat.zero_add] at hold hle hend
  have hold1 : HoldsAt data 0 t1 ∧ rd data t1.length = 32 := by
    unfold v1Spaced at hold
    rw [HoldsAt_append, HoldsAt_cons, Nat.zero_add] at hold
    exact ⟨hold.1, hold.2.1⟩
  have hlen5 : 5 ≤ t1.length := by
    by_contra hlt
    have h1 := hp t1.length (by omega)
    rw [hold1.2] at h1
    generalize t1.length = L at *
    have hL : L < 5 := by omega
    interval_cases L <;> simp [sigV1] at h1
  obtain ⟨x, hx⟩ : ∃ x, t1 = sigV1 ++ x := by
    refine ⟨t1.drop 5, ?_⟩
    have htake : t1.take 5 = sigV1 := by
      apply List.ext_getElem
      · simp [sigV1]; omega
      · intro i h1 h2
        have hi : i < 5 := by simpa [sigV1] using h2
        rw [List.getElem_take]
        have := hold1.1 i (by omega)
        have e1 : t1.getD i 0 = t1[i] := List.getD_eq_getElem _ _ (by omega)
        have e2 : sigV1.getD i 0 = sigV1[i] := List.getD_eq_getElem _ _ h2
        rw [Nat.zero_add, hp i hi, e1, e2] at this
        exact this.symm
    rw [← htake, List.take_append_drop]
  have hclx : ∀ ch, ch ∈ x → ch ≠ 0 ∧ ch ≠ 32 ∧ ch ≠ 13 := by
    intro ch hch
    have hmem : ch ∈ t1 := by rw [hx]; exact List.mem_append_right _ hch
    refine ⟨(cl1 ch hmem).1, (cl1 ch hmem).2, ?_⟩
    obtain ⟨k, hk, hkeq⟩ := List.getElem_of_mem hmem
    have := hold1.1 k hk
    rw [Nat.zero_add, List.getD_eq_getElem _ _ hk, hkeq] at this
    rw [← this]
    exact hfirst k (by omega)
  subst hx
  refine ⟨e, x, t2, t3, t4, t5, t6, n1, n2, n3, n4, n5, _, af, a, b, he, hcr, hfirst, hlf, hold,
    ?_, ?_, hclx, htag, ha, hb, ne5, ip5, ne6, ip6, hsrc, hdst⟩
  · simp only [v1Spaced, List.length_append, List.length_cons, List.length_replicate,
      List.length_nil] at hle ⊢
    omega
  · rcases hend with h | h | h
    · right; right
      rw [h]; exact hcr
    · exact Or.inr (Or.inl h)
    · exact Or.inl h

set_option maxRecDepth 100000 in
theorem DecodeProxyProto_v1_grammar_witness :
    (∀ i, i < 5 → rd (memOf doubleSpaceLine zeroMem) i = sigV1.getD i 0) ∧
    0 < (DecodeProxyProto (memOf doubleSpaceLine zeroMem) 33 InetAddress.default InetAddress.default).ret ∧
    ∃ (e : Nat) (x t2 t3 t4 t5 t6 : List Nat) (n1 n2 n3 n4 n5 c af : Nat) (a b : List Nat),
      e < 33 - 1 ∧ rd (memOf doubleSpaceLine zeroMem) e = 13 ∧
      (∀ j, j < e → rd (memOf doubleSpaceLine zeroMem) j ≠ 13) ∧
      rd (memOf doubleSpaceLine zeroMem) (e + 1) = 10 ∧
      HoldsAt (memOf doubleSpaceLine zeroMem) 0
        (v1Spaced (sigV1 ++ x) t2 t3 t4 t5 t6 n1 n2 n3 n4 n5 c) ∧
      (v1Spaced (sigV1 ++ x) t2 t3 t4 t5 t6 n1 n2 n3 n4 n5 c).length ≤ e + 1 ∧
      (c = 32 ∨ c = 0 ∨ c = 13) ∧
      (∀ ch, ch ∈ x → ch ≠ 0 ∧ ch ≠ 32 ∧ ch ≠ 13) ∧
      ((t2 = strTCP4 ∧ af = AF_INET) ∨ (t2 = strTCP6 ∧ af = AF_INET6)) ∧
      inet_pton af t3 = some a ∧ inet_pton af t4 = some b ∧
      t5 ≠ [] ∧ IsPort t5 ∧ t6 ≠ [] ∧ IsPort t6 ∧
      (DecodeProxyProto (memOf doubleSpaceLine zeroMem) 33 InetAddress.default InetAddress.default).src =
        ⟨af, htons (decimalValue t5), a⟩ ∧
      (DecodeProxyProto (memOf doubleSpaceLine zeroMem) 33 InetAddress.default InetAddress.default).dst =
        ⟨af, htons (decimalValue t6), b⟩ :=
  ⟨by decide, by decide,
    DecodeProxyProto_v1_grammar (memOf doubleSpaceLine zeroMem) 33 InetAddress.default InetAddress.default
      (by decide) (by decide)⟩

/-! ## A line with fewer than six fields -/

theorem strtok_r_end_nul (d : Mem) (s fuel : Nat) (tok rest : List Nat) (hf : IsField tok)
    (h : HoldsAt d s (tok ++ 0 :: rest)) (hfuel : tok.length < fuel) :
    rd (strtok_r d s [32] fuel).data (strtok_r d s [32] fuel).save_ptr = 0 := by
  obtain ⟨hne, hclean⟩ := hf
  rw [HoldsAt_append, HoldsAt_cons] at h
  obtain ⟨htok, hsp, _⟩ := h
  have hlen : 0 < tok.length := List.length_pos.2 hne
  have hget : ∀ k, k < tok.length → tok.getD k 0 ∈ tok := fun k hk => by
    rw [List.getD_eq_getElem _ _ hk]; exact List.getElem_mem _
  have h0 : rd d s ≠ 0 ∧ rd d s ≠ 32 := by
    have := htok 0 hlen
    rw [Nat.add_zero] at this
    rw [this]
    exact ⟨(hclean _ (hget 0 hlen)).1, (hclean _ (hget 0 hlen)).2.1⟩
  have hspn : strspn d [32] s fuel = 0 := strspn_zero d [32] s fuel (by simpa using h0.2)
  have hcspn : strcspn d [32] s fuel = tok.length := by
    apply strcspn_eq d [32] fuel s tok.length hfuel
    · intro j hj
      rw [htok j hj]
      have := hclean _ (hget j hj)
      exact ⟨this.1, by simpa using this.2.1⟩
    · left; exact hsp
  simp only [strtok_r, h0.1, hspn, hcspn, Nat.add_zero, hsp, if_false, if_true]

/-- The token loop on memory that holds k < 6 fields separated by single
spaces and closed by NUL, each field valid for its position: the loop asks
for one more token, finds none and returns WrongProtocol. -/
theorem DecodeV1_loop_missing (d0 : Mem) (size e k af : Nat) (src dst : InetAddress)
    (f1 f2 f3 f4 f5 rest a b : List Nat)
    (hk : 1 ≤ k ∧ k ≤ 5) (h1 : IsField f1)
    (htag : (f2 = strTCP4 ∧ af = AF_INET) ∨ (f2 = strTCP6 ∧ af = AF_INET6))
    (ha : inet_pton af f3 = some a) (hb : inet_pton af f4 = some b)
    (h5 : f5 ≠ [] ∧ IsPort f5)
    (hmem : HoldsAt d0 0 (joinFields ([f1, f2, f3, f4, f5].take k) ++ 0 :: rest))
    (hfuel : (joinFields ([f1, f2, f3, f4, f5].take k)).length < size) :
    (DecodeV1_loop d0 size e src dst).ret = kWrongProtocol ∧
    (DecodeV1_loop d0 size e src dst).src = src ∧
    (DecodeV1_loop d0 size e src dst).dst = dst := by
  have h2 : IsField f2 := by
    rcases htag with ⟨h, _⟩ | ⟨h, _⟩ <;> rw [h] <;> decide
  have h3 : IsField f3 := inet_pton_isField af f3 a ha
  have h4 : IsField f4 := inet_pton_isField af f4 b hb
  have h5f : IsField f5 := IsField_of_digits f5 h5.1 h5.2.1
  have hp5 : parsePort f5 = some (decimalValue f5) := by
    rw [parsePort_eq f5 h5.1, if_pos h5.2]
  have haf : (if f2 = strTCP4 then AF_INET else AF_INET6) = af := by
    rcases htag with ⟨h, h'⟩ | ⟨h, h'⟩
    · rw [if_pos h, h']
    · rw [if_neg (by rw [h]; decide), h']
  have hnot : ¬ (f2 ≠ strTCP4 ∧ f2 ≠ strTCP6) := by
    rcases htag with ⟨h, _⟩ | ⟨h, _⟩
    · exact fun hh => hh.1 h
    · exact fun hh => hh.2 h
  obtain ⟨hk1, hk5⟩ := hk
  unfold DecodeV1_loop
  interval_cases k
  · simp only [List.take, joinFields, List.append_assoc, List.cons_append,
      List.length_append, List.length_cons] at hmem hfuel
    obtain ⟨t1a, _, t1c⟩ := strtok_r_end d0 0 size f1 _ h1 hmem (by omega)
    have t1z := strtok_r_end_nul d0 0 size f1 _ h1 hmem (by omega)
    have t1n := strtok_r_of_nul _ _ size [32] t1z
    generalize strtok_r d0 0 [32] size = T1 at *
    simp only [t1a, t1n]
    exact ⟨trivial, trivial, trivial⟩
  · simp only [List.take, joinFields, List.append_assoc, List.cons_append,
      List.length_append, List.length_cons] at hmem hfuel
    obtain ⟨t1a, t1b, _, _, t1m⟩ := strtok_r_sep d0 0 size f1 _ h1 hmem (by omega)
    generalize strtok_r d0 0 [32] size = T1 at *
    simp only [t1a, t1b]
    obtain ⟨t2a, _, t2c⟩ := strtok_r_end T1.data _ size f2 _ h2 t1m (by omega)
    have t2z := strtok_r_end_nul T1.data _ size f2 _ h2 t1m (by omega)
    have t2n := strtok_r_of_nul _ _ size [32] t2z
    generalize strtok_r T1.data (0 + f1.length + 1) [32] size = T2 at *
    simp only [t2a, t2c, hnot, haf, if_false, t2n]
    exact ⟨trivial, trivial, trivial⟩
  · simp only [List.take, joinFields, List.append_assoc, List.cons_append,
      List.length_append, List.length_cons] at hmem hfuel
    obtain ⟨t1a, t1b, _, _, t1m⟩ := strtok_r_sep d0 0 size f1 _ h1 hmem (by omega)
    generalize strtok_r d0 0 [32] size = T1 at *
    simp only [t1a, t1b]
    obtain ⟨t2a, t2b, _, t2c, t2m⟩ := strtok_r_sep T1.data _ size f2 _ h2 t1m (by omega)
    generalize strtok_r T1.data (0 + f1.length + 1) [32] size = T2 at *
    simp only [t2a, t2b, t2c, hnot, haf, if_false]
    obtain ⟨t3a, _, t3c⟩ := strtok_r_end T2.data _ size f3 _ h3 t2m (by omega)
    have t3z := strtok_r_end_nul T2.data _ size f3 _ h3 t2m (by omega)
    have t3n := strtok_r_of_nul _ _ size [32] t3z
    generalize strtok_r T2.data (0 + f1.length + 1 + f2.length + 1) [32] size = T3 at *
    simp only [t3a, t3c, ha, t3n]
    exact ⟨trivial, trivial, trivial⟩
  · simp only [List.take, joinFields, List.append_assoc, List.cons_append,
      List.length_append, List.length_cons] at hmem hfuel
    obtain ⟨t1a, t1b, _, _, t1m⟩ := strtok_r_sep d0 0 size f1 _ h1 hmem (by omega)
    generalize strtok_r d0 0 [32] size = T1 at *
    simp only [t1a, t1b]
    obtain ⟨t2a, t2b, _, t2c, t2m⟩ := strtok_r_sep T1.data _ size f2 _ h2 t1m (by omega)
    generalize strtok_r T1.data (0 + f1.length + 1) [32] size = T2 at *
    simp only [t2a, t2b, t2c, hnot, haf, if_false]
    obtain ⟨t3a, t3b, _, t3c, t3m⟩ := strtok_r_sep T2.data _ size f3 _ h3 t2m (by omega)
    generalize strtok_r T2.data (0 + f1.length + 1 + f2.length + 1) [32] size = T3 at *
    simp only [t3a, t3b, t3c, ha]
    obtain ⟨t4a, _, t4c⟩ := strtok_r_end T3.data _ size f4 _ h4 t3m (by omega)
    have t4z := strtok_r_end_nul T3.data _ size f4 _ h4 t3m (by omega)
    have t4n := strtok_r_of_nul _ _ size [32] t4z
    generalize strtok_r T3.data (0 + f1.length + 1 + f2.length + 1 + f3.length + 1) [32] size = T4 at *
    simp only [t4a, t4c, hb, t4n]
    exact ⟨trivial, trivial, trivial⟩
  · simp only [List.take, joinFields, List.append_assoc, List.cons_append,
      List.length_append, List.length_cons] at hmem hfuel
    obtain ⟨t1a, t1b, _, _, t1m⟩ := strtok_r_sep d0 0 size f1 _ h1 hmem (by omega)
    generalize strtok_r d0 0 [32] size = T1 at *
    simp only [t1a, t1b]
    obtain ⟨t2a, t2b, _, t2c, t2m⟩ := strtok_r_sep T1.data _ size f2 _ h2 t1m (by omega)
    generalize strtok_r T1.data (0 + f1.length + 1) [32] size = T2 at *
    simp only [t2a, t2b, t2c, hnot, haf, if_false]
    obtain ⟨t3a, t3b, _, t3c, t3m⟩ := strtok_r_sep T2.data _ size f3 _ h3 t2m (by omega)
    generalize strtok_r T2.data (0 + f1.length + 1 + f2.length + 1) [32] size = T3 at *
    simp only [t3a, t3b, t3c, ha]
    obtain ⟨t4a, t4b, _, t4c, t4m⟩ := strtok_r_sep T3.data _ size f4 _ h4 t3m (by omega)
    generalize strtok_r T3.data (0 + f1.length + 1 + f2.length + 1 + f3.length + 1) [32] size = T4 at *
    simp only [t4a, t4b, t4c, hb]
    obtain ⟨t5a, _, t5c⟩ := strtok_r_end T4.data _ size f5 _ h5f t4m (by omega)
    have t5z := strtok_r_end_nul T4.data _ size f5 _ h5f t4m (by omega)
    have t5n := strtok_r_of_nul _ _ size [32] t5z
    generalize strtok_r T4.data (0 + f1.length + 1 + f2.length + 1 + f3.length + 1 + f4.length + 1) [32] size = T5 at *
    simp only [t5a, t5c, hp5, t5n]
    exact ⟨trivial, trivial, trivial⟩

theorem joinFields_not_mem (c : Nat) (hc : c ≠ 32) :
    ∀ fs : List (List Nat), (∀ f, f ∈ fs → c ∉ f) → c ∉ joinFields fs
  | [], _ => by simp [joinFields]
  | [f], h => by
    simp only [joinFields]
    exact h f (List.mem_singleton.2 rfl)
  | f :: g :: rest, h => by
    simp only [joinFields, List.mem_append, List.mem_cons, not_or]
    exact ⟨h f (List.mem_cons_self _ _), hc,
      joinFields_not_mem c hc (g :: rest) (fun x hx => h x (List.mem_cons_of_mem _ hx))⟩

/-- C21: on a buffer of at least 8 bytes that starts with "PROXY" and holds
a line of k fields, 1 ≤ k ≤ 5, separated by single spaces and ended by CR
LF, in which every field present is valid for its position (a first field
free of NUL, space and CR, the tag TCP4 or TCP6, addresses of that family, a
source port of digits with value at most 65535), the decoder returns
WrongProtocol and leaves the outputs untouched. -/
theorem DecodeProxyProto_v1_missing_fields (data : Mem) (size k af : Nat)
    (src dst : InetAddress) (f1 tag sip dip sp a b : List Nat)
    (h8 : 8 ≤ size) (hp : ∀ i, i < 5 → rd data i = sigV1.getD i 0)
    (hk : 1 ≤ k ∧ k ≤ 5) (hf1 : IsField f1)
    (htag : (tag = strTCP4 ∧ af = AF_INET) ∨ (tag = strTCP6 ∧ af = AF_INET6))
    (hsip : inet_pton af sip = some a) (hdip : inet_pton af dip = some b)
    (hsp : sp ≠ [] ∧ IsPort sp)
    (hdata : HoldsAt data 0 (joinFields ([f1, tag, sip, dip, sp].take k) ++ [13, 10]))
    (hsize : (joinFields ([f1, tag, sip, dip, sp].take k)).length + 2 ≤ size) :
    (DecodeProxyProto data size src dst).ret = kWrongProtocol ∧
    (DecodeProxyProto data size src dst).src = src ∧
    (DecodeProxyProto data size src dst).dst = dst := by
  rw [DecodeProxyProto_eq_v1 data size src dst h8 hp]
  have hfields : ∀ f, f ∈ [f1, tag, sip, dip, sp] → IsField f := by
    intro f hf
    simp only [List.mem_cons, List.mem_singleton, List.not_mem_nil, or_false] at hf
    rcases hf with h | h | h | h | h
    · rw [h]; exact hf1
    · rw [h]
      rcases htag with ⟨h2, _⟩ | ⟨h2, _⟩ <;> rw [h2] <;> decide
    · rw [h]; exact inet_pton_isField af sip a hsip
    · rw [h]; exact inet_pton_isField af dip b hdip
    · rw [h]; exact IsField_of_digits sp hsp.1 hsp.2.1
  have hnocr : 13 ∉ joinFields ([f1, tag, sip, dip, sp].take k) := by
    apply joinFields_not_mem 13 (by decide)
    intro f hf h13
    exact ((hfields f (List.mem_of_mem_take hf)).2 13 h13).2.2 rfl
  have hm := memchr_of_HoldsAt data (joinFields ([f1, tag, sip, dip, sp].take k)) [10] 13
    (size - 1) hdata hnocr (by omega)
  have hlf : rd data ((joinFields ([f1, tag, sip, dip, sp].take k)).length + 1) = 10 := by
    have h := hdata
    rw [HoldsAt_append, HoldsAt_cons, HoldsAt_cons, Nat.zero_add] at h
    exact h.2.2.1
  simp only [DecodeV1, hm, hlf, ne_eq, not_true_eq_false, if_false]
  exact DecodeV1_loop_missing _ size _ k af src dst f1 tag sip dip sp [10] a b hk hf1 htag
    hsip hdip hsp (HoldsAt_wr_at data _ [10] 13 hdata) (by omega)

theorem DecodeProxyProto_v1_missing_fields_witness :
    8 ≤ 31 ∧ (∀ i, i < 5 → rd (memOf fiveFieldLine zeroMem) i = sigV1.getD i 0) ∧
    IsField sigV1 ∧
    inet_pton AF_INET (ascii "1.2.3.4") = some [1, 2, 3, 4] ∧
    inet_pton AF_INET (ascii "5.6.7.8") = some [5, 6, 7, 8] ∧
    IsPort (ascii "80") ∧
    HoldsAt (memOf fiveFieldLine zeroMem) 0
      (joinFields ([sigV1, strTCP4, ascii "1.2.3.4", ascii "5.6.7.8", ascii "80"].take 5) ++
        [13, 10]) ∧
    fiveFieldLine.length = 31 ∧
    (DecodeProxyProto (memOf fiveFieldLine zeroMem) 31 InetAddress.default
      InetAddress.default).ret = kWrongProtocol :=
  ⟨by decide, by decide, by decide, by decide, by decide, by decide, by decide, by decide,
    (DecodeProxyProto_v1_missing_fields (memOf fiveFieldLine zeroMem) 31 5 AF_INET
      InetAddress.default InetAddress.default sigV1 strTCP4 (ascii "1.2.3.4")
      (ascii "5.6.7.8") (ascii "80") [1, 2, 3, 4] [5, 6, 7, 8]
      (by decide) (by decide) (by decide) (by decide) (Or.inl ⟨rfl, rfl⟩) (by decide)
      (by decide) (by decide) (by decide) (by decide)).1⟩

/-! ## The transition of a connection -/

theorem OnReadable_state (c : Conn) (r : RecvOutcome) :
    (OnReadable c r).state =
      if 0 < r.n ∧ 0 < (DecodeProxyProto (memOf (c.ibuf ++ r.buf.take r.n.toNat) r.slack)
          (c.ibuf ++ r.buf.take r.n.toNat).length InetAddress.default
          InetAddress.default).ret ∨ r.n = 0
      then kDisconnected else c.state := by
  unfold OnReadable
  by_cases hn : r.n > 0
  · have hn2 : 0 < r.n := hn
    have hn3 : r.n ≠ 0 := by omega
    simp only [hn, hn2, hn3, if_true, true_and, or_false]
    split <;> rfl
  · have hn2 : ¬ 0 < r.n := hn
    simp only [hn, hn2, if_false, false_and, false_or]
    split <;> rfl

/-- The state after `OnConnEvt`, as a function of the event mask, the read
outcome and the decoder result. -/
theorem OnConnEvt_state (conn : Conn) (events : Nat) (r : RecvOutcome) :
    (OnConnEvt conn events r).state =
      if (events &&& POLLHUP ≠ 0 ∧ events &&& POLLIN = 0) ∨
        events &&& (POLLERR ||| POLLNVAL) ≠ 0 ∨
        (events &&& (POLLIN ||| POLLPRI ||| POLLRDHUP) ≠ 0 ∧
          (r.n = 0 ∨ (0 < r.n ∧
            0 < (DecodeProxyProto (memOf (conn.ibuf ++ r.buf.take r.n.toNat) r.slack)
              (conn.ibuf ++ r.buf.take r.n.toNat).length InetAddress.default
              InetAddress.default).ret)))
      then kDisconnected else conn.state := by
  simp only [OnConnEvt]
  rw [(writable_step _ _ _).1]
  by_cases h1 : events &&& POLLHUP ≠ 0 ∧ ¬ (events &&& POLLIN ≠ 0)
  · have h1b : events &&& POLLHUP ≠ 0 ∧ events &&& POLLIN = 0 := ⟨h1.1, not_not.1 h1.2⟩
    rw [if_pos (Or.inl h1b), if_pos h1]
    by_cases h3 : events &&& (POLLIN ||| POLLPRI ||| POLLRDHUP) ≠ 0
    · rw [if_pos h3, OnReadable_state]
      split_ifs <;> rfl
    · rw [if_neg h3]
      split_ifs <;> rfl
  · have h1b : ¬ (events &&& POLLHUP ≠ 0 ∧ events &&& POLLIN = 0) :=
      fun h => h1 ⟨h.1, not_not.2 h.2⟩
    rw [if_neg h1]
    by_cases h2 : events &&& (POLLERR ||| POLLNVAL) ≠ 0
    · rw [if_pos (Or.inr (Or.inl h2)), if_pos h2]
      by_cases h3 : events &&& (POLLIN ||| POLLPRI ||| POLLRDHUP) ≠ 0
      · rw [if_pos h3, OnReadable_state]
        split_ifs <;> rfl
      · rw [if_neg h3]
    · rw [if_neg h2]
      by_cases h3 : events &&& (POLLIN ||| POLLPRI ||| POLLRDHUP) ≠ 0
      · rw [if_pos h3, OnReadable_state]
        by_cases h4 : r.n = 0 ∨ (0 < r.n ∧
            0 < (DecodeProxyProto (memOf (conn.ibuf ++ r.buf.take r.n.toNat) r.slack)
              (conn.ibuf ++ r.buf.take r.n.toNat).length InetAddress.default
              InetAddress.default).ret)
        · rw [if_pos (Or.inr (Or.inr ⟨h3, h4⟩)), if_pos (Or.comm.1 h4)]
        · rw [if_neg (fun h => h4 (Or.comm.1 h)), if_neg]
          rintro (h | h | ⟨_, h⟩)
          · exact h1b h
          · exact h2 h
          · exact h4 h
      · rw [if_neg h3, if_neg]
        rintro (h | h | ⟨h, _⟩)
        · exact h1b h
        · exact h2 h
        · exact h3 h

/-- C23: the state after `OnConnEvt` of a Connected connection is
Disconnected exactly when hang-up is set without POLLIN, or error or
invalid-descriptor is set, or one of POLLIN, POLLPRI, POLLRDHUP is set and the
read returned 0 or returned n > 0 with a positive decoder result on the
accumulated buffer.  In the readable branch a negative read result and a
non-positive decoder result leave the state as it was, and a Disconnected
connection stays Disconnected under every event. -/
theorem OnConnEvt_transition :
    (∀ (conn : Conn) (events : Nat) (r : RecvOutcome), conn.state = kConnected →
      ((OnConnEvt conn events r).state = kDisconnected ↔
        (events &&& POLLHUP ≠ 0 ∧ events &&& POLLIN = 0) ∨
        events &&& (POLLERR ||| POLLNVAL) ≠ 0 ∨
        (events &&& (POLLIN ||| POLLPRI ||| POLLRDHUP) ≠ 0 ∧
          (r.n = 0 ∨ (0 < r.n ∧
            0 < (DecodeProxyProto (memOf (conn.ibuf ++ r.buf.take r.n.toNat) r.slack)
              (conn.ibuf ++ r.buf.take r.n.toNat).length InetAddress.default
              InetAddress.default).ret))))) ∧
    (∀ (conn : Conn) (events : Nat) (r : RecvOutcome),
      (OnConnEvt conn events r).state = conn.state ∨
      (OnConnEvt conn events r).state = kDisconnected) ∧
    (∀ (c : Conn) (r : RecvOutcome), r.n < 0 → (OnReadable c r).state = c.state) ∧
    (∀ (c : Conn) (r : RecvOutcome), 0 < r.n →
      (DecodeProxyProto (memOf (c.ibuf ++ r.buf.take r.n.toNat) r.slack)
        (c.ibuf ++ r.buf.take r.n.toNat).length InetAddress.default
        InetAddress.default).ret ≤ 0 → (OnReadable c r).state = c.state) ∧
    (∀ (conn : Conn) (events : Nat) (r : RecvOutcome), conn.state = kDisconnected →
      (OnConnEvt conn events r).state = kDisconnected) := by
  refine ⟨?_, ?_, ?_, ?_, ?_⟩
  · intro conn events r hc
    rw [OnConnEvt_state]
    constructor
    · intro h
      by_contra hcon
      rw [if_neg hcon, hc] at h
      exact absurd h (by decide)
    · intro h
      rw [if_pos h]
  · intro conn events r
    rw [OnConnEvt_state]
    split
    · exact Or.inr rfl
    · exact Or.inl rfl
  · intro c r hn
    rw [OnReadable_state, if_neg]
    rintro (⟨h, _⟩ | h) <;> omega
  · intro c r hn hd
    rw [OnReadable_state, if_neg]
    rintro (⟨_, h⟩ | h) <;> omega
  · intro conn events r hc
    rw [OnConnEvt_state]
    split
    · rfl
    · exact hc

theorem OnConnEvt_transition_witness :
    freshConn.state = kConnected ∧
    (OnConnEvt freshConn POLLHUP ⟨-1, [], zeroMem⟩).state = kDisconnected ∧
    (OnConnEvt freshConn (POLLIN ||| POLLHUP) ⟨-1, [], zeroMem⟩).state = kConnected ∧
    (OnConnEvt freshConn POLLIN ⟨0, [], zeroMem⟩).state = kDisconnected ∧
    (OnConnEvt freshConn POLLIN ⟨43, v1Tcp4Line, zeroMem⟩).state = kDisconnected ∧
    (OnConnEvt freshConn POLLIN ⟨35, v1BadPortLine, zeroMem⟩).state = kConnected ∧
    ((OnConnEvt freshConn POLLHUP ⟨-1, [], zeroMem⟩).state = kDisconnected ↔
      (POLLHUP &&& POLLHUP ≠ 0 ∧ POLLHUP &&& POLLIN = 0) ∨
      POLLHUP &&& (POLLERR ||| POLLNVAL) ≠ 0 ∨
      (POLLHUP &&& (POLLIN ||| POLLPRI ||| POLLRDHUP) ≠ 0 ∧
        ((-1 : Int) = 0 ∨ (0 < (-1 : Int) ∧
          0 < (DecodeProxyProto (memOf (freshConn.ibuf ++ [].take (-1 : Int).toNat) zeroMem)
            (freshConn.ibuf ++ [].take (-1 : Int).toNat).length InetAddress.default
            InetAddress.default).ret)))) :=
  ⟨by decide, by decide, by decide, by decide, by decide, by decide,
    OnConnEvt_transition.1 freshConn POLLHUP ⟨-1, [], zeroMem⟩ (by decide)⟩

/-! ## The invariant of the connection table -/

theorem OnReadable_sockfd (c : Conn) (r : RecvOutcome) : (OnReadable c r).sockfd = c.sockfd := by
  simp only [OnReadable]
  split_ifs <;> rfl

theorem OnConnEvt_sockfd (conn : Conn) (events : Nat) (r : RecvOutcome) :
    (OnConnEvt conn events r).sockfd = conn.sockfd := by
  simp only [OnConnEvt]
  rw [(writable_step _ _ _).2.1]
  split_ifs <;> first | rfl | (rw [OnReadable_sockfd])

theorem findConn_none_iff (conns : List (Nat × Conn)) (key : Nat) :
    findConn conns key = none ↔ key ∉ conns.map Prod.fst := by
  induction conns with
  | nil => simp [findConn]
  | cons kc rest ih =>
    obtain ⟨k, c⟩ := kc
    simp only [findConn, List.map_cons, List.mem_cons, not_or]
    by_cases h : k = key
    · simp [h]
    · rw [if_neg h, ih]
      exact ⟨fun hh => ⟨fun e => h e.symm, hh⟩, fun hh => hh.2⟩

theorem findConn_mem (conns : List (Nat × Conn)) (key : Nat) (c : Conn)
    (h : findConn conns key = some c) : (key, c) ∈ conns := by
  induction conns with
  | nil => simp [findConn] at h
  | cons kc rest ih =>
    obtain ⟨k, c0⟩ := kc
    simp only [findConn] at h
    by_cases hk : k = key
    · rw [if_pos hk] at h
      rw [hk, Option.some.inj h]
      exact List.mem_cons_self _ _
    · rw [if_neg hk] at h
      exact List.mem_cons_of_mem _ (ih h)

theorem storeConn_keys (conns : List (Nat × Conn)) (key : Nat) (c : Conn) :
    (storeConn conns key c).map Prod.fst = conns.map Prod.fst := by
  induction conns with
  | nil => rfl
  | cons kc rest ih =>
    obtain ⟨k, c0⟩ := kc
    simp only [storeConn]
    split
    · rfl
    · simp only [List.map_cons, ih]

theorem storeConn_mem (conns : List (Nat × Conn)) (key : Nat) (c : Conn) (kc : Nat × Conn)
    (h : kc ∈ storeConn conns key c) : kc ∈ conns ∨ kc = (key, c) := by
  induction conns with
  | nil => simp [storeConn] at h
  | cons kc0 rest ih =>
    obtain ⟨k, c0⟩ := kc0
    simp only [storeConn] at h
    by_cases hk : k = key
    · rw [if_pos hk] at h
      rcases List.mem_cons.1 h with h1 | h1
      · right; rw [h1, hk]
      · left; exact List.mem_cons_of_mem _ h1
    · rw [if_neg hk] at h
      rcases List.mem_cons.1 h with h1 | h1
      · left; rw [h1]; exact List.mem_cons_self _ _
      · rcases ih h1 with h2 | h2
        · left; exact List.mem_cons_of_mem _ h2
        · right; exact h2

theorem eraseConn_keys (conns : List (Nat × Conn)) (key : Nat) (kc : Nat × Conn)
    (h : kc ∈ eraseConn conns key) : kc ∈ conns ∧ kc.1 ≠ key := by
  simpa [eraseConn] using h

theorem HandleEvents_inv (s : Server) (events : Nat) (userp : Option Nat)
    (a : AcceptOutcome) (r : RecvOutcome) (h : TableInv s) :
    TableInv (HandleEvents s events userp a r) := by
  obtain ⟨hmem, hkeys⟩ := h
  unfold HandleEvents
  cases userp with
  | none =>
    simp only [OnNewConn]
    by_cases h1 : events &&& (POLLIN ||| POLLPRI ||| POLLRDHUP) ≠ 0
    · rw [if_pos h1]
      by_cases h2 : a.sockfd ≠ -1
      · rw [if_pos h2]
        by_cases h3 : s.conns_.length ≥ kMaxConnNum
        · rw [if_pos h3]
          exact ⟨hmem, hkeys⟩
        · rw [if_neg h3]
          cases hf : findConn s.conns_ a.ptr with
          | some c => exact ⟨hmem, hkeys⟩
          | none =>
            refine ⟨?_, ?_⟩
            · intro kc hkc
              rcases List.mem_append.1 hkc with h4 | h4
              · exact hmem kc h4
              · rw [List.mem_singleton.1 h4]
                exact ⟨rfl, h2⟩
            · show ((s.conns_ ++ [(a.ptr, _)]).map Prod.fst).Nodup
              rw [List.map_append, List.nodup_append]
              refine ⟨hkeys, List.nodup_singleton _, ?_⟩
              intro k hk1 hk2
              rw [List.map_singleton, List.mem_singleton] at hk2
              have hk3 : k = a.ptr := hk2
              rw [hk3] at hk1
              exact (findConn_none_iff _ _).1 hf hk1
      · rw [if_neg h2]
        exact ⟨hmem, hkeys⟩
    · rw [if_neg h1]
      exact ⟨hmem, hkeys⟩
  | some p =>
    simp only
    cases hf : findConn s.conns_ p with
    | none => exact ⟨hmem, hkeys⟩
    | some conn =>
      simp only
      have hc := hmem _ (findConn_mem _ _ _ hf)
      by_cases hd : (OnConnEvt conn events r).state = kDisconnected
      · rw [if_pos hd]
        refine ⟨?_, ?_⟩
        · intro kc hkc
          exact hmem kc (eraseConn_keys _ _ _ hkc).1
        · exact List.Nodup.sublist (List.Sublist.map _ (List.filter_sublist _)) hkeys
      · rw [if_neg hd]
        refine ⟨?_, ?_⟩
        · intro kc hkc
          rcases storeConn_mem _ _ _ _ hkc with h4 | h4
          · exact hmem kc h4
          · rw [h4]
            refine ⟨?_, ?_⟩
            · have hs := OnConnEvt_state conn events r
              split at hs
              · exact absurd hs hd
              · exact hs.trans hc.1
            · show (OnConnEvt conn events r).sockfd ≠ -1
              rw [OnConnEvt_sockfd]
              exact hc.2
        · show ((storeConn s.conns_ p _).map Prod.fst).Nodup
          rw [storeConn_keys]
          exact hkeys

theorem handleAll_inv (ready : List ReadyEvent) :
    ∀ s : Server, TableInv s → TableInv (handleAll s ready) := by
  induction ready with
  | nil => intro s h; exact h
  | cons ev rest ih =>
    intro s h
    exact ih _ (HandleEvents_inv s ev.events ev.userp ev.accept ev.recv h)

/-- C24: in every state reached from the empty table by a sequence of
`HandleEvents` steps, every tabled connection is Connected with a descriptor
other than -1 and no key occurs twice; and when in such a state a tabled
connection becomes Disconnected in a step, that same step removes its key
from the table and closes its descriptor. -/
theorem connection_table_invariant :
    (∀ ready : List ReadyEvent,
      (∀ kc, kc ∈ (handleAll Server.initial ready).conns_ →
        kc.2.state = kConnected ∧ kc.2.sockfd ≠ -1) ∧
      ((handleAll Server.initial ready).conns_.map Prod.fst).Nodup) ∧
    (∀ (ready : List ReadyEvent) (events p : Nat) (a : AcceptOutcome) (r : RecvOutcome)
      (conn : Conn),
      findConn (handleAll Server.initial ready).conns_ p = some conn →
      (OnConnEvt conn events r).state = kDisconnected →
      (∀ kc, kc ∈ (HandleEvents (handleAll Server.initial ready) events (some p) a r).conns_ →
        kc.1 ≠ p) ∧
      findConn (HandleEvents (handleAll Server.initial ready) events (some p) a r).conns_ p =
        none ∧
      (HandleEvents (handleAll Server.initial ready) events (some p) a r).closed =
        conn.sockfd :: (handleAll Server.initial ready).closed) := by
  have hinit : TableInv Server.initial := by
    refine ⟨?_, ?_⟩
    · intro kc hkc
      exact absurd hkc (List.not_mem_nil _)
    · exact List.nodup_nil
  refine ⟨fun ready => handleAll_inv ready Server.initial hinit, ?_⟩
  intro ready events p a r conn hf hd
  have hinv := handleAll_inv ready Server.initial hinit
  generalize handleAll Server.initial ready = s at *
  have hc := hinv.1 _ (findConn_mem _ _ _ hf)
  have hfd : (OnConnEvt conn events r).sockfd ≠ -1 := by
    rw [OnConnEvt_sockfd]; exact hc.2
  refine ⟨?_, ?_, ?_⟩
  · intro kc hkc
    simp only [HandleEvents, hf, hd, if_true] at hkc
    exact (eraseConn_keys _ _ _ hkc).2
  · simp only [HandleEvents, hf, hd, if_true]
    exact findConn_eraseConn _ _
  · simp only [HandleEvents, hf, hd, if_true, Close, hfd, ne_eq, not_false_eq_true]
    rw [OnConnEvt_sockfd]

theorem connection_table_invariant_witness :
    (∀ kc, kc ∈ (handleAll Server.initial [acceptEvent]).conns_ →
      kc.2.state = kConnected ∧ kc.2.sockfd ≠ -1) ∧
    ((handleAll Server.initial [acceptEvent]).conns_.map Prod.fst).Nodup ∧
    (handleAll Server.initial [acceptEvent]).conns_.map Prod.fst = [5000] ∧
    findConn (handleAll Server.initial [acceptEvent]).conns_ 5000 =
      some { name := (0, 9, 200), state := kConnected, sockfd := 9, watch_events := kReadEvent,
             conn_time := 200, ibuf := [], obuf := [] } ∧
    (HandleEvents (handleAll Server.initial [acceptEvent]) POLLHUP (some 5000) noAccept
      ⟨-1, [], zeroMem⟩).conns_.length = 0 ∧
    (HandleEvents (handleAll Server.initial [acceptEvent]) POLLHUP (some 5000) noAccept
      ⟨-1, [], zeroMem⟩).closed = [9] :=
  ⟨(connection_table_invariant.1 [acceptEvent]).1,
    (connection_table_invariant.1 [acceptEvent]).2, by decide, rfl, by decide,
    (connection_table_invariant.2 [acceptEvent] POLLHUP 5000 noAccept ⟨-1, [], zeroMem⟩ _ rfl
      (by decide)).2.2⟩

/-! ## When more data is asked for -/

/-- C25 (counterexample): a buffer of 2^33 bytes, far beyond 16, that starts
with a v1 line text closed by NUL and whose first CR LF ends exactly at
offset 2^33 is accepted, and the consumed length converts to the int 0, the
NeedMoreData value. -/
theorem need_more_data_outside_short_buffers :
    ¬ (8589934590 + 2 < 16) ∧ ¬ (8589934590 + 2 < 8) ∧
    (DecodeProxyProto (longBuffer 8589934590) (8589934590 + 2)
      InetAddress.default InetAddress.default).ret = kNeedMoreData :=
  ⟨by decide, by decide,
    (congrArg Result.ret (longBuffer_eq_loop 8589934590 (by decide) _ _)).trans (by decide)⟩

/-- C25 (amended): on a buffer of fewer than 2^31 bytes the decoder returns
NeedMoreData exactly when the buffer has fewer than 16 bytes and its first
min(length, 12) bytes are the leading bytes of the v2 signature, or has fewer
than 8 bytes and its first min(length, 5) bytes are the leading bytes of
"PROXY". -/
theorem DecodeProxyProto_need_more_data_iff (data : Mem) (size : Nat)
    (src dst : InetAddress) (hsize : size < 2147483648) :
    (DecodeProxyProto data size src dst).ret = kNeedMoreData ↔
      (size < 16 ∧ ∀ i, i < min size 12 → rd data i = v2sig.getD i 0) ∨
      (size < 8 ∧ ∀ i, i < min size 5 → rd data i = sigV1.getD i 0) := by
  constructor
  · intro h0
    unfold DecodeProxyProto at h0
    split_ifs at h0 with c1 c2 c3 c4 c5 c6
    · exfalso
      revert h0
      refine DecodeV2_cases (fun r => r.ret = kNeedMoreData → False) data size src dst ?_ ?_
      · intro r hr _ _ h
        rcases hr with h1 | h1 | h1 <;> rw [h1] at h <;> exact absurd h (by decide)
      · intro r hle hr h
        rw [hr, toInt32_of_lt _ (by omega)] at h
        unfold kNeedMoreData at h
        omega
    · exfalso
      revert h0
      refine DecodeV1_cases (fun r => r.ret = kNeedMoreData → False) data size src dst ?_ ?_
      · intro r hr _ _ h
        rcases hr with h1 | h1 | h1 | h1 <;> rw [h1] at h <;> exact absurd h (by decide)
      · intro r e he _ hr h
        obtain ⟨hlt, _, _⟩ := memchr_some data 13 (size - 1) e he
        rw [hr, toInt32_of_lt _ (by omega)] at h
        unfold kNeedMoreData at h
        omega
    · exact absurd h0 (by decide : ¬ kWrongProtocol = kNeedMoreData)
    · left
      refine ⟨by omega, ?_⟩
      rw [memcmpEq_iff, Nat.min_comm] at c4
      exact c4
    · exact absurd h0 (by decide : ¬ kWrongProtocol = kNeedMoreData)
    · right
      refine ⟨by omega, ?_⟩
      rw [memcmpEq_iff, Nat.min_comm] at c6
      exact c6
    · exact absurd h0 (by decide : ¬ kWrongProtocol = kNeedMoreData)
  · intro h
    rcases h with ⟨hs, hp⟩ | ⟨hs, hp⟩
    · have h16 : ¬ size ≥ 16 := by omega
      have hv2 : memcmpEq data v2sig (min 12 size) = true := by
        rw [memcmpEq_iff, Nat.min_comm]; exact hp
      have hv1 : ¬ (size ≥ 8 ∧ memcmpEq data sigV1 5 = true) := by
        rintro ⟨h8, hm⟩
        rw [memcmpEq_iff] at hm
        have a := hm 0 (by omega)
        have b := hp 0 (by omega)
        rw [a] at b
        revert b
        decide
      simp only [DecodeProxyProto, h16, hv1, hv2, false_and, if_false, if_true]
    · have h16 : ¬ size ≥ 16 := by omega
      have h8 : ¬ size ≥ 8 := by omega
      have hv1 : memcmpEq data sigV1 (min 5 size) = true := by
        rw [memcmpEq_iff, Nat.min_comm]; exact hp
      simp only [DecodeProxyProto, h16, h8, hv1, false_and, if_false, if_true]
      split <;> rfl

theorem DecodeProxyProto_need_more_data_iff_witness :
    (0 : Nat) < 2147483648 ∧ (14 : Nat) < 2147483648 ∧ (8 : Nat) < 2147483648 ∧
    (DecodeProxyProto zeroMem 0 InetAddress.default InetAddress.default).ret =
      kNeedMoreData ∧
    (DecodeProxyProto (memOf (v2sig ++ [0, 0]) zeroMem) 14 InetAddress.default
      InetAddress.default).ret = kNeedMoreData ∧
    (DecodeProxyProto (memOf proxyTcExample zeroMem) 8 InetAddress.default
      InetAddress.default).ret ≠ kNeedMoreData :=
  ⟨by decide, by decide, by decide,
    (DecodeProxyProto_need_more_data_iff zeroMem 0 InetAddress.default InetAddress.default
      (by decide)).2 (Or.inl ⟨by decide, by decide⟩),
    (DecodeProxyProto_need_more_data_iff (memOf (v2sig ++ [0, 0]) zeroMem) 14
      InetAddress.default InetAddress.default (by decide)).2 (Or.inl ⟨by decide, by decide⟩),
    fun h => by
      have := (DecodeProxyProto_need_more_data_iff (memOf proxyTcExample zeroMem) 8
        InetAddress.default InetAddress.default (by decide)).1 h
      revert this
      decide⟩

/-! ## Loading the configuration -/

theorem optValue_cons_same (opt : Int) (a : List Nat) (rest : List (Int × List Nat))
    (d : Int) : optValue opt ((opt, a) :: rest) d = optValue opt rest (atoi a) := by
  simp only [optValue, lastArg]
  cases lastArg opt rest with
  | none => simp
  | some s => rfl

theorem optValue_cons_ne (opt o : Int) (a : List Nat) (rest : List (Int × List Nat))
    (d : Int) (h : o ≠ opt) : optValue opt ((o, a) :: rest) d = optValue opt rest d := by
  simp only [optValue, lastArg]
  cases lastArg opt rest with
  | none => simp [h]
  | some s => rfl

/-- The loop of `LoadConf` over results none of which is -1: it reaches its
end exactly when every result is one of the two options, and then each field
holds the number of its last option and the mask is cleared exactly when the
listen-port option occurred. -/
theorem LoadConf_loop_spec :
    ∀ (opts : List (Int × List Nat)) (mask : Nat) (conf : Conf),
      (∀ o, o ∈ opts → o.1 ≠ -1) → (mask = 0 ∨ mask = 1) →
      ((∀ o, o ∈ opts → o.1 = OPTIND_LISTEN_PORT ∨ o.1 = OPTIND_LOG_LEVEL) →
        LoadConf_loop opts mask conf =
          (some (if ∃ o, o ∈ opts ∧ o.1 = OPTIND_LISTEN_PORT then 0 else mask),
            ⟨optValue OPTIND_LISTEN_PORT opts conf.listen_port,
              optValue OPTIND_LOG_LEVEL opts conf.log_level⟩)) ∧
      (¬ (∀ o, o ∈ opts → o.1 = OPTIND_LISTEN_PORT ∨ o.1 = OPTIND_LOG_LEVEL) →
        (LoadConf_loop opts mask conf).1 = none) := by
  intro opts
  induction opts with
  | nil =>
    intro mask conf _ _
    refine ⟨fun _ => ?_, fun h => absurd (fun o ho => absurd ho (List.not_mem_nil _)) h⟩
    simp [LoadConf_loop, optValue, lastArg]
  | cons oa rest ih =>
    obtain ⟨o, a⟩ := oa
    intro mask conf hne hmask
    have hne0 : o ≠ -1 := hne (o, a) (List.mem_cons_self _ _)
    have hrest : ∀ x, x ∈ rest → x.1 ≠ -1 := fun x hx => hne x (List.mem_cons_of_mem _ hx)
    simp only [LoadConf_loop, hne0, if_false]
    by_cases h1 : o = OPTIND_LISTEN_PORT
    · subst h1
      rw [if_pos rfl]
      have hm : mask &&& (4294967295 - 0x1) = 0 := by
        rcases hmask with h | h <;> rw [h] <;> decide
      obtain ⟨i1, i2⟩ := ih (mask &&& (4294967295 - 0x1))
        { conf with listen_port := atoi a } hrest (Or.inl hm)
      constructor
      · intro hall
        rw [i1 (fun x hx => hall x (List.mem_cons_of_mem _ hx)), hm,
          optValue_cons_same, optValue_cons_ne _ _ _ _ _ (by decide)]
        have : ∃ x, x ∈ (OPTIND_LISTEN_PORT, a) :: rest ∧ x.1 = OPTIND_LISTEN_PORT :=
          ⟨_, List.mem_cons_self _ _, rfl⟩
        rw [if_pos this]
        simp
      · intro hnall
        apply i2
        intro hall
        apply hnall
        intro x hx
        rcases List.mem_cons.1 hx with h | h
        · rw [h]; exact Or.inl rfl
        · exact hall x h
    · rw [if_neg h1]
      by_cases h2 : o = OPTIND_LOG_LEVEL
      · subst h2
        rw [if_pos rfl]
        have hm : mask &&& (4294967295 - 0x2) = mask := by
          rcases hmask with h | h <;> rw [h] <;> decide
        obtain ⟨i1, i2⟩ := ih (mask &&& (4294967295 - 0x2))
          { conf with log_level := atoi a } hrest (by rw [hm]; exact hmask)
        constructor
        · intro hall
          rw [i1 (fun x hx => hall x (List.mem_cons_of_mem _ hx)), hm,
            optValue_cons_same, optValue_cons_ne _ _ _ _ _ (by decide)]
          have hiff : (∃ x, x ∈ (OPTIND_LOG_LEVEL, a) :: rest ∧ x.1 = OPTIND_LISTEN_PORT) ↔
              ∃ x, x ∈ rest ∧ x.1 = OPTIND_LISTEN_PORT := by
            constructor
            · rintro ⟨x, hx, hx1⟩
              rcases List.mem_cons.1 hx with h | h
              · rw [h] at hx1
                exact absurd hx1 (by decide : ¬ OPTIND_LOG_LEVEL = OPTIND_LISTEN_PORT)
              · exact ⟨x, h, hx1⟩
            · rintro ⟨x, hx, hx1⟩
              exact ⟨x, List.mem_cons_of_mem _ hx, hx1⟩
          simp only [hiff]
        · intro hnall
          apply i2
          intro hall
          apply hnall
          intro x hx
          rcases List.mem_cons.1 hx with h | h
          · rw [h]; exact Or.inr rfl
          · exact hall x h
      · rw [if_neg h2]
        constructor
        · intro hall
          rcases hall (o, a) (List.mem_cons_self _ _) with h | h
          · exact absurd h h1
          · exact absurd h h2
        · intro _
          rfl

/-- C22 (counterexample): with the listen-port argument "80abc", which is
not a decimal number, `LoadConf` returns 0 on the record that `main` passes
and stores the port 80. -/
theorem LoadConf_accepts_invalid_port :
    ¬ (∀ c, c ∈ ascii "80abc" → isdigit c = true) ∧
    LoadConf [(OPTIND_LISTEN_PORT, ascii "80abc")] (mainConf true) =
      (0, { listen_port := 80, log_level := 1 }) ∧
    LoadConf [(OPTIND_LISTEN_PORT, ascii "80abc")] (mainConf false) =
      (0, { listen_port := 80, log_level := 0 }) := by
  refine ⟨by decide, by decide, by decide⟩

/-- The return value 0 of `LoadConf`, over results of `getopt_long` none of
which is the final -1. -/
theorem LoadConf_ret_zero (opts : List (Int × List Nat)) (conf : Conf)
    (hopts : ∀ o, o ∈ opts → o.1 ≠ -1) :
    ((LoadConf opts conf).1 = 0 ↔
      (∀ o, o ∈ opts → o.1 = OPTIND_LISTEN_PORT ∨ o.1 = OPTIND_LOG_LEVEL) ∧
      (∃ o, o ∈ opts ∧ o.1 = OPTIND_LISTEN_PORT) ∧
      0 < optValue OPTIND_LISTEN_PORT opts conf.listen_port ∧
      0 ≤ optValue OPTIND_LOG_LEVEL opts conf.log_level ∧
      optValue OPTIND_LOG_LEVEL opts conf.log_level ≤ 3) ∧
    ((LoadConf opts conf).1 = 0 →
      (LoadConf opts conf).2 = ⟨optValue OPTIND_LISTEN_PORT opts conf.listen_port,
        optValue OPTIND_LOG_LEVEL opts conf.log_level⟩) := by
  obtain ⟨i1, i2⟩ := LoadConf_loop_spec opts 0x1 conf hopts (Or.inr rfl)
  by_cases hall : ∀ o, o ∈ opts → o.1 = OPTIND_LISTEN_PORT ∨ o.1 = OPTIND_LOG_LEVEL
  · have hloop := i1 hall
    by_cases hp : optValue OPTIND_LISTEN_PORT opts conf.listen_port ≤ 0
    · have hr : (LoadConf opts conf).1 = -3 := by
        simp only [LoadConf, hloop, hp, if_true]
      refine ⟨⟨fun h => ?_, fun h => ?_⟩, fun h => ?_⟩
      · rw [hr] at h; exact absurd h (by decide)
      · omega
      · rw [hr] at h; exact absurd h (by decide)
    · by_cases hl : optValue OPTIND_LOG_LEVEL opts conf.log_level < 0 ∨
          optValue OPTIND_LOG_LEVEL opts conf.log_level > 3
      · have hr : (LoadConf opts conf).1 = -4 := by
          simp only [LoadConf, hloop, hp, hl, if_true, if_false]
        refine ⟨⟨fun h => ?_, fun h => ?_⟩, fun h => ?_⟩
        · rw [hr] at h; exact absurd h (by decide)
        · omega
        · rw [hr] at h; exact absurd h (by decide)
      · by_cases he : ∃ o, o ∈ opts ∧ o.1 = OPTIND_LISTEN_PORT
        · have hr : LoadConf opts conf = (0, ⟨optValue OPTIND_LISTEN_PORT opts conf.listen_port,
              optValue OPTIND_LOG_LEVEL opts conf.log_level⟩) := by
            simp only [LoadConf, hloop, hp, hl, he, if_true, if_false]
          refine ⟨⟨fun _ => ⟨hall, he, by omega, by omega, by omega⟩, fun _ => ?_⟩,
            fun _ => ?_⟩
          · rw [hr]
          · rw [hr]
        · have hr : (LoadConf opts conf).1 = -5 := by
            simp only [LoadConf, hloop, hp, hl, he, if_false]
            decide
          refine ⟨⟨fun h => ?_, fun h => ?_⟩, fun h => ?_⟩
          · rw [hr] at h; exact absurd h (by decide)
          · exact absurd h.2.1 he
          · rw [hr] at h; exact absurd h (by decide)
  · have hloop := i2 hall
    have hr : (LoadConf opts conf).1 = -2 := by
      unfold LoadConf
      generalize LoadConf_loop opts 0x1 conf = res at *
      obtain ⟨m, c⟩ := res
      simp only at hloop
      rw [hloop]
    refine ⟨⟨fun h => ?_, fun h => ?_⟩, fun h => ?_⟩
    · rw [hr] at h; exact absurd h (by decide)
    · exact absurd h.1 hall
    · rw [hr] at h; exact absurd h (by decide)

/-- C22 (amended): over results of `getopt_long` none of which is the final
-1, `LoadConf` returns non-zero whenever a result is not one of the two
options, the listen-port option does not occur, the number that `atoi` reads
from its last argument is not positive, or the log level (the number `atoi`
reads from the last log-level argument, or the preset level) lies outside
0..3; and it returns 0, storing the two numbers, whenever only the two
options occur, the listen-port option occurs with a number in 1..65535 and
the log level lies in 0..3. -/
theorem LoadConf_outcome (opts : List (Int × List Nat)) (conf : Conf)
    (hopts : ∀ o, o ∈ opts → o.1 ≠ -1) :
    ((¬ (∀ o, o ∈ opts → o.1 = OPTIND_LISTEN_PORT ∨ o.1 = OPTIND_LOG_LEVEL) ∨
        ¬ (∃ o, o ∈ opts ∧ o.1 = OPTIND_LISTEN_PORT) ∨
        optValue OPTIND_LISTEN_PORT opts conf.listen_port ≤ 0 ∨
        optValue OPTIND_LOG_LEVEL opts conf.log_level < 0 ∨
        3 < optValue OPTIND_LOG_LEVEL opts conf.log_level) →
      (LoadConf opts conf).1 ≠ 0) ∧
    ((∀ o, o ∈ opts → o.1 = OPTIND_LISTEN_PORT ∨ o.1 = OPTIND_LOG_LEVEL) →
      (∃ o, o ∈ opts ∧ o.1 = OPTIND_LISTEN_PORT) →
      0 < optValue OPTIND_LISTEN_PORT opts conf.listen_port →
      optValue OPTIND_LISTEN_PORT opts conf.listen_port ≤ 65535 →
      0 ≤ optValue OPTIND_LOG_LEVEL opts conf.log_level →
      optValue OPTIND_LOG_LEVEL opts conf.log_level ≤ 3 →
      LoadConf opts conf = (0, ⟨optValue OPTIND_LISTEN_PORT opts conf.listen_port,
        optValue OPTIND_LOG_LEVEL opts conf.log_level⟩)) := by
  obtain ⟨hiff, hconf⟩ := LoadConf_ret_zero opts conf hopts
  constructor
  · intro hbad h0
    obtain ⟨h1, h2, h3, h4, h5⟩ := hiff.1 h0
    rcases hbad with h | h | h | h | h
    · exact h h1
    · exact h h2
    · omega
    · omega
    · omega
  · intro h1 h2 h3 _ h4 h5
    have h0 := hiff.2 ⟨h1, h2, h3, h4, h5⟩
    exact Prod.ext h0 (hconf h0)

theorem LoadConf_outcome_witness :
    (∀ o, o ∈ [(OPTIND_LOG_LEVEL, ascii "2"), (OPTIND_LISTEN_PORT, ascii "8080")] →
      o.1 ≠ -1) ∧
    optValue OPTIND_LISTEN_PORT
      [(OPTIND_LOG_LEVEL, ascii "2"), (OPTIND_LISTEN_PORT, ascii "8080")]
      (mainConf false).listen_port = 8080 ∧
    optValue OPTIND_LOG_LEVEL
      [(OPTIND_LOG_LEVEL, ascii "2"), (OPTIND_LISTEN_PORT, ascii "8080")]
      (mainConf false).log_level = 2 ∧
    LoadConf [(OPTIND_LOG_LEVEL, ascii "2"), (OPTIND_LISTEN_PORT, ascii "8080")]
      (mainConf false) =
      (0, ⟨optValue OPTIND_LISTEN_PORT
          [(OPTIND_LOG_LEVEL, ascii "2"), (OPTIND_LISTEN_PORT, ascii "8080")]
          (mainConf false).listen_port,
        optValue OPTIND_LOG_LEVEL
          [(OPTIND_LOG_LEVEL, ascii "2"), (OPTIND_LISTEN_PORT, ascii "8080")]
          (mainConf false).log_level⟩) ∧
    (∀ o, o ∈ [(OPTIND_LOG_LEVEL, ascii "2")] → o.1 ≠ -1) ∧
    (LoadConf [(OPTIND_LOG_LEVEL, ascii "2")] (mainConf true)).1 ≠ 0 ∧
    (LoadConf [] (mainConf true)).1 = -3 ∧
    (LoadConf [(OPTIND_LISTEN_PORT, ascii "0")] (mainConf true)).1 = -3 ∧
    (LoadConf [(OPTIND_LISTEN_PORT, ascii "80"), (OPTIND_LOG_LEVEL, ascii "4")]
      (mainConf true)).1 = -4 ∧
    (LoadConf [(63, [])] (mainConf true)).1 = -2 :=
  ⟨by decide, by decide, by decide,
    (LoadConf_outcome [(OPTIND_LOG_LEVEL, ascii "2"), (OPTIND_LISTEN_PORT, ascii "8080")]
      (mainConf false) (by decide)).2 (by decide) (by decide) (by decide) (by decide)
      (by decide) (by decide),
    by decide,
    (LoadConf_outcome [(OPTIND_LOG_LEVEL, ascii "2")] (mainConf true) (by decide)).1
      (Or.inr (Or.inl (by decide))),
    by decide, by decide, by decide, by decide⟩

/-! ## Bytes appended to an accepted header -/

/-- C26 (failing input): the 16-byte v2 TCPv4 header that declares L = 0 is
accepted with return value 16, and so is the same header followed by twelve
more bytes; but the endpoints differ, because they are taken from the cells
at offsets 16..27, which lie behind the first buffer and inside the second. -/
theorem appended_bytes_change_endpoints :
    v2ShortExample.length = 16 ∧
    (DecodeProxyProto (memOf v2ShortExample zeroMem) 16 InetAddress.default
      InetAddress.default).ret = 16 ∧
    (DecodeProxyProto (memOf (v2ShortExample ++ [1, 2, 3, 4, 5, 6, 7, 8, 0, 80, 0, 90]) zeroMem)
      28 InetAddress.default InetAddress.default).ret = 16 ∧
    (DecodeProxyProto (memOf v2ShortExample zeroMem) 16 InetAddress.default
      InetAddress.default).src = ⟨AF_INET, [0, 0], [0, 0, 0, 0]⟩ ∧
    (DecodeProxyProto (memOf (v2ShortExample ++ [1, 2, 3, 4, 5, 6, 7, 8, 0, 80, 0, 90]) zeroMem)
      28 InetAddress.default InetAddress.default).src = ⟨AF_INET, [0, 80], [1, 2, 3, 4]⟩ ∧
    (DecodeProxyProto (memOf v2ShortExample zeroMem) 16 InetAddress.default
      InetAddress.default).dst = ⟨AF_INET, [0, 0], [0, 0, 0, 0]⟩ ∧
    (DecodeProxyProto (memOf (v2ShortExample ++ [1, 2, 3, 4, 5, 6, 7, 8, 0, 80, 0, 90]) zeroMem)
      28 InetAddress.default InetAddress.default).dst = ⟨AF_INET, [0, 90], [5, 6, 7, 8]⟩ := by
  decide

theorem strspn_congr (d d2 : Mem) (accept : List Nat) :
    ∀ (fuel s z : Nat), (∀ j, j ≤ z → rd d j = rd d2 j) → rd d z = 0 → s ≤ z →
      z - s < fuel → strspn d accept s fuel = strspn d2 accept s fuel := by
  intro fuel
  induction fuel with
  | zero => intro s z _ _ _ h; omega
  | succ fuel ih =>
    intro s z hag hz hs hf
    unfold strspn
    rw [← hag s hs]
    by_cases hc : rd d s ≠ 0 ∧ rd d s ∈ accept
    · have hne : s ≠ z := fun h => hc.1 (h ▸ hz)
      rw [if_pos hc, if_pos hc, ih (s + 1) z hag hz (by omega) (by omega)]
    · rw [if_neg hc, if_neg hc]

theorem strcspn_congr (d d2 : Mem) (reject : List Nat) :
    ∀ (fuel s z : Nat), (∀ j, j ≤ z → rd d j = rd d2 j) → rd d z = 0 → s ≤ z →
      z - s < fuel → strcspn d reject s fuel = strcspn d2 reject s fuel := by
  intro fuel
  induction fuel with
  | zero => intro s z _ _ _ h; omega
  | succ fuel ih =>
    intro s z hag hz hs hf
    unfold strcspn
    rw [← hag s hs]
    by_cases hc : rd d s ≠ 0 ∧ rd d s ∉ reject
    · have hne : s ≠ z := fun h => hc.1 (h ▸ hz)
      rw [if_pos hc, if_pos hc, ih (s + 1) z hag hz (by omega) (by omega)]
    · rw [if_neg hc, if_neg hc]

theorem bytes_congr (d d2 : Mem) (a b z : Nat) (hag : ∀ j, j ≤ z → rd d j = rd d2 j)
    (hb : b ≤ z + 1) : bytes d a b = bytes d2 a b := by
  unfold bytes
  apply List.map_congr_left
  intro k hk
  rw [List.mem_range] at hk
  exact hag _ (by omega)

/-- One `strtok_r` call on two memories that agree up to a NUL at offset
`z`: the same token and resume point, and the memories still agree up to
`z` afterwards. -/
theorem strtok_r_congr (d d2 : Mem) (delim : List Nat) (s z fuel : Nat)
    (hag : ∀ j, j ≤ z → rd d j = rd d2 j) (hz : rd d z = 0) (hs : s ≤ z) (hf : z < fuel) :
    (strtok_r d2 s delim fuel).token = (strtok_r d s delim fuel).token ∧
    (strtok_r d2 s delim fuel).save_ptr = (strtok_r d s delim fuel).save_ptr ∧
    (∀ j, j ≤ z → rd (strtok_r d s delim fuel).data j = rd (strtok_r d2 s delim fuel).data j) ∧
    rd (strtok_r d s delim fuel).data z = 0 ∧
    (strtok_r d s delim fuel).save_ptr ≤ z ∧
    (∀ p, (strtok_r d s delim fuel).token = some p → p.2 ≤ z) := by
  obtain ⟨_, a2⟩ := strspn_fuel d delim fuel fuel s z hz hs (by omega) (by omega)
  obtain ⟨_, b2⟩ := strcspn_fuel d delim fuel fuel (s + strspn d delim s fuel) z hz a2
    (by omega) (by omega)
  have e1 := strspn_congr d d2 delim fuel s z hag hz hs (by omega)
  have e2 := strcspn_congr d d2 delim fuel (s + strspn d delim s fuel) z hag hz a2 (by omega)
  simp only [strtok_r, ← e1, ← e2, ← hag s hs, ← hag _ a2, ← hag _ b2]
  generalize strspn d delim s fuel = k1 at *
  generalize strcspn d delim (s + k1) fuel = k2 at *
  by_cases c1 : rd d s = 0
  · simp only [c1, if_true]
    exact ⟨trivial, trivial, hag, hz, hs, fun p hp => by simp at hp⟩
  · simp only [c1, if_false]
    by_cases c2 : rd d (s + k1) = 0
    · simp only [c2, if_true]
      exact ⟨trivial, trivial, hag, hz, a2, fun p hp => by simp at hp⟩
    · simp only [c2, if_false]
      by_cases c3 : rd d (s + k1 + k2) = 0
      · simp only [c3, if_true]
        refine ⟨trivial, trivial, hag, hz, b2, fun p hp => ?_⟩
        rw [← Option.some.inj hp]
        exact b2
      · simp only [c3, if_false]
        have hne : s + k1 + k2 ≠ z := fun h => c3 (h ▸ hz)
        refine ⟨trivial, trivial, fun j hj => ?_, ?_, by omega, fun p hp => ?_⟩
        · by_cases hj2 : j = s + k1 + k2
          · rw [hj2, rd_wr_same, rd_wr_same]
          · rw [rd_wr_of_ne _ _ _ _ hj2, rd_wr_of_ne _ _ _ _ hj2]
            exact hag j hj
        · rw [rd_wr_of_ne _ _ _ _ (Ne.symm hne)]
          exact hz
        · rw [← Option.some.inj hp]
          exact b2

/-- The token loop on two memories that agree up to a NUL at offset `e`
gives the same return value and endpoints, whatever the scan bounds above
`e` are. -/
theorem DecodeV1_loop_congr (d d2 : Mem) (size size2 e : Nat) (src dst : InetAddress)
    (hag : ∀ j, j ≤ e → rd d j = rd d2 j) (hz : rd d e = 0) (he : e < size)
    (he2 : e < size2) :
    (DecodeV1_loop d2 size2 e src dst).ret = (DecodeV1_loop d size e src dst).ret ∧
    (DecodeV1_loop d2 size2 e src dst).src = (DecodeV1_loop d size e src dst).src ∧
    (DecodeV1_loop d2 size2 e src dst).dst = (DecodeV1_loop d size e src dst).dst := by
  have hz2 : rd d2 e = 0 := by rw [← hag e (le_refl _)]; exact hz
  rw [DecodeV1_loop_fuel d2 e size2 size src dst hz2 he2 he]
  simp only [DecodeV1_loop]
  obtain ⟨k1, s1, a1, z1, l1, b1⟩ := strtok_r_congr d d2 [32] 0 e size hag hz (Nat.zero_le _) he
  generalize strtok_r d 0 [32] size = T1 at *
  generalize strtok_r d2 0 [32] size = U1 at *
  rw [k1]
  rcases h1 : T1.token with _ | p1
  · exact ⟨rfl, rfl, rfl⟩
  dsimp only
  rw [s1]
  obtain ⟨k2, s2, a2, z2, l2, b2⟩ := strtok_r_congr T1.data U1.data [32] T1.save_ptr e size a1 z1 l1 he
  generalize strtok_r T1.data T1.save_ptr [32] size = T2 at *
  generalize strtok_r U1.data T1.save_ptr [32] size = U2 at *
  rw [k2]
  rcases h2 : T2.token with _ | p2
  · exact ⟨rfl, rfl, rfl⟩
  dsimp only
  rw [s2]
  rw [← bytes_congr T2.data U2.data p2.1 p2.2 e a2 (by have := b2 p2 h2; omega)]
  generalize bytes T2.data p2.1 p2.2 = tag
  by_cases ht : tag ≠ strTCP4 ∧ tag ≠ strTCP6
  · rw [if_pos ht, if_pos ht]
    exact ⟨rfl, rfl, rfl⟩
  rw [if_neg ht, if_neg ht]
  generalize (if tag = strTCP4 then AF_INET else AF_INET6) = af
  obtain ⟨k3, s3, a3, z3, l3, b3⟩ := strtok_r_congr T2.data U2.data [32] T2.save_ptr e size a2 z2 l2 he
  generalize strtok_r T2.data T2.save_ptr [32] size = T3 at *
  generalize strtok_r U2.data T2.save_ptr [32] size = U3 at *
  rw [k3]
  rcases h3 : T3.token with _ | p3
  · exact ⟨rfl, rfl, rfl⟩
  dsimp only
  rw [s3]
  rw [← bytes_congr T3.data U3.data p3.1 p3.2 e a3 (by have := b3 p3 h3; omega)]
  rcases inet_pton af (bytes T3.data p3.1 p3.2) with _ | src_ip
  · exact ⟨rfl, rfl, rfl⟩
  dsimp only
  obtain ⟨k4, s4, a4, z4, l4, b4⟩ := strtok_r_congr T3.data U3.data [32] T3.save_ptr e size a3 z3 l3 he
  generalize strtok_r T3.data T3.save_ptr [32] size = T4 at *
  generalize strtok_r U3.data T3.save_ptr [32] size = U4 at *
  rw [k4]
  rcases h4 : T4.token with _ | p4
  · exact ⟨rfl, rfl, rfl⟩
  dsimp only
  rw [s4]
  rw [← bytes_congr T4.data U4.data p4.1 p4.2 e a4 (by have := b4 p4 h4; omega)]
  rcases inet_pton af (bytes T4.data p4.1 p4.2) with _ | dst_ip
  · exact ⟨rfl, rfl, rfl⟩
  dsimp only
  obtain ⟨k5, s5, a5, z5, l5, b5⟩ := strtok_r_congr T4.data U4.data [32] T4.save_ptr e size a4 z4 l4 he
  generalize strtok_r T4.data T4.save_ptr [32] size = T5 at *
  generalize strtok_r U4.data T4.save_ptr [32] size = U5 at *
  rw [k5]
  rcases h5 : T5.token with _ | p5
  · exact ⟨rfl, rfl, rfl⟩
  dsimp only
  rw [s5]
  rw [← bytes_congr T5.data U5.data p5.1 p5.2 e a5 (by have := b5 p5 h5; omega)]
  rcases parsePort (bytes T5.data p5.1 p5.2) with _ | src_port
  · exact ⟨rfl, rfl, rfl⟩
  dsimp only
  obtain ⟨k6, s6, a6, z6, l6, b6⟩ := strtok_r_congr T5.data U5.data [32] T5.save_ptr e size a5 z5 l5 he
  generalize strtok_r T5.data T5.save_ptr [32] size = T6 at *
  generalize strtok_r U5.data T5.save_ptr [32] size = U6 at *
  rw [k6]
  rcases h6 : T6.token with _ | p6
  · exact ⟨rfl, rfl, rfl⟩
  dsimp only
  rw [← bytes_congr T6.data U6.data p6.1 p6.2 e a6 (by have := b6 p6 h6; omega)]
  rcases parsePort (bytes T6.data p6.1 p6.2) with _ | dst_port
  · exact ⟨rfl, rfl, rfl⟩
  dsimp only
  split <;> exact ⟨rfl, rfl, rfl⟩

theorem rd_memOf_append (b t : List Nat) (slack slack2 : Mem) (j : Nat) (hj : j < b.length) :
    rd (memOf (b ++ t) slack2) j = rd (memOf b slack) j := by
  have h2 : j < (b ++ t).length := by rw [List.length_append]; omega
  simp only [rd, memOf, hj, h2, if_true, List.getD_append _ _ _ _ hj]

/-- Appended bytes leave an accepted header as it is, provided the address
block of a binary header lies inside the buffer: when the decoder returns a
positive count on the bytes `b` (whatever memory follows them), and `b` holds
at least 28 bytes for a v2 TCPv4 header and 52 for a v2 TCPv6 header, then on
`b` followed by any bytes `t` it returns the same count and the same
endpoints.  For a text header nothing is assumed. -/
theorem DecodeProxyProto_append_stable (b t : List Nat) (slack slack2 : Mem)
    (src dst : InetAddress)
    (hpos : 0 < (DecodeProxyProto (memOf b slack) b.length src dst).ret)
    (hblock : (∀ i, i < 12 → rd (memOf b slack) i = v2sig.getD i 0) →
      (rd (memOf b slack) 13 = 0x11 → 28 ≤ b.length) ∧
      (rd (memOf b slack) 13 = 0x21 → 52 ≤ b.length)) :
    (DecodeProxyProto (memOf (b ++ t) slack2) (b ++ t).length src dst).ret =
      (DecodeProxyProto (memOf b slack) b.length src dst).ret ∧
    (DecodeProxyProto (memOf (b ++ t) slack2) (b ++ t).length src dst).src =
      (DecodeProxyProto (memOf b slack) b.length src dst).src ∧
    (DecodeProxyProto (memOf (b ++ t) slack2) (b ++ t).length src dst).dst =
      (DecodeProxyProto (memOf b slack) b.length src dst).dst := by
  have hag : ∀ j, j < b.length → rd (memOf (b ++ t) slack2) j = rd (memOf b slack) j :=
    fun j hj => rd_memOf_append b t slack slack2 j hj
  have hlen : (b ++ t).length = b.length + t.length := List.length_append _ _
  rw [hlen]
  generalize memOf (b ++ t) slack2 = D2 at *
  generalize memOf b slack = D at *
  have h8 := eight_bytes_of_positive D b.length src dst hpos
  by_cases c1 : b.length ≥ 16 ∧ memcmpEq D v2sig 12 = true ∧ rd D 12 &&& 0xF0 = 0x20
  · obtain ⟨c16, csig, cnib⟩ := c1
    have hsig := (memcmpEq_iff _ _ _).1 csig
    have c1' : b.length + t.length ≥ 16 ∧ memcmpEq D2 v2sig 12 = true ∧
        rd D2 12 &&& 0xF0 = 0x20 := by
      refine ⟨by omega, (memcmpEq_iff _ _ _).2 (fun i hi => ?_), ?_⟩
      · rw [hag i (by omega)]; exact hsig i hi
      · rw [hag 12 (by omega)]; exact cnib
    have e1 : DecodeProxyProto D b.length src dst = DecodeV2 D b.length src dst := by
      unfold DecodeProxyProto
      rw [if_pos ⟨c16, csig, cnib⟩]
    have e2 : DecodeProxyProto D2 (b.length + t.length) src dst =
        DecodeV2 D2 (b.length + t.length) src dst := by
      unfold DecodeProxyProto
      rw [if_pos c1']
    rw [e1] at hpos
    rw [e1, e2]
    obtain ⟨hb4, hb6⟩ := hblock hsig
    simp only [DecodeV2] at hpos ⊢
    rw [hag 12 (by omega), hag 13 (by omega), hag 14 (by omega), hag 15 (by omega)]
    by_cases hn : b.length < 16 + ntohs (rd D 14) (rd D 15)
    · rw [if_pos hn] at hpos
      exact absurd hpos (by decide : ¬ (0 : Int) < kWrongDataSize)
    · have hn2 : ¬ b.length + t.length < 16 + ntohs (rd D 14) (rd D 15) := by omega
      rw [if_neg hn] at hpos
      rw [if_neg hn, if_neg hn2]
      by_cases hc : rd D 12 &&& 0xF = 0x01
      · rw [if_pos hc] at hpos ⊢
        rw [if_pos hc]
        by_cases h4 : rd D 13 = 0x11
        · have h28 := hb4 h4
          have hbytes : ∀ x y, y ≤ 28 → bytes D2 x y = bytes D x y := by
            intro x y hy
            unfold bytes
            apply List.map_congr_left
            intro k hk
            rw [List.mem_range] at hk
            exact hag _ (by omega)
          rw [if_pos h4, if_pos h4, hbytes _ _ (by decide), hbytes _ _ (by decide),
            hbytes _ _ (by decide), hbytes _ _ (by decide)]
          exact ⟨rfl, rfl, rfl⟩
        · rw [if_neg h4] at hpos ⊢
          rw [if_neg h4]
          by_cases h6 : rd D 13 = 0x21
          · have h52 := hb6 h6
            have hbytes : ∀ x y, y ≤ 52 → bytes D2 x y = bytes D x y := by
              intro x y hy
              unfold bytes
              apply List.map_congr_left
              intro k hk
              rw [List.mem_range] at hk
              exact hag _ (by omega)
            rw [if_pos h6, if_pos h6, hbytes _ _ (by decide), hbytes _ _ (by decide),
              hbytes _ _ (by decide), hbytes _ _ (by decide)]
            exact ⟨rfl, rfl, rfl⟩
          · rw [if_neg h6] at hpos
            exact absurd hpos (by decide : ¬ (0 : Int) < kUnknownFamily)
      · rw [if_neg hc] at hpos
        exact absurd hpos (by decide : ¬ (0 : Int) < kUnknownCommand)
  · by_cases c2 : b.length ≥ 8 ∧ memcmpEq D sigV1 5 = true
    · have hp := (memcmpEq_iff _ _ _).1 c2.2
      have hp2 : ∀ i, i < 5 → rd D2 i = sigV1.getD i 0 := fun i hi => by
        rw [hag i (by omega)]; exact hp i hi
      rw [DecodeProxyProto_eq_v1 D b.length src dst h8 hp] at hpos ⊢
      rw [DecodeProxyProto_eq_v1 D2 (b.length + t.length) src dst (by omega) hp2]
      simp only [DecodeV1] at hpos ⊢
      rcases hm : memchr D 13 (b.length - 1) with _ | e
      · rw [hm] at hpos
        exact absurd hpos (by decide : ¬ (0 : Int) < kWrongProtocol)
      · rw [hm] at hpos
        dsimp only at hpos ⊢
        obtain ⟨m1, m2, m3⟩ := memchr_some D 13 (b.length - 1) e hm
        have hm2 : memchr D2 13 (b.length + t.length - 1) = some e :=
          memchr_eq_some D2 13 _ e (by omega) (by rw [hag e (by omega)]; exact m2)
            (fun j hj => by rw [hag j (by omega)]; exact m3 j hj)
        rw [hm2]
        dsimp only
        rw [hag (e + 1) (by omega)]
        by_cases hlf : rd D (e + 1) ≠ 10
        · rw [if_pos hlf] at hpos
          exact absurd hpos (by decide : ¬ (0 : Int) < kWrongProtocol)
        · rw [if_neg hlf, if_neg hlf]
          exact DecodeV1_loop_congr (wr D e 0) (wr D2 e 0) b.length (b.length + t.length) e
            src dst
            (fun j hj => by
              by_cases hje : j = e
              · rw [hje, rd_wr_same, rd_wr_same]
              · rw [rd_wr_of_ne _ _ _ _ hje, rd_wr_of_ne _ _ _ _ hje, hag j (by omega)])
            (by rw [rd_wr_same]) (by omega) (by omega)
    · exfalso
      unfold DecodeProxyProto at hpos
      rw [if_neg c1, if_neg c2] at hpos
      split_ifs at hpos
      all_goals first
        | exact absurd hpos (by decide : ¬ (0 : Int) < kWrongProtocol)
        | exact absurd hpos (by decide : ¬ (0 : Int) < kNeedMoreData)

end ProxyProto
